import Mathlib

/-!
# McBopomofo engine: syllables, keyboard layouts, reading buffer, language model

A shallow embedding of `Source/Engine/Mandarin/Mandarin.h` and of
`Source/Engine/McBopomofoLM.cpp`, followed by theorems about the embedded
definitions.

Conventions of the embedding:

* `uint16_t` values (`BPMF::Component`) are `Fin 65536`; every conversion of an
  `int`-valued expression to `uint16_t` is an explicit reduction modulo `2^16`
  (`toComponent`, `intToComponent`).  Bitwise operators are taken on the
  underlying natural numbers.
* `char` values are integers; `std::string` over them is `List CChar`.
* `std::map` is an association list listing the entries in iteration order.
-/

namespace Formosa
namespace Mandarin

/-! ## Machine integers -/

/-- The type `uint16_t` (`BopomofoSyllable::Component`). -/
abbrev Component := Fin 65536

/-- Conversion of a non-negative `int` value to `uint16_t`. -/
def toComponent (n : Nat) : Component := ⟨n % 65536, Nat.mod_lt n (by decide)⟩

/-- Conversion of an arbitrary `int` value to `uint16_t`. -/
def intToComponent (z : Int) : Component :=
  ⟨(z % 65536).toNat, by
    have h1 : 0 ≤ z % 65536 := Int.emod_nonneg z (by decide)
    have h2 : z % 65536 < 65536 := Int.emod_lt_of_pos z (by decide)
    omega⟩

/-- The bit pattern of `~mask` once `mask` is promoted to a 32-bit `int`. -/
def intNot (mask : Component) : Nat := 0xFFFFFFFF ^^^ mask.val

/-- The type `char`, as the integer it holds. -/
abbrev CChar := Int

/-- Conversion of an `int` value to `char` (8 bits); `signedChar` tells whether
the platform's plain `char` is signed. -/
def toChar (signedChar : Bool) (z : Int) : CChar :=
  if signedChar then (z + 128) % 256 - 128 else z % 256

/-! ## BopomofoSyllable -/

/-- Class `BopomofoSyllable`: one packed 16-bit value. -/
structure BopomofoSyllable where
  m_syllable : Component
deriving DecidableEq, Repr

/-- The alias `BPMF`. -/
abbrev BPMF := BopomofoSyllable

namespace BopomofoSyllable

def ConsonantMask : Component := 0x001f
def MiddleVowelMask : Component := 0x0060
def VowelMask : Component := 0x0780
def ToneMarkerMask : Component := 0x3800
def B : Component := 0x0001
def P : Component := 0x0002
def M : Component := 0x0003
def F : Component := 0x0004
def D : Component := 0x0005
def T : Component := 0x0006
def N : Component := 0x0007
def L : Component := 0x0008
def G : Component := 0x0009
def K : Component := 0x000a
def H : Component := 0x000b
def J : Component := 0x000c
def Q : Component := 0x000d
def X : Component := 0x000e
def ZH : Component := 0x000f
def CH : Component := 0x0010
def SH : Component := 0x0011
def R : Component := 0x0012
def Z : Component := 0x0013
def C : Component := 0x0014
def S : Component := 0x0015
def I : Component := 0x0020
def U : Component := 0x0040
def UE : Component := 0x0060
def A : Component := 0x0080
def O : Component := 0x0100
def ER : Component := 0x0180
def E : Component := 0x0200
def AI : Component := 0x0280
def EI : Component := 0x0300
def AO : Component := 0x0380
def OU : Component := 0x0400
def AN : Component := 0x0480
def EN : Component := 0x0500
def ANG : Component := 0x0580
def ENG : Component := 0x0600
def ERR : Component := 0x0680
def Tone1 : Component := 0x0000
def Tone2 : Component := 0x0800
def Tone3 : Component := 0x1000
def Tone4 : Component := 0x1800
def Tone5 : Component := 0x2000

/-- The default constructor `BopomofoSyllable()`. -/
def empty : BopomofoSyllable := ⟨0⟩

/-- Method `clear`. -/
def clear (_s : BopomofoSyllable) : BopomofoSyllable := ⟨0⟩

/-- Method `isEmpty`. -/
def isEmpty (s : BopomofoSyllable) : Bool := s.m_syllable.val == 0

/-- Method `hasConsonant`. -/
def hasConsonant (s : BopomofoSyllable) : Bool :=
  (s.m_syllable.val &&& ConsonantMask.val) != 0

/-- Method `hasMiddleVowel`. -/
def hasMiddleVowel (s : BopomofoSyllable) : Bool :=
  (s.m_syllable.val &&& MiddleVowelMask.val) != 0

/-- Method `hasVowel`. -/
def hasVowel (s : BopomofoSyllable) : Bool :=
  (s.m_syllable.val &&& VowelMask.val) != 0

/-- Method `hasToneMarker`. -/
def hasToneMarker (s : BopomofoSyllable) : Bool :=
  (s.m_syllable.val &&& ToneMarkerMask.val) != 0

/-- Method `consonantComponent`. -/
def consonantComponent (s : BopomofoSyllable) : Component :=
  toComponent (s.m_syllable.val &&& ConsonantMask.val)

/-- Method `middleVowelComponent`. -/
def middleVowelComponent (s : BopomofoSyllable) : Component :=
  toComponent (s.m_syllable.val &&& MiddleVowelMask.val)

/-- Method `vowelComponent`. -/
def vowelComponent (s : BopomofoSyllable) : Component :=
  toComponent (s.m_syllable.val &&& VowelMask.val)

/-- Method `toneMarkerComponent`. -/
def toneMarkerComponent (s : BopomofoSyllable) : Component :=
  toComponent (s.m_syllable.val &&& ToneMarkerMask.val)

/-- The `IOW_SAND(mask)` pattern of `isOverlappingWith`. -/
def IOW_SAND (s another : BopomofoSyllable) (mask : Component) : Bool :=
  ((s.m_syllable.val &&& mask.val) != 0) && ((another.m_syllable.val &&& mask.val) != 0)

/-- Method `isOverlappingWith`. -/
def isOverlappingWith (s another : BopomofoSyllable) : Bool :=
  IOW_SAND s another ConsonantMask || IOW_SAND s another MiddleVowelMask ||
    IOW_SAND s another VowelMask || IOW_SAND s another ToneMarkerMask

/-- Method `belongsToJQXClass`. -/
def belongsToJQXClass (s : BopomofoSyllable) : Bool :=
  let consonant := toComponent (s.m_syllable.val &&& ConsonantMask.val)
  consonant == J || consonant == Q || consonant == X

/-- Method `belongsToZCSRClass`. -/
def belongsToZCSRClass (s : BopomofoSyllable) : Bool :=
  let consonant := toComponent (s.m_syllable.val &&& ConsonantMask.val)
  decide (ZH.val ≤ consonant.val) && decide (consonant.val ≤ S.val)

/-- Method `maskType`. -/
def maskType (s : BopomofoSyllable) : Component :=
  let mask : Component := 0
  let mask := toComponent (mask.val |||
    (if (s.m_syllable.val &&& ConsonantMask.val) != 0 then ConsonantMask.val else 0))
  let mask := toComponent (mask.val |||
    (if (s.m_syllable.val &&& MiddleVowelMask.val) != 0 then MiddleVowelMask.val else 0))
  let mask := toComponent (mask.val |||
    (if (s.m_syllable.val &&& VowelMask.val) != 0 then VowelMask.val else 0))
  let mask := toComponent (mask.val |||
    (if (s.m_syllable.val &&& ToneMarkerMask.val) != 0 then ToneMarkerMask.val else 0))
  mask

/-- The `OP_SOVER(mask)` statement of `operator+` (and `OPE_SOVER` of
`operator+=`): when `another` occupies the field, replace the field. -/
def OP_SOVER (newSyllable another mask : Component) : Component :=
  if (another.val &&& mask.val) != 0 then
    toComponent ((newSyllable.val &&& intNot mask) ||| (another.val &&& mask.val))
  else newSyllable

/-- The method `operator+`. -/
def operatorPlus (s another : BopomofoSyllable) : BopomofoSyllable :=
  let newSyllable := s.m_syllable
  let newSyllable := OP_SOVER newSyllable another.m_syllable ConsonantMask
  let newSyllable := OP_SOVER newSyllable another.m_syllable MiddleVowelMask
  let newSyllable := OP_SOVER newSyllable another.m_syllable VowelMask
  let newSyllable := OP_SOVER newSyllable another.m_syllable ToneMarkerMask
  ⟨newSyllable⟩

/-- The method `operator+=`; the result is the new value of the left operand. -/
def operatorPlusAssign (s another : BopomofoSyllable) : BopomofoSyllable :=
  let s : BopomofoSyllable := ⟨OP_SOVER s.m_syllable another.m_syllable ConsonantMask⟩
  let s : BopomofoSyllable := ⟨OP_SOVER s.m_syllable another.m_syllable MiddleVowelMask⟩
  let s : BopomofoSyllable := ⟨OP_SOVER s.m_syllable another.m_syllable VowelMask⟩
  let s : BopomofoSyllable := ⟨OP_SOVER s.m_syllable another.m_syllable ToneMarkerMask⟩
  s

/-- Method `absoluteOrder`. -/
def absoluteOrder (s : BopomofoSyllable) : Component :=
  toComponent (
    (toComponent (s.m_syllable.val &&& ConsonantMask.val)).val +
    (toComponent ((s.m_syllable.val &&& MiddleVowelMask.val) >>> 5)).val * 22 +
    (toComponent ((s.m_syllable.val &&& VowelMask.val) >>> 7)).val * 22 * 4 +
    (toComponent ((s.m_syllable.val &&& ToneMarkerMask.val) >>> 11)).val * 22 * 4 * 14)

/-- Method `absoluteOrderString`: the two characters `low`, `high`. -/
def absoluteOrderString (signedChar : Bool) (s : BopomofoSyllable) : List CChar :=
  let order := s.absoluteOrder
  let low : CChar := toChar signedChar (48 + toChar signedChar (order.val % 79 : Nat))
  let high : CChar := toChar signedChar (48 + toChar signedChar (order.val / 79 : Nat))
  [low, high]

/-- Static method `FromAbsoluteOrder`. -/
def FromAbsoluteOrder (order : Component) : BopomofoSyllable :=
  ⟨toComponent ((order.val % 22) ||| (((order.val / 22) % 4) <<< 5) |||
    (((order.val / (22 * 4)) % 14) <<< 7) |||
    (((order.val / (22 * 4 * 14)) % 5) <<< 11))⟩

/-- Static method `FromAbsoluteOrderString`. -/
def FromAbsoluteOrderString (str : List CChar) : BopomofoSyllable :=
  match str with
  | [c0, c1] =>
    FromAbsoluteOrder (intToComponent
      (((intToComponent (c1 - 48)).val : Int) * 79 + ((intToComponent (c0 - 48)).val : Int)))
  | _ => empty

/-- A syllable built from valid field combinations: the consonant code is
`0..21`, the vowel index `0..13`, the tone index `0..4` (the medial index is
`0..3` for every value), and no bit lies outside the four fields. -/
def IsValid (s : BopomofoSyllable) : Prop :=
  s.consonantComponent.val ≤ 21 ∧ s.vowelComponent.val >>> 7 ≤ 13 ∧
    s.toneMarkerComponent.val >>> 11 ≤ 4 ∧ s.m_syllable.val < 16384

instance (s : BopomofoSyllable) : Decidable s.IsValid := by
  unfold IsValid; infer_instance

end BopomofoSyllable

/-! ## BopomofoKeyboardLayout -/

/-- The type `BopomofoKeyToComponentMap` (`std::map<char, std::vector<Component>>`):
the entries in iteration order.  The keys of a map are pairwise distinct. -/
abbrev BopomofoKeyToComponentMap := List (CChar × List Component)

/-- The type `BopomofoComponentToKeyMap` (`std::map<Component, char>`): an
association list in which `find` returns the first entry for a key and
`m[c] = k` puts the new entry in front. -/
abbrev BopomofoComponentToKeyMap := List (Component × CChar)

/-- Which object a layout is.  The source compares layout addresses with the
process-wide constants (`this == HsuLayout()`, `layout == HanyuPinyinLayout()`);
`Custom` is any other object. -/
inductive LayoutIdentity where
  | StandardLayout
  | ETenLayout
  | HsuLayout
  | ETen26Layout
  | IBMLayout
  | HanyuPinyinLayout
  | Custom
deriving DecidableEq, Repr

/-- Class `BopomofoKeyboardLayout`. -/
structure BopomofoKeyboardLayout where
  m_identity : LayoutIdentity
  m_name : String
  m_keyToComponent : BopomofoKeyToComponentMap
  m_componentToKey : BopomofoComponentToKeyMap
deriving DecidableEq, Repr

namespace BopomofoKeyboardLayout

open BopomofoSyllable

/-- The constructor's loops: for every entry of the key map in iteration
order and every component of its vector, `m_componentToKey[component] = key`. -/
def buildComponentToKey (ktcm : BopomofoKeyToComponentMap) : BopomofoComponentToKeyMap :=
  ktcm.foldl
    (fun acc miter => miter.2.foldl (fun acc2 viter => (viter, miter.1) :: acc2) acc) []

/-- The constructor `BopomofoKeyboardLayout(ktcm, name)` of the object `identity`. -/
def ctor (identity : LayoutIdentity) (ktcm : BopomofoKeyToComponentMap) (name : String) :
    BopomofoKeyboardLayout :=
  { m_identity := identity, m_name := name, m_keyToComponent := ktcm,
    m_componentToKey := buildComponentToKey ktcm }

/-- Method `name`. -/
def name (l : BopomofoKeyboardLayout) : String := l.m_name

/-- Method `componentToKey`. -/
def componentToKey (l : BopomofoKeyboardLayout) (component : Component) : CChar :=
  match l.m_componentToKey.lookup component with
  | none => 0
  | some k => k

/-- Method `keyToComponents`. -/
def keyToComponents (l : BopomofoKeyboardLayout) (key : CChar) : List Component :=
  match l.m_keyToComponent.lookup key with
  | none => []
  | some v => v

/-- The `STKS_COMBINE(component)` statement of `keySequenceFromSyllable`. -/
def STKS_COMBINE (l : BopomofoKeyboardLayout) (sequence : List CChar) (component : Component) :
    List CChar :=
  let c := component
  if c.val != 0 then
    let k := l.componentToKey c
    if k != 0 then sequence ++ [k] else sequence
  else sequence

/-- Method `keySequenceFromSyllable`. -/
def keySequenceFromSyllable (l : BopomofoKeyboardLayout) (syllable : BPMF) : List CChar :=
  let sequence : List CChar := []
  let sequence := l.STKS_COMBINE sequence syllable.consonantComponent
  let sequence := l.STKS_COMBINE sequence syllable.middleVowelComponent
  let sequence := l.STKS_COMBINE sequence syllable.vowelComponent
  let sequence := l.STKS_COMBINE sequence syllable.toneMarkerComponent
  sequence

/-- Method `endAheadOrAheadHasToneMarkKey`; `range` is the part of the sequence
from `ahead` to `end`. -/
def endAheadOrAheadHasToneMarkKey (l : BopomofoKeyboardLayout) (range : List CChar) : Bool :=
  match range with
  | [] => true
  | ahead :: _ =>
    let tone1 := l.componentToKey Tone1
    let tone2 := l.componentToKey Tone2
    let tone3 := l.componentToKey Tone3
    let tone4 := l.componentToKey Tone4
    let tone5 := l.componentToKey Tone5
    if tone1 != 0 && ahead == tone1 then true
    else if ahead == tone2 || ahead == tone3 || ahead == tone4 || ahead == tone5 then true
    else false

/-- Method `sequenceContainsIorUE`; `range` is the part of the sequence from
`start` to `end`. -/
def sequenceContainsIorUE (l : BopomofoKeyboardLayout) (range : List CChar) : Bool :=
  let iChar := l.componentToKey I
  let ueChar := l.componentToKey UE
  range.any (fun c => c == iChar || c == ueChar)

/-- One iteration of the loop of `syllableFromKeySequence`: `before` is the
sequence up to `iter`, `key` is `*iter`, `ahead` the sequence from `iter + 1`. -/
def syllableFromKeySequenceStep (l : BopomofoKeyboardLayout) (before : List CChar) (key : CChar)
    (ahead : List CChar) (syllable : BPMF) : BPMF :=
  let beforeSeqHasIorUE := l.sequenceContainsIorUE before
  let aheadSeqHasIorUE := l.sequenceContainsIorUE ahead
  match l.keyToComponents key with
  | [] => syllable
  | [c0] => syllable.operatorPlusAssign ⟨c0⟩
  | c0 :: c1 :: more =>
    let head : BPMF := ⟨c0⟩
    let follow : BPMF := ⟨c1⟩
    let ending : BPMF :=
      match more with
      | c2 :: _ => ⟨c2⟩
      | [] => follow
    -- apply the I/UE + E rule
    if head.vowelComponent == E && follow.vowelComponent != E then
      syllable.operatorPlusAssign (if beforeSeqHasIorUE then head else follow)
    else if head.vowelComponent != E && follow.vowelComponent == E then
      syllable.operatorPlusAssign (if beforeSeqHasIorUE then follow else head)
    -- apply the J/Q/X + I/UE rule
    else if head.belongsToJQXClass && !follow.belongsToJQXClass then
      if !syllable.isEmpty then
        if ending != follow then syllable.operatorPlusAssign ending else syllable
      else
        syllable.operatorPlusAssign (if aheadSeqHasIorUE then head else follow)
    else if !head.belongsToJQXClass && follow.belongsToJQXClass then
      if !syllable.isEmpty then
        if ending != follow then syllable.operatorPlusAssign ending else syllable
      else
        syllable.operatorPlusAssign (if aheadSeqHasIorUE then follow else head)
    -- the nasty issue of only one char in the buffer
    else if before.isEmpty && ahead.isEmpty then
      if head.hasVowel || follow.hasToneMarker || head.belongsToZCSRClass then
        syllable.operatorPlusAssign head
      else if follow.hasVowel || ending.hasToneMarker then
        syllable.operatorPlusAssign follow
      else
        syllable.operatorPlusAssign ending
    else if (syllable.maskType.val &&& head.maskType.val) == 0 &&
        !l.endAheadOrAheadHasToneMarkKey ahead then
      syllable.operatorPlusAssign head
    else if l.endAheadOrAheadHasToneMarkKey ahead && head.belongsToZCSRClass &&
        syllable.isEmpty then
      syllable.operatorPlusAssign head
    else if syllable.maskType.val < follow.maskType.val then
      syllable.operatorPlusAssign follow
    else
      syllable.operatorPlusAssign ending

/-- The loop of `syllableFromKeySequence` from position `iter` on. -/
def syllableFromKeySequenceLoop (l : BopomofoKeyboardLayout) :
    List CChar → List CChar → BPMF → BPMF
  | _, [], syllable => syllable
  | before, key :: ahead, syllable =>
    syllableFromKeySequenceLoop l (before ++ [key]) ahead
      (l.syllableFromKeySequenceStep before key ahead syllable)

/-- The heuristics for the Hsu keyboard layout that end `syllableFromKeySequence`. -/
def hsuHeuristics (l : BopomofoKeyboardLayout) (syllable : BPMF) : BPMF :=
  if l.m_identity = LayoutIdentity.HsuLayout then
    if syllable.vowelComponent == ENG && !syllable.hasConsonant && !syllable.hasMiddleVowel then
      syllable.operatorPlusAssign ⟨ERR⟩
    else if syllable.consonantComponent == G &&
        (syllable.middleVowelComponent == I || syllable.middleVowelComponent == UE) then
      syllable.operatorPlusAssign ⟨J⟩
    else syllable
  else syllable

/-- Method `syllableFromKeySequence`. -/
def syllableFromKeySequence (l : BopomofoKeyboardLayout) (sequence : List CChar) : BPMF :=
  l.hsuHeuristics (l.syllableFromKeySequenceLoop [] sequence BopomofoSyllable.empty)

end BopomofoKeyboardLayout

/-! ## BopomofoReadingBuffer -/

/-- The C function `tolower` on a `char` (in the "C" locale). -/
def tolower (k : CChar) : CChar := if 65 ≤ k ∧ k ≤ 90 then k + 32 else k

/-- Class `BopomofoReadingBuffer`; `m_layout` is `none` for a null pointer. -/
structure BopomofoReadingBuffer where
  m_layout : Option BopomofoKeyboardLayout
  m_syllable : BPMF
  m_pinyinMode : Bool
  m_pinyinSequence : List CChar
deriving DecidableEq, Repr

namespace BopomofoReadingBuffer

/-- Whether a layout pointer equals `BopomofoKeyboardLayout::HanyuPinyinLayout()`. -/
def isHanyuPinyinLayout (layout : Option BopomofoKeyboardLayout) : Bool :=
  match layout with
  | some l => decide (l.m_identity = LayoutIdentity.HanyuPinyinLayout)
  | none => false

/-- The constructor `BopomofoReadingBuffer(layout)`. -/
def ctor (layout : Option BopomofoKeyboardLayout) : BopomofoReadingBuffer :=
  let b : BopomofoReadingBuffer :=
    { m_layout := layout, m_syllable := BopomofoSyllable.empty, m_pinyinMode := false,
      m_pinyinSequence := [] }
  if isHanyuPinyinLayout layout then
    { b with m_pinyinMode := true, m_pinyinSequence := [] }
  else b

/-- Method `setKeyboardLayout`. -/
def setKeyboardLayout (b : BopomofoReadingBuffer) (layout : Option BopomofoKeyboardLayout) :
    BopomofoReadingBuffer :=
  let b := { b with m_layout := layout }
  if isHanyuPinyinLayout layout then
    { b with m_pinyinMode := true, m_pinyinSequence := [] }
  else b

/-- Method `isValidKey`. -/
def isValidKey (b : BopomofoReadingBuffer) (k : CChar) : Bool :=
  if !b.m_pinyinMode then
    match b.m_layout with
    | some l => decide ((l.keyToComponents k).length > 0)
    | none => false
  else
    let lk := tolower k
    if lk ≥ 97 ∧ lk ≤ 122 then
      -- if a tone marker is already in place
      match b.m_pinyinSequence.getLast? with
      | some lastc => if lastc ≥ 50 ∧ lastc ≤ 53 then false else true
      | none => true
    else if b.m_pinyinSequence.length != 0 && (decide (lk ≥ 50) && decide (lk ≤ 53)) then true
    else false

/-- Method `combineKey`: the returned flag and the buffer afterwards.
`FromHanyuPinyin` is `BopomofoSyllable::FromHanyuPinyin`, which the header only
declares. -/
def combineKey (FromHanyuPinyin : List CChar → BPMF) (b : BopomofoReadingBuffer) (k : CChar) :
    Bool × BopomofoReadingBuffer :=
  if !b.isValidKey k then (false, b)
  else if b.m_pinyinMode then
    let m_pinyinSequence := b.m_pinyinSequence ++ [tolower k]
    (true, { b with m_pinyinSequence := m_pinyinSequence,
                    m_syllable := FromHanyuPinyin m_pinyinSequence })
  else
    match b.m_layout with
    | some l =>
      let sequence := l.keySequenceFromSyllable b.m_syllable ++ [k]
      (true, { b with m_syllable := l.syllableFromKeySequence sequence })
    | none => (true, b) -- not reached: without a layout no key is valid

/-- Method `clear`. -/
def clear (b : BopomofoReadingBuffer) : BopomofoReadingBuffer :=
  { b with m_pinyinSequence := [], m_syllable := b.m_syllable.clear }

/-- Method `backspace`. -/
def backspace (FromHanyuPinyin : List CChar → BPMF) (b : BopomofoReadingBuffer) :
    BopomofoReadingBuffer :=
  match b.m_layout with
  | none => b
  | some l =>
    if b.m_pinyinMode then
      let m_pinyinSequence :=
        if b.m_pinyinSequence.length != 0 then b.m_pinyinSequence.dropLast
        else b.m_pinyinSequence
      { b with m_pinyinSequence := m_pinyinSequence,
               m_syllable := FromHanyuPinyin m_pinyinSequence }
    else
      let sequence := l.keySequenceFromSyllable b.m_syllable
      if sequence.length != 0 then
        { b with m_syllable := l.syllableFromKeySequence sequence.dropLast }
      else b

/-- Method `isEmpty`. -/
def isEmpty (b : BopomofoReadingBuffer) : Bool := b.m_syllable.isEmpty

/-- Method `syllable`. -/
def syllable (b : BopomofoReadingBuffer) : BPMF := b.m_syllable

/-- Method `hasToneMarker`. -/
def hasToneMarker (b : BopomofoReadingBuffer) : Bool := b.m_syllable.hasToneMarker

end BopomofoReadingBuffer

end Mandarin
end Formosa

/-! ## McBopomofoLM -/

namespace McBopomofo

/-- The class `Formosa::Gramambular2::LanguageModel::Unigram`: a value and a
score.  Scores are only copied around, so their type is left open; `0` is the
one score the code writes itself. -/
structure Unigram (σ : Type) where
  m_value : String
  m_score : σ
deriving DecidableEq, Repr

/-- Method `Unigram::value`. -/
def Unigram.value {σ : Type} (u : Unigram σ) : String := u.m_value

/-- Method `Unigram::score`. -/
def Unigram.score {σ : Type} (u : Unigram σ) : σ := u.m_score

/-- The interface of a phrase store as the aggregator uses it
(`m_languageModel`, `m_userPhrases`, `m_excludedPhrases`): the two queries
`hasUnigrams` and `getUnigrams`, and for the global model the reverse query
`getReadings` (raw record strings of a value).  The stores themselves are
external. -/
structure PhraseSource (σ : Type) where
  hasUnigrams : String → Bool
  getUnigrams : String → List (Unigram σ)
  getReadings : String → List String := fun _ => []

/-- Class `McBopomofoLM`: the members that `getUnigrams` and `hasUnigrams`
read.  `m_phraseReplacement` is the store's `valueForKey`; an empty
`std::function` is `none`. -/
structure McBopomofoLM (σ : Type) where
  m_languageModel : PhraseSource σ
  m_userPhrases : PhraseSource σ
  m_excludedPhrases : PhraseSource σ
  m_phraseReplacement : String → String
  m_phraseReplacementEnabled : Bool
  m_externalConverterEnabled : Bool
  m_externalConverter : Option (String → String)

/-- The operation `std::unordered_set<std::string>::insert`, on a set kept as a
list without repetition. -/
def setInsert (set : List String) (x : String) : List String :=
  if set.contains x then set else x :: set

namespace McBopomofoLM

/-- The value a unigram ends up with in `filterAndTransformUnigrams`: phrase
replacement when enabled and non-empty, then the external converter when
enabled and set. -/
def transformValue {σ : Type} (lm : McBopomofoLM σ) (originalValue : String) : String :=
  let value := originalValue
  let value :=
    if lm.m_phraseReplacementEnabled then
      let replacement := lm.m_phraseReplacement value
      if replacement != "" then replacement else value
    else value
  let value :=
    match lm.m_externalConverterEnabled, lm.m_externalConverter with
    | true, some externalConverter => externalConverter value
    | _, _ => value
  value

/-- The loop of `filterAndTransformUnigrams` over the remaining unigrams,
with the current `results` and `insertedValues`. -/
def filterAndTransformLoop {σ : Type} (lm : McBopomofoLM σ) (excludedValues : List String) :
    List (Unigram σ) → List (Unigram σ) → List String → List (Unigram σ) × List String
  | [], results, insertedValues => (results, insertedValues)
  | unigram :: rest, results, insertedValues =>
    let originalValue := unigram.value
    if excludedValues.contains originalValue then
      filterAndTransformLoop lm excludedValues rest results insertedValues
    else
      let value := lm.transformValue originalValue
      if !insertedValues.contains value then
        filterAndTransformLoop lm excludedValues rest
          (results ++ [⟨value, unigram.score⟩]) (setInsert insertedValues value)
      else
        filterAndTransformLoop lm excludedValues rest results insertedValues

/-- Method `filterAndTransformUnigrams`: the returned list and `insertedValues`
afterwards. -/
def filterAndTransformUnigrams {σ : Type} (lm : McBopomofoLM σ) (unigrams : List (Unigram σ))
    (excludedValues : List String) (insertedValues : List String) :
    List (Unigram σ) × List String :=
  filterAndTransformLoop lm excludedValues unigrams [] insertedValues

/-- Method `getUnigrams`. -/
def getUnigrams {σ : Type} [Zero σ] (lm : McBopomofoLM σ) (key : String) : List (Unigram σ) :=
  if key == " " then
    [⟨" ", 0⟩]
  else
    let excludedValues : List String :=
      if lm.m_excludedPhrases.hasUnigrams key then
        (lm.m_excludedPhrases.getUnigrams key).foldl (fun set u => setInsert set u.value) []
      else []
    let insertedValues : List String := []
    let user : List (Unigram σ) × List String :=
      if lm.m_userPhrases.hasUnigrams key then
        lm.filterAndTransformUnigrams (lm.m_userPhrases.getUnigrams key) excludedValues
          insertedValues
      else ([], insertedValues)
    let userUnigrams := user.1
    let insertedValues := user.2
    let all : List (Unigram σ) × List String :=
      if lm.m_languageModel.hasUnigrams key then
        lm.filterAndTransformUnigrams (lm.m_languageModel.getUnigrams key) excludedValues
          insertedValues
      else ([], insertedValues)
    let allUnigrams := all.1
    userUnigrams ++ allUnigrams

/-- Method `hasUnigrams`. -/
def hasUnigrams {σ : Type} [Zero σ] (lm : McBopomofoLM σ) (key : String) : Bool :=
  if key == " " then true
  else if !lm.m_excludedPhrases.hasUnigrams key then
    lm.m_userPhrases.hasUnigrams key || lm.m_languageModel.hasUnigrams key
  else decide ((lm.getUnigrams key).length > 0)

/-- The constant `std::string_view::npos` (the largest `size_t`, 64 bits). -/
def npos : Nat := 18446744073709551615

/-- The position of the first character of `l` that satisfies `p`, counted from
`pos` for the head of `l`; `npos` when there is none. -/
def findFrom (p : Char → Bool) : List Char → Nat → Nat
  | [], _ => npos
  | c :: cs, pos => if p c then pos else findFrom p cs (pos + 1)

/-- The operation `str.find_first_not_of(delim, pos)`. -/
def find_first_not_of (str : List Char) (delim : Char) (pos : Nat) : Nat :=
  findFrom (fun c => c != delim) (str.drop pos) pos

/-- The operation `str.find(delim, pos)`. -/
def find (str : List Char) (delim : Char) (pos : Nat) : Nat :=
  findFrom (fun c => c == delim) (str.drop pos) pos

/-- The operation `str.substr(pos, count)` for `pos` within the string. -/
def substr (str : List Char) (pos count : Nat) : List Char :=
  (str.drop pos).take count

/-- The `while` loop of `split`, run for at most `fuel` iterations, from the
current `end` (`endPos`) and `strings`. -/
def splitLoop (str : List Char) (delim : Char) : Nat → Nat → List String → List String
  | 0, _, strings => strings
  | fuel + 1, endPos, strings =>
    let start := find_first_not_of str delim endPos
    if start != npos then
      let endPos := find str delim start
      splitLoop str delim fuel endPos (strings ++ [String.mk (substr str start (endPos - start))])
    else strings

/-- Method `split`.  Every iteration but the last moves `end` forward, so
`str.length + 1` iterations are enough (`splitLoop_fuel`). -/
def split (str : String) (delim : Char) : List String :=
  splitLoop str.toList delim (str.length + 1) 0 []

/-- The loop of `getReading` over the remaining records, with the current
`highScore` and `highScoringValue`.  `stod` is `std::stod`, `none` when it
throws; the result is `none` when the exception leaves `getReading`. -/
def getReadingLoop {σ : Type} [LinearOrder σ] (stod : String → Option σ) :
    List String → σ → String → Option String
  | [], _, highScoringValue => some highScoringValue
  | record :: rest, highScore, highScoringValue =>
    match split record ' ' with
    | [part0, _, part2] =>
      match stod part2 with
      | none => none
      | some score =>
        if score > highScore then getReadingLoop stod rest score part0
        else getReadingLoop stod rest highScore highScoringValue
    | _ => getReadingLoop stod rest highScore highScoringValue

/-- Method `getReading`.  Scores are `double`s compared with `>`: they are
taken in a linear order (no NaN), `negDblMax` being the value `-DBL_MAX`. -/
def getReading {σ : Type} [LinearOrder σ] (lm : McBopomofoLM σ) (stod : String → Option σ)
    (negDblMax : σ) (value : String) : Option String :=
  let records := lm.m_languageModel.getReadings value
  getReadingLoop stod records negDblMax ""

end McBopomofoLM

end McBopomofo

/-! ## Vocabulary of the statements -/

namespace Formosa
namespace Mandarin

/-- A field component of a syllable is typed by a key of its own in the layout:
if the field is occupied, `componentToKey` gives a key (non-zero) and that key
maps to exactly one component. -/
def FieldHasOwnKey (l : BopomofoKeyboardLayout) (c : Component) : Prop :=
  c.val ≠ 0 → l.componentToKey c ≠ 0 ∧ (l.keyToComponents (l.componentToKey c)).length = 1

instance (l : BopomofoKeyboardLayout) (c : Component) : Decidable (FieldHasOwnKey l c) := by
  unfold FieldHasOwnKey; infer_instance

/-- A small key table used in examples: `d`, `i`, `a` and `2` have one
component each, `x` and `g` have two. -/
def exampleKeyTable : BopomofoKeyToComponentMap :=
  [(100, [BopomofoSyllable.D]), (105, [BopomofoSyllable.I]), (97, [BopomofoSyllable.A]),
   (50, [BopomofoSyllable.Tone2]), (120, [BopomofoSyllable.X, BopomofoSyllable.E]),
   (103, [BopomofoSyllable.G, BopomofoSyllable.J])]

/-- The layout constructed from `exampleKeyTable`. -/
def exampleLayout : BopomofoKeyboardLayout :=
  BopomofoKeyboardLayout.ctor LayoutIdentity.Custom exampleKeyTable "example"

/-- A reading buffer in layout mode on `exampleLayout`, holding the consonant `D`. -/
def exampleBuffer : BopomofoReadingBuffer :=
  { m_layout := some exampleLayout, m_syllable := ⟨BopomofoSyllable.D⟩, m_pinyinMode := false,
    m_pinyinSequence := [] }

/-- A key table in which the key `-1` (the character `0xFF` of a signed `char`)
and the NUL key both map to the consonant `D`; the keys are in ascending order. -/
def nulShadowKeyTable : BopomofoKeyToComponentMap :=
  [(-1, [BopomofoSyllable.D]), (0, [BopomofoSyllable.D])]

/-- The layout constructed from `nulShadowKeyTable`. -/
def nulShadowLayout : BopomofoKeyboardLayout :=
  BopomofoKeyboardLayout.ctor LayoutIdentity.Custom nulShadowKeyTable "nul-shadow"

/-- The argument that `FromAbsoluteOrderString` passes to `FromAbsoluteOrder`
for the two characters `c0`, `c1`: `(uint16_t)(c1 - 48) * 79 + (uint16_t)(c0 - 48)`,
converted to `uint16_t`. -/
def decodedOrder (c0 c1 : CChar) : Component :=
  intToComponent
    (((intToComponent (c1 - 48)).val : Int) * 79 + ((intToComponent (c0 - 48)).val : Int))

/-- A key table whose key `g` lists `G`, `J` and again `G`; the key `i` maps to
the medial `I`. -/
def palatalKeyTable : BopomofoKeyToComponentMap :=
  [(103, [BopomofoSyllable.G, BopomofoSyllable.J, BopomofoSyllable.G]),
   (105, [BopomofoSyllable.I])]

/-- The layout constructed from `palatalKeyTable`. -/
def palatalLayout : BopomofoKeyboardLayout :=
  BopomofoKeyboardLayout.ctor LayoutIdentity.Custom palatalKeyTable "palatal"

/-- The Hanyu-Pinyin layout object: an empty key table. -/
def hanyuPinyinLayout : BopomofoKeyboardLayout :=
  BopomofoKeyboardLayout.ctor LayoutIdentity.HanyuPinyinLayout [] "HanyuPinyin"

/-- The shape the raw string of the direct-romanization mode keeps: lower-case
letters followed by tone digits `2..5`, with no digit unless there is a letter. -/
def PinyinShape (sequence : List CChar) : Prop :=
  ∃ letters digits : List CChar, sequence = letters ++ digits ∧
    (∀ c ∈ letters, (97 : Int) ≤ c ∧ c ≤ (122 : Int)) ∧
    (∀ c ∈ digits, (50 : Int) ≤ c ∧ c ≤ (53 : Int)) ∧ (letters = [] → digits = [])

/-- A key table in which every key maps to one component. -/
def unambiguousKeyTable : BopomofoKeyToComponentMap :=
  [(100, [BopomofoSyllable.D]), (105, [BopomofoSyllable.I]), (97, [BopomofoSyllable.A]),
   (50, [BopomofoSyllable.Tone2])]

/-- The layout constructed from `unambiguousKeyTable`. -/
def unambiguousLayout : BopomofoKeyboardLayout :=
  BopomofoKeyboardLayout.ctor LayoutIdentity.Custom unambiguousKeyTable "unambiguous"

/-- A layout object that is the Hsu layout, with the keys `g` for `G` and `i`
for `I` only. -/
def hsuExampleLayout : BopomofoKeyboardLayout :=
  BopomofoKeyboardLayout.ctor LayoutIdentity.HsuLayout
    [(103, [BopomofoSyllable.G]), (105, [BopomofoSyllable.I])] "Hsu"

/-- The field-validity of claim C22: the consonant code is `0..21`, the vowel
index `0..13` and the tone index `0..4`; nothing is asked of the medial (every
value `0..3` is a code) nor of the two bits above the tone field. -/
def BopomofoSyllable.FieldsValid (s : BopomofoSyllable) : Prop :=
  s.consonantComponent.val ≤ 21 ∧ s.vowelComponent.val >>> 7 ≤ 13 ∧
    s.toneMarkerComponent.val >>> 11 ≤ 4

instance (s : BopomofoSyllable) : Decidable s.FieldsValid := by
  unfold BopomofoSyllable.FieldsValid; infer_instance

/-- Number of the four fields (consonant, medial, vowel, tone) that a syllable
occupies. -/
def BopomofoSyllable.occupiedFields (s : BopomofoSyllable) : Nat :=
  (if s.hasConsonant then 1 else 0) + (if s.hasMiddleVowel then 1 else 0) +
    (if s.hasVowel then 1 else 0) + (if s.hasToneMarker then 1 else 0)

/-- Each occupied field of the syllable has a key in the layout: `componentToKey`
of the field component is non-zero. -/
def KeyedFields (l : BopomofoKeyboardLayout) (s : BopomofoSyllable) : Prop :=
  (s.hasConsonant = true → l.componentToKey s.consonantComponent ≠ 0) ∧
  (s.hasMiddleVowel = true → l.componentToKey s.middleVowelComponent ≠ 0) ∧
  (s.hasVowel = true → l.componentToKey s.vowelComponent ≠ 0) ∧
  (s.hasToneMarker = true → l.componentToKey s.toneMarkerComponent ≠ 0)

instance (l : BopomofoKeyboardLayout) (s : BopomofoSyllable) : Decidable (KeyedFields l s) := by
  unfold KeyedFields; infer_instance

/-- A key table without a key for `I` or `UE`: only `g`, listing `G` and `J`. -/
def noIKeyTable : BopomofoKeyToComponentMap :=
  [(103, [BopomofoSyllable.G, BopomofoSyllable.J])]

/-- The layout constructed from `noIKeyTable`. -/
def noIKeyLayout : BopomofoKeyboardLayout :=
  BopomofoKeyboardLayout.ctor LayoutIdentity.Custom noIKeyTable "no-I-key"

/-- A key table in which the keys `a` and `b` both map to the medial `I`; `g`
lists `G` and `J`. -/
def twoIKeysTable : BopomofoKeyToComponentMap :=
  [(97, [BopomofoSyllable.I]), (98, [BopomofoSyllable.I]),
   (103, [BopomofoSyllable.G, BopomofoSyllable.J])]

/-- The layout constructed from `twoIKeysTable`. -/
def twoIKeysLayout : BopomofoKeyboardLayout :=
  BopomofoKeyboardLayout.ctor LayoutIdentity.Custom twoIKeysTable "two-I-keys"

/-- A key table on a build whose `char` is signed, keys in ascending order: the
keys `0xFE` and `0xFF` list the consonant `B`, the key `0xFF` and the NUL key
list the consonant `P`, and `i` maps to the medial `I`. -/
def stuckKeyTable : BopomofoKeyToComponentMap :=
  [(-2, [BopomofoSyllable.B]), (-1, [BopomofoSyllable.B, BopomofoSyllable.P]),
   (0, [BopomofoSyllable.P]), (105, [BopomofoSyllable.I])]

/-- The layout constructed from `stuckKeyTable`. -/
def stuckLayout : BopomofoKeyboardLayout :=
  BopomofoKeyboardLayout.ctor LayoutIdentity.Custom stuckKeyTable "stuck"

end Mandarin
end Formosa

namespace McBopomofo

/-- A value occurs in a phrase source for a key: the source reports unigrams
for the key and one of them has that value. -/
def PhraseSource.HasValue {σ : Type} (src : PhraseSource σ) (key v : String) : Prop :=
  src.hasUnigrams key = true ∧ ∃ u ∈ src.getUnigrams key, u.value = v

instance {σ : Type} (src : PhraseSource σ) (key v : String) : Decidable (src.HasValue key v) := by
  unfold PhraseSource.HasValue; infer_instance

/-- A phrase source holding `entries` under the single key `key`. -/
def singleKeySource {σ : Type} (key : String) (entries : List (Unigram σ)) : PhraseSource σ :=
  { hasUnigrams := fun k => k == key && !entries.isEmpty,
    getUnigrams := fun k => if k == key then entries else [] }

/-- The aggregator of the specification's scenario: for the key `k1` the
excluded source holds `X`, the user source `X` (5) and `Y` (3), the global
source `X` (1), `Y` (2) and `Z` (0); replacement and converter are off. -/
def exampleLM : McBopomofoLM Int :=
  { m_languageModel := singleKeySource "k1" [⟨"X", 1⟩, ⟨"Y", 2⟩, ⟨"Z", 0⟩],
    m_userPhrases := singleKeySource "k1" [⟨"X", 5⟩, ⟨"Y", 3⟩],
    m_excludedPhrases := singleKeySource "k1" [⟨"X", 0⟩],
    m_phraseReplacement := fun _ => "",
    m_phraseReplacementEnabled := false,
    m_externalConverterEnabled := false,
    m_externalConverter := none }

/-- An aggregator with phrase replacement on: for the key `k1` the excluded
source holds `X`, the user source holds `Y` (3), and the replacement map sends
`Y` to `X`. -/
def replacingLM : McBopomofoLM Int :=
  { m_languageModel := singleKeySource "k1" [],
    m_userPhrases := singleKeySource "k1" [⟨"Y", 3⟩],
    m_excludedPhrases := singleKeySource "k1" [⟨"X", 0⟩],
    m_phraseReplacement := fun value => if value == "Y" then "X" else "",
    m_phraseReplacementEnabled := true,
    m_externalConverterEnabled := false,
    m_externalConverter := none }

/-- An aggregator whose excluded source holds a space under the space key. -/
def spaceExcludingLM : McBopomofoLM Int :=
  { m_languageModel := singleKeySource " " [],
    m_userPhrases := singleKeySource " " [],
    m_excludedPhrases := singleKeySource " " [⟨" ", 0⟩],
    m_phraseReplacement := fun _ => "",
    m_phraseReplacementEnabled := false,
    m_externalConverterEnabled := false,
    m_externalConverter := none }

/-- The entries a phrase source contributes for a key: its unigrams when it
reports having any, nothing otherwise. -/
def PhraseSource.entries {σ : Type} (src : PhraseSource σ) (key : String) : List (Unigram σ) :=
  if src.hasUnigrams key then src.getUnigrams key else []

/-- Keep the first occurrence of every value: the head is kept, and its value
is removed from what is kept of the tail. -/
def keepFirstByValue {σ : Type} : List (Unigram σ) → List (Unigram σ)
  | [] => []
  | u :: us => u :: (keepFirstByValue us).filter (fun w => w.value != u.value)

/-- The transformed value as the specification words it: the replacement-map
substitution when replacement is enabled and the map has a non-empty entry for
the value, then the external converter when it is enabled and set. -/
def transformedValueReference {σ : Type} (lm : McBopomofoLM σ) (v : String) : String :=
  let substituted :=
    if lm.m_phraseReplacementEnabled = true ∧ lm.m_phraseReplacement v ≠ "" then
      lm.m_phraseReplacement v
    else v
  match lm.m_externalConverter with
  | some convert => if lm.m_externalConverterEnabled then convert substituted else substituted
  | none => substituted

/-- The aggregation pipeline as the specification words it: the user entries
followed by the global entries, without the entries whose original value is
excluded for the key, each value replaced by its transformed value
(`transformedValueReference`), and of every value the first occurrence only. -/
def getUnigramsReference {σ : Type} (lm : McBopomofoLM σ) (key : String) : List (Unigram σ) :=
  keepFirstByValue
    (((lm.m_userPhrases.entries key ++ lm.m_languageModel.entries key).filter
        (fun u => !((lm.m_excludedPhrases.entries key).map Unigram.value).contains u.value)).map
      (fun u => ⟨transformedValueReference lm u.value, u.score⟩))

/-- An aggregator with replacement and converter on: the sources of the
specification's scenario with one more global entry `W` (7); the replacement
map sends `Z` to `Q` and `W` to `Y`, the converter appends `+`. -/
def transformingLM : McBopomofoLM Int :=
  { m_languageModel := singleKeySource "k1" [⟨"X", 1⟩, ⟨"Y", 2⟩, ⟨"Z", 0⟩, ⟨"W", 7⟩],
    m_userPhrases := singleKeySource "k1" [⟨"X", 5⟩, ⟨"Y", 3⟩],
    m_excludedPhrases := singleKeySource "k1" [⟨"X", 0⟩],
    m_phraseReplacement := fun value =>
      if value == "Z" then "Q" else if value == "W" then "Y" else "",
    m_phraseReplacementEnabled := true,
    m_externalConverterEnabled := true,
    m_externalConverter := some (fun value => value ++ "+") }

/-- The forms and scores `getReading` compares: of every record that splits
into exactly three space-separated fields and whose third field parses, the
first field and the parsed score, in record order. -/
def scoredForms {σ : Type} (stod : String → Option σ) (records : List String) :
    List (String × σ) :=
  records.filterMap (fun record =>
    match McBopomofoLM.split record ' ' with
    | [part0, _, part2] => (stod part2).map (fun score => (part0, score))
    | _ => none)

/-- A toy `std::stod` for examples: `-inf` is below every other score. -/
def exampleStod (text : String) : Option Int :=
  if text == "-inf" then some (-1000) else if text == "-3.5" then some (-35) else some 0

/-- An aggregator whose global model knows one reading record for the value
`v`, with the score `-inf`. -/
def infiniteScoreLM : McBopomofoLM Int :=
  { m_languageModel :=
      { hasUnigrams := fun _ => false, getUnigrams := fun _ => [],
        getReadings := fun value => if value == "v" then ["x 0 -inf"] else [] },
    m_userPhrases := singleKeySource "k1" [],
    m_excludedPhrases := singleKeySource "k1" [],
    m_phraseReplacement := fun _ => "",
    m_phraseReplacementEnabled := false,
    m_externalConverterEnabled := false,
    m_externalConverter := none }

end McBopomofo

/-! ## Theorems: syllables, keyboard layouts, reading buffer -/

namespace Formosa
namespace Mandarin

open BopomofoSyllable BopomofoKeyboardLayout

theorem tb_ge16 (m i : Nat) (hm : m < 65536) (hi : 16 ≤ i) : m.testBit i = false := by
  apply Nat.testBit_lt_two_pow
  calc m < 2 ^ 16 := hm
    _ ≤ 2 ^ i := Nat.pow_le_pow_right (by decide) hi

theorem sover_same (n b m : Nat) (hm : m < 65536) :
    ((n &&& (0xFFFFFFFF ^^^ m)) ||| (b &&& m)) % 65536 &&& m = b &&& m := by
  apply Nat.eq_of_testBit_eq
  intro i
  have e : (65536:Nat) = 2 ^ 16 := by norm_num
  rw [e]
  simp only [Nat.testBit_and, Nat.testBit_or, Nat.testBit_xor, Nat.testBit_mod_two_pow]
  by_cases hi : 16 ≤ i
  · simp [tb_ge16 m i hm hi]
  · have h16 : i < 16 := by omega
    have h32 : i < 32 := by omega
    have e2 : (4294967295 : Nat) = 2 ^ 32 - 1 := by norm_num
    rw [e2, Nat.testBit_two_pow_sub_one]
    cases h1 : m.testBit i <;> cases h2 : b.testBit i <;> simp [h16, h32]

theorem sover_other (n b m m2 : Nat) (hn : n < 65536) (hm : m < 65536) (hd : m &&& m2 = 0) :
    ((n &&& (0xFFFFFFFF ^^^ m)) ||| (b &&& m)) % 65536 &&& m2 = n &&& m2 := by
  apply Nat.eq_of_testBit_eq
  intro i
  have e : (65536:Nat) = 2 ^ 16 := by norm_num
  have hd2 : (m &&& m2).testBit i = false := by rw [hd]; simp
  rw [Nat.testBit_and] at hd2
  rw [e]
  simp only [Nat.testBit_and, Nat.testBit_or, Nat.testBit_xor, Nat.testBit_mod_two_pow]
  by_cases hi : 16 ≤ i
  · simp [tb_ge16 m i hm hi, tb_ge16 n i hn hi]
  · have h16 : i < 16 := by omega
    have h32 : i < 32 := by omega
    have e2 : (4294967295 : Nat) = 2 ^ 32 - 1 := by norm_num
    rw [e2, Nat.testBit_two_pow_sub_one]
    cases h1 : m.testBit i <;> cases h2 : m2.testBit i <;> cases h3 : n.testBit i <;> simp_all

theorem sover_noop (n b m : Nat) (hn : n < 65536) (hm : m < 65536) (h : n &&& m = b &&& m) :
    ((n &&& (0xFFFFFFFF ^^^ m)) ||| (b &&& m)) % 65536 = n := by
  apply Nat.eq_of_testBit_eq
  intro i
  have e : (65536:Nat) = 2 ^ 16 := by norm_num
  have h2 : (n &&& m).testBit i = (b &&& m).testBit i := by rw [h]
  simp only [Nat.testBit_and] at h2
  rw [e]
  simp only [Nat.testBit_and, Nat.testBit_or, Nat.testBit_xor, Nat.testBit_mod_two_pow]
  by_cases hi : 16 ≤ i
  · simp [tb_ge16 m i hm hi, tb_ge16 n i hn hi]
  · have h16 : i < 16 := by omega
    have h32 : i < 32 := by omega
    have e2 : (4294967295 : Nat) = 2 ^ 32 - 1 := by norm_num
    rw [e2, Nat.testBit_two_pow_sub_one]
    cases h1 : m.testBit i <;> cases h3 : n.testBit i <;> cases h4 : b.testBit i <;> simp_all

theorem toComponent_val_of_lt (n : Nat) (h : n < 65536) : (toComponent n).val = n := by
  simp [toComponent, Nat.mod_eq_of_lt h]

theorem and_val_lt (n : Nat) (m : Component) : n &&& m.val < 65536 :=
  Nat.lt_of_le_of_lt Nat.and_le_right m.isLt

theorem toComponent_and (n : Nat) (m : Component) : (toComponent (n &&& m.val)).val = n &&& m.val :=
  toComponent_val_of_lt _ (and_val_lt n m)

theorem OP_SOVER_and_same (n b m : Component) :
    (OP_SOVER n b m).val &&& m.val =
      if (b.val &&& m.val) != 0 then b.val &&& m.val else n.val &&& m.val := by
  unfold OP_SOVER
  split
  · simp only [toComponent, intNot]
    exact sover_same n.val b.val m.val m.isLt
  · rfl

theorem OP_SOVER_and_other (n b m m2 : Component) (hd : m.val &&& m2.val = 0) :
    (OP_SOVER n b m).val &&& m2.val = n.val &&& m2.val := by
  unfold OP_SOVER
  split
  · simp only [toComponent, intNot]
    exact sover_other n.val b.val m.val m2.val n.isLt m.isLt hd
  · rfl

theorem OP_SOVER_absent (n b m : Component) (h : b.val &&& m.val = 0) : OP_SOVER n b m = n := by
  unfold OP_SOVER
  simp [h]

/-- Claim C1. `operator+` overrides field by field, the right operand winning:
each of the four fields (consonant, medial, vowel, tone) of `a + b` is the field
of `b` when `b` occupies it and the field of `a` otherwise.  In particular, when
`b` occupies none of consonant, medial and vowel (only its tone field may be
set), `a + b` has the consonant, medial and vowel of `a` and agrees with `a` on
every bit outside the tone field. -/
theorem operatorPlus_fieldwise (a b : BopomofoSyllable) :
    ((a.operatorPlus b).consonantComponent =
        if b.hasConsonant then b.consonantComponent else a.consonantComponent) ∧
    ((a.operatorPlus b).middleVowelComponent =
        if b.hasMiddleVowel then b.middleVowelComponent else a.middleVowelComponent) ∧
    ((a.operatorPlus b).vowelComponent =
        if b.hasVowel then b.vowelComponent else a.vowelComponent) ∧
    ((a.operatorPlus b).toneMarkerComponent =
        if b.hasToneMarker then b.toneMarkerComponent else a.toneMarkerComponent) ∧
    (b.hasConsonant = false ∧ b.hasMiddleVowel = false ∧ b.hasVowel = false →
      (a.operatorPlus b).consonantComponent = a.consonantComponent ∧
      (a.operatorPlus b).middleVowelComponent = a.middleVowelComponent ∧
      (a.operatorPlus b).vowelComponent = a.vowelComponent ∧
      (a.operatorPlus b).m_syllable.val &&& (0xFFFF ^^^ ToneMarkerMask.val) =
        a.m_syllable.val &&& (0xFFFF ^^^ ToneMarkerMask.val)) := by
  have hc : (a.operatorPlus b).m_syllable.val &&& ConsonantMask.val =
      if (b.m_syllable.val &&& ConsonantMask.val) != 0 then b.m_syllable.val &&& ConsonantMask.val
      else a.m_syllable.val &&& ConsonantMask.val := by
    simp only [operatorPlus]
    rw [OP_SOVER_and_other _ _ _ _ (by decide), OP_SOVER_and_other _ _ _ _ (by decide),
      OP_SOVER_and_other _ _ _ _ (by decide), OP_SOVER_and_same]
  have hm : (a.operatorPlus b).m_syllable.val &&& MiddleVowelMask.val =
      if (b.m_syllable.val &&& MiddleVowelMask.val) != 0 then
        b.m_syllable.val &&& MiddleVowelMask.val
      else a.m_syllable.val &&& MiddleVowelMask.val := by
    simp only [operatorPlus]
    rw [OP_SOVER_and_other _ _ _ _ (by decide), OP_SOVER_and_other _ _ _ _ (by decide),
      OP_SOVER_and_same, OP_SOVER_and_other _ _ _ _ (by decide)]
  have hv : (a.operatorPlus b).m_syllable.val &&& VowelMask.val =
      if (b.m_syllable.val &&& VowelMask.val) != 0 then b.m_syllable.val &&& VowelMask.val
      else a.m_syllable.val &&& VowelMask.val := by
    simp only [operatorPlus]
    rw [OP_SOVER_and_other _ _ _ _ (by decide), OP_SOVER_and_same,
      OP_SOVER_and_other _ _ _ _ (by decide), OP_SOVER_and_other _ _ _ _ (by decide)]
  have ht : (a.operatorPlus b).m_syllable.val &&& ToneMarkerMask.val =
      if (b.m_syllable.val &&& ToneMarkerMask.val) != 0 then
        b.m_syllable.val &&& ToneMarkerMask.val
      else a.m_syllable.val &&& ToneMarkerMask.val := by
    simp only [operatorPlus]
    rw [OP_SOVER_and_same,
      OP_SOVER_and_other _ _ _ _ (by decide), OP_SOVER_and_other _ _ _ _ (by decide),
      OP_SOVER_and_other _ _ _ _ (by decide)]
  have fc : (a.operatorPlus b).consonantComponent =
        if b.hasConsonant then b.consonantComponent else a.consonantComponent := by
    simp only [consonantComponent, hasConsonant, hc]
    split <;> rfl
  have fm : (a.operatorPlus b).middleVowelComponent =
        if b.hasMiddleVowel then b.middleVowelComponent else a.middleVowelComponent := by
    simp only [middleVowelComponent, hasMiddleVowel, hm]
    split <;> rfl
  have fv : (a.operatorPlus b).vowelComponent =
        if b.hasVowel then b.vowelComponent else a.vowelComponent := by
    simp only [vowelComponent, hasVowel, hv]
    split <;> rfl
  have ft : (a.operatorPlus b).toneMarkerComponent =
        if b.hasToneMarker then b.toneMarkerComponent else a.toneMarkerComponent := by
    simp only [toneMarkerComponent, hasToneMarker, ht]
    split <;> rfl
  refine ⟨fc, fm, fv, ft, ?_⟩
  rintro ⟨h1, h2, h3⟩
  refine ⟨by simp [fc, h1], by simp [fm, h2], by simp [fv, h3], ?_⟩
  simp only [hasConsonant, hasMiddleVowel, hasVowel, bne_eq_false_iff_eq] at h1 h2 h3
  simp only [operatorPlus]
  rw [OP_SOVER_absent _ _ _ h1, OP_SOVER_absent _ _ _ h2, OP_SOVER_absent _ _ _ h3]
  unfold OP_SOVER
  split
  · simp only [toComponent, intNot]
    exact sover_other _ _ _ _ a.m_syllable.isLt ToneMarkerMask.isLt (by decide)
  · rfl

theorem operatorPlus_fieldwise_witness :
    ((⟨0x1000⟩ : BopomofoSyllable).hasConsonant = false ∧
      (⟨0x1000⟩ : BopomofoSyllable).hasMiddleVowel = false ∧
      (⟨0x1000⟩ : BopomofoSyllable).hasVowel = false) ∧
    (BopomofoSyllable.operatorPlus ⟨0x0825⟩ ⟨0x1000⟩ = ⟨0x1025⟩) ∧
    ((BopomofoSyllable.operatorPlus ⟨0x0825⟩ ⟨0x1000⟩).consonantComponent =
        (⟨0x0825⟩ : BopomofoSyllable).consonantComponent ∧
      (BopomofoSyllable.operatorPlus ⟨0x0825⟩ ⟨0x1000⟩).middleVowelComponent =
        (⟨0x0825⟩ : BopomofoSyllable).middleVowelComponent ∧
      (BopomofoSyllable.operatorPlus ⟨0x0825⟩ ⟨0x1000⟩).vowelComponent =
        (⟨0x0825⟩ : BopomofoSyllable).vowelComponent ∧
      (BopomofoSyllable.operatorPlus ⟨0x0825⟩ ⟨0x1000⟩).m_syllable.val &&&
          (0xFFFF ^^^ ToneMarkerMask.val) =
        (⟨0x0825⟩ : BopomofoSyllable).m_syllable.val &&& (0xFFFF ^^^ ToneMarkerMask.val)) :=
  ⟨by decide, by decide, (operatorPlus_fieldwise ⟨0x0825⟩ ⟨0x1000⟩).2.2.2.2 (by decide)⟩

theorem and_field_mask (n k w : Nat) :
    n &&& (2 ^ k * (2 ^ w - 1)) = 2 ^ k * (n / 2 ^ k % 2 ^ w) := by
  apply Nat.eq_of_testBit_eq
  intro i
  rw [Nat.testBit_and, Nat.testBit_mul_pow_two, Nat.testBit_mul_pow_two, Nat.testBit_mod_two_pow,
    Nat.testBit_two_pow_sub_one, ← Nat.shiftRight_eq_div_pow, Nat.testBit_shiftRight]
  by_cases h : i ≥ k
  · have e : k + (i - k) = i := by omega
    simp [h, e, Bool.and_comm]
  · simp [h]

theorem and_consonantMask (n : Nat) : n &&& 0x1f = n % 32 := by
  have := and_field_mask n 0 5
  simpa using this

theorem and_middleVowelMask (n : Nat) : n &&& 0x60 = 32 * (n / 32 % 4) := by
  have := and_field_mask n 5 2
  simpa using this

theorem and_vowelMask (n : Nat) : n &&& 0x780 = 128 * (n / 128 % 16) := by
  have := and_field_mask n 7 4
  simpa using this

theorem and_toneMarkerMask (n : Nat) : n &&& 0x3800 = 2048 * (n / 2048 % 8) := by
  have := and_field_mask n 11 3
  simpa using this

theorem or_fields (c m v t : Nat) (hc : c < 32) (hm : m < 4) (hv : v < 16) :
    c ||| (m <<< 5) ||| (v <<< 7) ||| (t <<< 11) = c + 32 * m + 128 * v + 2048 * t := by
  have h1 : 2 ^ 5 * m + c = 2 ^ 5 * m ||| c := Nat.mul_add_lt_is_or (by omega) m
  have h2 : 2 ^ 7 * v + (c + 32 * m) = 2 ^ 7 * v ||| (c + 32 * m) :=
    Nat.mul_add_lt_is_or (by omega) v
  have h3 : 2 ^ 11 * t + (c + 32 * m + 128 * v) = 2 ^ 11 * t ||| (c + 32 * m + 128 * v) :=
    Nat.mul_add_lt_is_or (by omega) t
  simp only [Nat.shiftLeft_eq]
  rw [Nat.or_comm c, Nat.mul_comm m, ← h1, Nat.or_comm _ (v * 2 ^ 7), Nat.mul_comm v,
    show 2 ^ 5 * m + c = c + 32 * m by omega, ← h2, Nat.or_comm _ (t * 2 ^ 11), Nat.mul_comm t,
    show 2 ^ 7 * v + (c + 32 * m) = c + 32 * m + 128 * v by omega, ← h3]
  omega

theorem ConsonantMask_val : ConsonantMask.val = 0x1f := rfl
theorem MiddleVowelMask_val : MiddleVowelMask.val = 0x60 := rfl
theorem VowelMask_val : VowelMask.val = 0x780 := rfl
theorem ToneMarkerMask_val : ToneMarkerMask.val = 0x3800 := rfl

theorem toComponent_val (n : Nat) : (toComponent n).val = n % 65536 := rfl

theorem absoluteOrder_val (s : BopomofoSyllable) :
    s.absoluteOrder.val = s.m_syllable.val % 32 + 22 * (s.m_syllable.val / 32 % 4) +
      88 * (s.m_syllable.val / 128 % 16) + 1232 * (s.m_syllable.val / 2048 % 8) := by
  simp only [absoluteOrder, toComponent_val, ConsonantMask_val, MiddleVowelMask_val,
    VowelMask_val, ToneMarkerMask_val, and_consonantMask, and_middleVowelMask, and_vowelMask,
    and_toneMarkerMask, Nat.shiftRight_eq_div_pow]
  omega

theorem isValid_iff (s : BopomofoSyllable) :
    s.IsValid ↔ s.m_syllable.val % 32 ≤ 21 ∧ s.m_syllable.val / 128 % 16 ≤ 13 ∧
      s.m_syllable.val / 2048 % 8 ≤ 4 ∧ s.m_syllable.val < 16384 := by
  simp only [IsValid, consonantComponent, vowelComponent, toneMarkerComponent, toComponent_val,
    ConsonantMask_val, MiddleVowelMask_val,
    VowelMask_val, ToneMarkerMask_val, and_consonantMask, and_middleVowelMask, and_vowelMask,
    and_toneMarkerMask, Nat.shiftRight_eq_div_pow]
  omega

theorem FromAbsoluteOrder_val (order : Component) :
    (FromAbsoluteOrder order).m_syllable.val = order.val % 22 + 32 * (order.val / 22 % 4) +
      128 * (order.val / 88 % 14) + 2048 * (order.val / 1232 % 5) := by
  simp only [FromAbsoluteOrder, toComponent_val, Nat.reduceMul]
  rw [or_fields _ _ _ _ (by omega) (by omega) (by omega)]
  omega

theorem syllable_ext (a b : BopomofoSyllable) (h : a.m_syllable.val = b.m_syllable.val) : a = b := by
  cases a; cases b; simp only [BopomofoSyllable.mk.injEq]; exact Fin.ext h

theorem order_digits (c m v t : Nat) (hc : c ≤ 21) (hm : m ≤ 3) (hv : v ≤ 13) (ht : t ≤ 4) :
    (c + 22 * m + 88 * v + 1232 * t) % 22 +
      32 * ((c + 22 * m + 88 * v + 1232 * t) / 22 % 4) +
      128 * ((c + 22 * m + 88 * v + 1232 * t) / 88 % 14) +
      2048 * ((c + 22 * m + 88 * v + 1232 * t) / 1232 % 5) =
    c + 32 * m + 128 * v + 2048 * t := by
  have h1 : (c + 22 * m + 88 * v + 1232 * t) % 22 = c := by omega
  have h2 : (c + 22 * m + 88 * v + 1232 * t) / 22 = m + 4 * v + 56 * t := by omega
  have h3 : (c + 22 * m + 88 * v + 1232 * t) / 88 = v + 14 * t := by omega
  have h4 : (c + 22 * m + 88 * v + 1232 * t) / 1232 = t := by omega
  have h5 : (m + 4 * v + 56 * t) % 4 = m := by omega
  have h6 : (v + 14 * t) % 14 = v := by omega
  have h7 : t % 5 = t := by omega
  rw [h1, h2, h3, h4, h5, h6, h7]

/-- Decoding the ordering code of a valid syllable gives the syllable back. -/
theorem FromAbsoluteOrder_absoluteOrder (s : BopomofoSyllable) (h : s.IsValid) :
    FromAbsoluteOrder (absoluteOrder s) = s := by
  rw [isValid_iff] at h
  apply syllable_ext
  rw [FromAbsoluteOrder_val, absoluteOrder_val]
  obtain ⟨hc, hv, ht, hlt⟩ := h
  rw [order_digits _ _ _ _ hc (by omega) hv ht]
  omega

theorem absoluteOrder_lt (s : BopomofoSyllable) (h : s.IsValid) : s.absoluteOrder.val < 6160 := by
  rw [isValid_iff] at h
  rw [absoluteOrder_val]
  omega

theorem toChar_small (sg : Bool) (z : Int) (h0 : 0 ≤ z) (h1 : z ≤ 127) : toChar sg z = z := by
  cases sg
  · show z % 256 = z
    omega
  · show (z + 128) % 256 - 128 = z
    omega

theorem intToComponent_natCast (n : Nat) (h : n < 65536) : intToComponent (n : Int) = ⟨n, h⟩ := by
  apply Fin.ext
  simp only [intToComponent]
  omega

theorem orderString_decode (sg : Bool) (order : Component) (h : order.val < 6160) :
    intToComponent
      (((intToComponent (toChar sg (48 + toChar sg (order.val / 79 : Nat)) - 48)).val : Int) * 79 +
        ((intToComponent (toChar sg (48 + toChar sg (order.val % 79 : Nat)) - 48)).val : Int))
      = order := by
  have hq : order.val / 79 ≤ 77 := by omega
  have hr : order.val % 79 ≤ 78 := by omega
  rw [toChar_small sg ((order.val / 79 : Nat) : Int) (by omega) (by omega),
    toChar_small sg ((order.val % 79 : Nat) : Int) (by omega) (by omega),
    toChar_small sg _ (by omega) (by omega), toChar_small sg _ (by omega) (by omega)]
  have e1 : (48 : Int) + ((order.val / 79 : Nat) : Int) - 48 = ((order.val / 79 : Nat) : Int) := by
    omega
  have e2 : (48 : Int) + ((order.val % 79 : Nat) : Int) - 48 = ((order.val % 79 : Nat) : Int) := by
    omega
  rw [e1, e2, intToComponent_natCast _ (by omega), intToComponent_natCast _ (by omega)]
  simp only
  have e3 : ((order.val / 79 : Nat) : Int) * 79 + ((order.val % 79 : Nat) : Int)
      = ((order.val : Nat) : Int) := by omega
  rw [e3, intToComponent_natCast _ order.isLt]

/-- Decoding the ordering string of a valid syllable gives the syllable back. -/
theorem FromAbsoluteOrderString_absoluteOrderString (sg : Bool) (s : BopomofoSyllable) (h : s.IsValid) :
    FromAbsoluteOrderString (absoluteOrderString sg s) = s := by
  simp only [absoluteOrderString, FromAbsoluteOrderString]
  rw [orderString_decode sg _ (absoluteOrder_lt s h)]
  exact FromAbsoluteOrder_absoluteOrder s h

/-- Claim C2. Ordering-code round trip: for every valid syllable `s` (consonant
code `0..21`, medial `0..3`, vowel index `0..13`, tone index `0..4`, no other
bit), `FromAbsoluteOrder (absoluteOrder s) = s`; consequently `absoluteOrder`
is injective on valid syllables. -/
theorem absoluteOrder_roundtrip (s t : BopomofoSyllable) (hs : s.IsValid) (ht : t.IsValid) :
    FromAbsoluteOrder (absoluteOrder s) = s ∧ (absoluteOrder s = absoluteOrder t → s = t) := by
  refine ⟨FromAbsoluteOrder_absoluteOrder s hs, ?_⟩
  intro h
  rw [← FromAbsoluteOrder_absoluteOrder s hs, ← FromAbsoluteOrder_absoluteOrder t ht, h]

theorem absoluteOrder_roundtrip_witness :
    ((⟨0x26F5⟩ : BopomofoSyllable).IsValid ∧ (⟨0x0825⟩ : BopomofoSyllable).IsValid) ∧
    (absoluteOrder ⟨0x26F5⟩ = 6159 ∧
      FromAbsoluteOrder (absoluteOrder ⟨0x26F5⟩) = ⟨0x26F5⟩ ∧
      (absoluteOrder ⟨0x26F5⟩ = absoluteOrder ⟨0x0825⟩ →
        (⟨0x26F5⟩ : BopomofoSyllable) = ⟨0x0825⟩)) :=
  ⟨by decide, by decide, absoluteOrder_roundtrip ⟨0x26F5⟩ ⟨0x0825⟩ (by decide) (by decide)⟩

/-- Claim C3. Ordering-string round trip: for every valid syllable `s`, whether
plain `char` is signed or not, `absoluteOrderString s` is the two characters
`48 + order mod 79` and `48 + order div 79` (the 8-bit arithmetic does not
wrap) and `FromAbsoluteOrderString (absoluteOrderString s) = s`. -/
theorem absoluteOrderString_roundtrip (signedChar : Bool) (s : BopomofoSyllable)
    (hs : s.IsValid) :
    absoluteOrderString signedChar s =
      [48 + ((s.absoluteOrder.val % 79 : Nat) : Int),
       48 + ((s.absoluteOrder.val / 79 : Nat) : Int)] ∧
    FromAbsoluteOrderString (absoluteOrderString signedChar s) = s := by
  refine ⟨?_, FromAbsoluteOrderString_absoluteOrderString signedChar s hs⟩
  have h := absoluteOrder_lt s hs
  have hq : s.absoluteOrder.val / 79 ≤ 77 := by omega
  have hr : s.absoluteOrder.val % 79 ≤ 78 := by omega
  simp only [absoluteOrderString]
  rw [toChar_small signedChar ((s.absoluteOrder.val / 79 : Nat) : Int) (by omega) (by omega),
    toChar_small signedChar ((s.absoluteOrder.val % 79 : Nat) : Int) (by omega) (by omega),
    toChar_small signedChar _ (by omega) (by omega),
    toChar_small signedChar _ (by omega) (by omega)]

theorem absoluteOrderString_roundtrip_witness :
    (⟨0x26F5⟩ : BopomofoSyllable).IsValid ∧
    (absoluteOrderString true ⟨0x26F5⟩ = [124, 125] ∧
      FromAbsoluteOrderString (absoluteOrderString true ⟨0x26F5⟩) = ⟨0x26F5⟩) :=
  ⟨by decide, by decide, (absoluteOrderString_roundtrip true ⟨0x26F5⟩ (by decide)).2⟩

theorem operatorPlusAssign_eq (a b : BopomofoSyllable) : a.operatorPlusAssign b = a.operatorPlus b := rfl

theorem plus_and_consonant (a b : BopomofoSyllable) :
    (a.operatorPlus b).m_syllable.val &&& 0x1f =
      if b.m_syllable.val &&& 0x1f = 0 then a.m_syllable.val &&& 0x1f
      else b.m_syllable.val &&& 0x1f := by
  have h : (a.operatorPlus b).m_syllable.val &&& ConsonantMask.val =
      if (b.m_syllable.val &&& ConsonantMask.val) != 0 then b.m_syllable.val &&& ConsonantMask.val
      else a.m_syllable.val &&& ConsonantMask.val := by
    simp only [operatorPlus]
    rw [OP_SOVER_and_other _ _ _ _ (by decide), OP_SOVER_and_other _ _ _ _ (by decide),
      OP_SOVER_and_other _ _ _ _ (by decide), OP_SOVER_and_same]
  rw [ConsonantMask_val] at h
  rw [h]
  by_cases hb : b.m_syllable.val &&& 0x1f = 0 <;> simp [hb]

theorem plus_and_middleVowel (a b : BopomofoSyllable) :
    (a.operatorPlus b).m_syllable.val &&& 0x60 =
      if b.m_syllable.val &&& 0x60 = 0 then a.m_syllable.val &&& 0x60
      else b.m_syllable.val &&& 0x60 := by
  have h : (a.operatorPlus b).m_syllable.val &&& MiddleVowelMask.val =
      if (b.m_syllable.val &&& MiddleVowelMask.val) != 0 then
        b.m_syllable.val &&& MiddleVowelMask.val
      else a.m_syllable.val &&& MiddleVowelMask.val := by
    simp only [operatorPlus]
    rw [OP_SOVER_and_other _ _ _ _ (by decide), OP_SOVER_and_other _ _ _ _ (by decide),
      OP_SOVER_and_same, OP_SOVER_and_other _ _ _ _ (by decide)]
  rw [MiddleVowelMask_val] at h
  rw [h]
  by_cases hb : b.m_syllable.val &&& 0x60 = 0 <;> simp [hb]

theorem plus_and_vowel (a b : BopomofoSyllable) :
    (a.operatorPlus b).m_syllable.val &&& 0x780 =
      if b.m_syllable.val &&& 0x780 = 0 then a.m_syllable.val &&& 0x780
      else b.m_syllable.val &&& 0x780 := by
  have h : (a.operatorPlus b).m_syllable.val &&& VowelMask.val =
      if (b.m_syllable.val &&& VowelMask.val) != 0 then b.m_syllable.val &&& VowelMask.val
      else a.m_syllable.val &&& VowelMask.val := by
    simp only [operatorPlus]
    rw [OP_SOVER_and_other _ _ _ _ (by decide), OP_SOVER_and_same,
      OP_SOVER_and_other _ _ _ _ (by decide), OP_SOVER_and_other _ _ _ _ (by decide)]
  rw [VowelMask_val] at h
  rw [h]
  by_cases hb : b.m_syllable.val &&& 0x780 = 0 <;> simp [hb]

theorem plus_and_toneMarker (a b : BopomofoSyllable) :
    (a.operatorPlus b).m_syllable.val &&& 0x3800 =
      if b.m_syllable.val &&& 0x3800 = 0 then a.m_syllable.val &&& 0x3800
      else b.m_syllable.val &&& 0x3800 := by
  have h : (a.operatorPlus b).m_syllable.val &&& ToneMarkerMask.val =
      if (b.m_syllable.val &&& ToneMarkerMask.val) != 0 then
        b.m_syllable.val &&& ToneMarkerMask.val
      else a.m_syllable.val &&& ToneMarkerMask.val := by
    simp only [operatorPlus]
    rw [OP_SOVER_and_same,
      OP_SOVER_and_other _ _ _ _ (by decide), OP_SOVER_and_other _ _ _ _ (by decide),
      OP_SOVER_and_other _ _ _ _ (by decide)]
  rw [ToneMarkerMask_val] at h
  rw [h]
  by_cases hb : b.m_syllable.val &&& 0x3800 = 0 <;> simp [hb]

/-- The two bits above the tone field are never touched by `operator+`. -/
theorem plus_and_top (a b : BopomofoSyllable) :
    (a.operatorPlus b).m_syllable.val &&& 0xC000 = a.m_syllable.val &&& 0xC000 := by
  simp only [operatorPlus]
  have e : (0xC000 : Nat) = (49152 : Component).val := rfl
  rw [e, OP_SOVER_and_other _ _ _ _ (by decide), OP_SOVER_and_other _ _ _ _ (by decide),
    OP_SOVER_and_other _ _ _ _ (by decide), OP_SOVER_and_other _ _ _ _ (by decide)]

theorem and_topMask (n : Nat) : n &&& 0xC000 = 16384 * (n / 16384 % 4) := by
  have := and_field_mask n 14 2
  simpa using this

theorem syllable_eq_of_fields (a b : BopomofoSyllable)
    (h1 : a.m_syllable.val &&& 0x1f = b.m_syllable.val &&& 0x1f)
    (h2 : a.m_syllable.val &&& 0x60 = b.m_syllable.val &&& 0x60)
    (h3 : a.m_syllable.val &&& 0x780 = b.m_syllable.val &&& 0x780)
    (h4 : a.m_syllable.val &&& 0x3800 = b.m_syllable.val &&& 0x3800)
    (h5 : a.m_syllable.val &&& 0xC000 = b.m_syllable.val &&& 0xC000) : a = b := by
  apply syllable_ext
  rw [and_consonantMask, and_consonantMask] at h1
  rw [and_middleVowelMask, and_middleVowelMask] at h2
  rw [and_vowelMask, and_vowelMask] at h3
  rw [and_toneMarkerMask, and_toneMarkerMask] at h4
  rw [and_topMask, and_topMask] at h5
  have ha := a.m_syllable.isLt
  have hb := b.m_syllable.isLt
  omega

theorem empty_val : BopomofoSyllable.empty.m_syllable.val = 0 := rfl

/-- Merging the four field components of `s` into the empty syllable rebuilds
`s` when `s` has no bit outside the fields. -/
theorem rebuild_from_fields (s : BopomofoSyllable) (h : s.m_syllable.val < 16384) :
    (((BopomofoSyllable.empty.operatorPlusAssign ⟨s.consonantComponent⟩).operatorPlusAssign
      ⟨s.middleVowelComponent⟩).operatorPlusAssign ⟨s.vowelComponent⟩).operatorPlusAssign
      ⟨s.toneMarkerComponent⟩ = s := by
  simp only [operatorPlusAssign_eq]
  apply syllable_eq_of_fields
  · simp only [plus_and_consonant, consonantComponent, middleVowelComponent, vowelComponent,
      toneMarkerComponent, toComponent_val, ConsonantMask_val, MiddleVowelMask_val,
      VowelMask_val, ToneMarkerMask_val, empty_val]
    simp only [and_consonantMask, and_middleVowelMask, and_vowelMask, and_toneMarkerMask]
    split_ifs <;> omega
  · simp only [plus_and_middleVowel, consonantComponent, middleVowelComponent, vowelComponent,
      toneMarkerComponent, toComponent_val, ConsonantMask_val, MiddleVowelMask_val,
      VowelMask_val, ToneMarkerMask_val, empty_val]
    simp only [and_consonantMask, and_middleVowelMask, and_vowelMask, and_toneMarkerMask]
    split_ifs <;> omega
  · simp only [plus_and_vowel, consonantComponent, middleVowelComponent, vowelComponent,
      toneMarkerComponent, toComponent_val, ConsonantMask_val, MiddleVowelMask_val,
      VowelMask_val, ToneMarkerMask_val, empty_val]
    simp only [and_consonantMask, and_middleVowelMask, and_vowelMask, and_toneMarkerMask]
    split_ifs <;> omega
  · simp only [plus_and_toneMarker, consonantComponent, middleVowelComponent, vowelComponent,
      toneMarkerComponent, toComponent_val, ConsonantMask_val, MiddleVowelMask_val,
      VowelMask_val, ToneMarkerMask_val, empty_val]
    simp only [and_consonantMask, and_middleVowelMask, and_vowelMask, and_toneMarkerMask]
    split_ifs <;> omega
  · simp only [plus_and_top, empty_val]
    simp only [and_topMask]
    omega

theorem lookup_inner (key : CChar) (vec : List Component) (c : Component) (k : CChar) :
    ∀ acc : BopomofoComponentToKeyMap,
      (vec.foldl (fun acc2 viter => (viter, key) :: acc2) acc).lookup c = some k →
        acc.lookup c = some k ∨ (k = key ∧ c ∈ vec) := by
  induction vec with
  | nil => intro acc h; exact Or.inl h
  | cons v vs ih =>
    intro acc h
    simp only [List.foldl_cons] at h
    rcases ih _ h with h1 | ⟨h1, h2⟩
    · rw [List.lookup_cons] at h1
      by_cases hcv : c = v
      · subst hcv
        simp only [beq_self_eq_true, Option.some.injEq] at h1
        exact Or.inr ⟨h1.symm, List.mem_cons_self _ _⟩
      · have : (c == v) = false := by simpa using hcv
        rw [this] at h1
        exact Or.inl h1
    · exact Or.inr ⟨h1, List.mem_cons_of_mem _ h2⟩

theorem lookup_outer (c : Component) (k : CChar) :
    ∀ (ktcm : BopomofoKeyToComponentMap) (acc : BopomofoComponentToKeyMap),
      (ktcm.foldl
        (fun acc miter => miter.2.foldl (fun acc2 viter => (viter, miter.1) :: acc2) acc)
        acc).lookup c = some k →
      acc.lookup c = some k ∨ ∃ vec, (k, vec) ∈ ktcm ∧ c ∈ vec := by
  intro ktcm
  induction ktcm with
  | nil => intro acc h; exact Or.inl h
  | cons e es ih =>
    intro acc h
    simp only [List.foldl_cons] at h
    rcases ih _ h with h1 | ⟨vec, h1, h2⟩
    · rcases lookup_inner e.1 e.2 c k acc h1 with h3 | ⟨h3, h4⟩
      · exact Or.inl h3
      · refine Or.inr ⟨e.2, ?_, h4⟩
        rw [h3]
        exact List.mem_cons_self _ _
    · exact Or.inr ⟨vec, List.mem_cons_of_mem _ h1, h2⟩

theorem lookup_of_mem_nodup (k : CChar) (vec : List Component) :
    ∀ ktcm : BopomofoKeyToComponentMap, (ktcm.map Prod.fst).Nodup → (k, vec) ∈ ktcm →
      ktcm.lookup k = some vec := by
  intro ktcm
  induction ktcm with
  | nil => intro _ h; exact absurd h (List.not_mem_nil _)
  | cons e es ih =>
    intro hnd hmem
    obtain ⟨k1, v1⟩ := e
    simp only [List.map_cons, List.nodup_cons] at hnd
    rw [List.lookup_cons]
    rcases List.mem_cons.1 hmem with h | h
    · simp only [Prod.mk.injEq] at h
      obtain ⟨rfl, rfl⟩ := h
      simp
    · have hne : k ≠ k1 := by
        intro he
        apply hnd.1
        rw [← he]
        exact List.mem_map_of_mem Prod.fst h
      have : (k == k1) = false := by simpa using hne
      rw [this]
      exact ih hnd.2 h

/-- In a constructed layout, the key of a component lists that component. -/
theorem mem_keyToComponents_componentToKey (identity : LayoutIdentity)
    (ktcm : BopomofoKeyToComponentMap) (name : String) (hnd : (ktcm.map Prod.fst).Nodup)
    (c : Component) (hk : (ctor identity ktcm name).componentToKey c ≠ 0) :
    c ∈ (ctor identity ktcm name).keyToComponents ((ctor identity ktcm name).componentToKey c) := by
  unfold componentToKey at hk ⊢
  simp only [ctor] at hk ⊢
  cases hl : (buildComponentToKey ktcm).lookup c with
  | none => rw [hl] at hk; exact absurd rfl hk
  | some k =>
    simp only
    rcases lookup_outer c k ktcm [] hl with h | ⟨vec, h1, h2⟩
    · simp at h
    · unfold keyToComponents
      simp only
      rw [lookup_of_mem_nodup k vec ktcm hnd h1]
      exact h2

theorem operatorPlusAssign_zero (a : BopomofoSyllable) : a.operatorPlusAssign ⟨0⟩ = a := by
  simp only [operatorPlusAssign]
  have h : ∀ m : Component, (0 : Component).val &&& m.val = 0 := by
    intro m
    show 0 &&& m.val = 0
    simp
  rw [OP_SOVER_absent _ _ _ (h _), OP_SOVER_absent _ _ _ (h _), OP_SOVER_absent _ _ _ (h _),
    OP_SOVER_absent _ _ _ (h _)]

theorem STKS_COMBINE_append (l : BopomofoKeyboardLayout) (sequence : List CChar) (f : Component) :
    l.STKS_COMBINE sequence f = sequence ++ l.STKS_COMBINE [] f := by
  unfold BopomofoKeyboardLayout.STKS_COMBINE
  by_cases h1 : (f.val != 0) = true
  · by_cases h2 : (l.componentToKey f != 0) = true
    · simp [h1, h2]
    · simp [h1, h2]
  · simp [h1]

theorem loop_field (l : BopomofoKeyboardLayout) (f : Component)
    (hf : f.val ≠ 0 →
      l.componentToKey f ≠ 0 ∧ l.keyToComponents (l.componentToKey f) = [f])
    (before rest : List CChar) (syl : BPMF) :
    ∃ before2, l.syllableFromKeySequenceLoop before (l.STKS_COMBINE [] f ++ rest) syl =
      l.syllableFromKeySequenceLoop before2 rest (syl.operatorPlusAssign ⟨f⟩) := by
  by_cases h0 : f.val = 0
  · have hf0 : f = 0 := Fin.ext h0
    subst hf0
    refine ⟨before, ?_⟩
    rw [operatorPlusAssign_zero]
    simp [BopomofoKeyboardLayout.STKS_COMBINE]
  · obtain ⟨hk, hc⟩ := hf h0
    refine ⟨before ++ [l.componentToKey f], ?_⟩
    have e : l.STKS_COMBINE [] f = [l.componentToKey f] := by
      simp [BopomofoKeyboardLayout.STKS_COMBINE, h0, hk]
    rw [e]
    simp only [List.singleton_append, syllableFromKeySequenceLoop, syllableFromKeySequenceStep, hc]
    rfl

theorem singleton_of_mem_length_one {α : Type} (x : α) (xs : List α) (hm : x ∈ xs)
    (hl : xs.length = 1) : xs = [x] := by
  match xs, hl, hm with
  | [y], _, hm =>
    have : x = y := by simpa using hm
    rw [this]

/-- Claim C4. Layout round trip: for a layout constructed from a key table
(pairwise distinct keys) that is not the Hsu layout, and a valid syllable `s`
each of whose occupied fields has a key in the layout (`componentToKey` is
non-zero) that maps to exactly one component,
`syllableFromKeySequence (keySequenceFromSyllable s) = s`. -/
theorem layout_roundtrip (identity : LayoutIdentity) (ktcm : BopomofoKeyToComponentMap)
    (name : String) (s : BPMF)
    (hkeys : (ktcm.map Prod.fst).Nodup)
    (hhsu : identity ≠ LayoutIdentity.HsuLayout)
    (hs : s.IsValid)
    (hc : FieldHasOwnKey (ctor identity ktcm name) s.consonantComponent)
    (hm : FieldHasOwnKey (ctor identity ktcm name) s.middleVowelComponent)
    (hv : FieldHasOwnKey (ctor identity ktcm name) s.vowelComponent)
    (ht : FieldHasOwnKey (ctor identity ktcm name) s.toneMarkerComponent) :
    (ctor identity ktcm name).syllableFromKeySequence
      ((ctor identity ktcm name).keySequenceFromSyllable s) = s := by
  have hf : ∀ c, FieldHasOwnKey (ctor identity ktcm name) c → c.val ≠ 0 →
      (ctor identity ktcm name).componentToKey c ≠ 0 ∧
      (ctor identity ktcm name).keyToComponents
        ((ctor identity ktcm name).componentToKey c) = [c] := by
    intro c hc h0
    obtain ⟨h1, h2⟩ := hc h0
    exact ⟨h1, singleton_of_mem_length_one c _
      (mem_keyToComponents_componentToKey identity ktcm name hkeys c h1) h2⟩
  have hc2 := hf _ hc
  have hm2 := hf _ hm
  have hv2 := hf _ hv
  have ht2 := hf _ ht
  clear hf hc hm hv ht
  generalize hl : ctor identity ktcm name = l at hc2 hm2 hv2 ht2 ⊢
  have hid : l.m_identity ≠ LayoutIdentity.HsuLayout := by
    rw [← hl]; exact hhsu
  have hseq : l.keySequenceFromSyllable s =
      l.STKS_COMBINE [] s.consonantComponent ++ (l.STKS_COMBINE [] s.middleVowelComponent ++
        (l.STKS_COMBINE [] s.vowelComponent ++ (l.STKS_COMBINE [] s.toneMarkerComponent ++ []))) := by
    simp only [keySequenceFromSyllable]
    rw [STKS_COMBINE_append l _ s.toneMarkerComponent, STKS_COMBINE_append l _ s.vowelComponent,
      STKS_COMBINE_append l _ s.middleVowelComponent]
    simp
  simp only [syllableFromKeySequence, hsuHeuristics, hid, if_false]
  rw [hseq]
  obtain ⟨b1, e1⟩ := loop_field l s.consonantComponent hc2 []
    (l.STKS_COMBINE [] s.middleVowelComponent ++
        (l.STKS_COMBINE [] s.vowelComponent ++ (l.STKS_COMBINE [] s.toneMarkerComponent ++ [])))
    BopomofoSyllable.empty
  rw [e1]
  obtain ⟨b2, e2⟩ := loop_field l s.middleVowelComponent hm2 b1
    (l.STKS_COMBINE [] s.vowelComponent ++ (l.STKS_COMBINE [] s.toneMarkerComponent ++ []))
    (BopomofoSyllable.empty.operatorPlusAssign ⟨s.consonantComponent⟩)
  rw [e2]
  obtain ⟨b3, e3⟩ := loop_field l s.vowelComponent hv2 b2
    (l.STKS_COMBINE [] s.toneMarkerComponent ++ [])
    ((BopomofoSyllable.empty.operatorPlusAssign ⟨s.consonantComponent⟩).operatorPlusAssign
      ⟨s.middleVowelComponent⟩)
  rw [e3]
  obtain ⟨b4, e4⟩ := loop_field l s.toneMarkerComponent ht2 b3 []
    (((BopomofoSyllable.empty.operatorPlusAssign ⟨s.consonantComponent⟩).operatorPlusAssign
      ⟨s.middleVowelComponent⟩).operatorPlusAssign ⟨s.vowelComponent⟩)
  rw [e4]
  simp only [syllableFromKeySequenceLoop]
  exact rebuild_from_fields s hs.2.2.2

theorem layout_roundtrip_witness :
    ((exampleKeyTable.map Prod.fst).Nodup ∧ (⟨0x0825⟩ : BPMF).IsValid) ∧
    (ctor LayoutIdentity.Custom exampleKeyTable "example").syllableFromKeySequence
      ((ctor LayoutIdentity.Custom exampleKeyTable "example").keySequenceFromSyllable
        ⟨0x0825⟩) = ⟨0x0825⟩ :=
  ⟨by decide, layout_roundtrip LayoutIdentity.Custom exampleKeyTable "example" ⟨0x0825⟩
    (by decide) (by decide) (by decide) (by decide) (by decide) (by decide) (by decide)⟩

/-- Claim C10. Invalid keystroke: `combineKey k` returns false exactly when
`isValidKey k` is false, and then the whole buffer (syllable, raw romanization
string, mode, layout) is unchanged; in layout mode `isValidKey k` holds exactly
when there is a layout and it maps `k` to at least one component, and it is
false when there is no layout. -/
theorem combineKey_invalid (FromHanyuPinyin : List CChar → BPMF) (b : BopomofoReadingBuffer)
    (k : CChar) :
    ((BopomofoReadingBuffer.combineKey FromHanyuPinyin b k).1 = false ↔ b.isValidKey k = false) ∧
    (b.isValidKey k = false → (BopomofoReadingBuffer.combineKey FromHanyuPinyin b k).2 = b) ∧
    (b.m_pinyinMode = false →
      ((b.isValidKey k = true ↔ ∃ l, b.m_layout = some l ∧ (l.keyToComponents k).length > 0) ∧
       (b.m_layout = none → b.isValidKey k = false))) := by
  refine ⟨?_, ?_, ?_⟩
  · unfold BopomofoReadingBuffer.combineKey
    by_cases hv : b.isValidKey k = true
    · simp only [hv, Bool.not_true, Bool.false_eq_true, if_false]
      by_cases hp : b.m_pinyinMode = true
      · simp [hp]
      · simp only [hp, if_false]
        cases hl : b.m_layout <;> simp
    · have hv2 : b.isValidKey k = false := by simpa using hv
      simp [hv2]
  · intro hv
    simp [BopomofoReadingBuffer.combineKey, hv]
  · intro hp
    constructor
    · unfold BopomofoReadingBuffer.isValidKey
      simp only [hp, Bool.not_false, if_true]
      cases hl : b.m_layout with
      | none => simp
      | some l => simp
    · intro hl
      simp [BopomofoReadingBuffer.isValidKey, hp, hl]

theorem combineKey_invalid_witness :
    exampleBuffer.isValidKey 113 = false ∧
    (BopomofoReadingBuffer.combineKey (fun _ => BopomofoSyllable.empty) exampleBuffer 113).2 = exampleBuffer :=
  ⟨by decide,
    (combineKey_invalid (fun _ => BopomofoSyllable.empty) exampleBuffer 113).2.1 (by decide)⟩

theorem STKS_COMBINE_nil (l : BopomofoKeyboardLayout) (c : Component) :
    l.STKS_COMBINE [] c =
      ([c].filter (fun c => decide (c.val ≠ 0) && decide (l.componentToKey c ≠ 0))).map
        l.componentToKey := by
  simp only [BopomofoKeyboardLayout.STKS_COMBINE, List.filter_cons, List.filter_nil]
  by_cases hc : c.val = 0 <;> by_cases kc : l.componentToKey c = 0 <;> simp [hc, kc]

theorem keySequenceFromSyllable_eq_append (l : BopomofoKeyboardLayout) (s : BPMF) :
    l.keySequenceFromSyllable s =
      l.STKS_COMBINE [] s.consonantComponent ++ (l.STKS_COMBINE [] s.middleVowelComponent ++
        (l.STKS_COMBINE [] s.vowelComponent ++ l.STKS_COMBINE [] s.toneMarkerComponent)) := by
  simp only [keySequenceFromSyllable]
  rw [STKS_COMBINE_append l _ s.toneMarkerComponent, STKS_COMBINE_append l _ s.vowelComponent,
    STKS_COMBINE_append l _ s.middleVowelComponent]
  simp

/-- Claim C13. Inverse mapping shape: `keySequenceFromSyllable s` is the
concatenation, in the order consonant, medial, vowel, tone, of `componentToKey`
of those field components of `s` that are non-zero and whose `componentToKey` is
non-zero; so its length is at most 4, and it is empty for the empty syllable. -/
theorem keySequenceFromSyllable_shape (l : BopomofoKeyboardLayout) (s : BPMF) :
    l.keySequenceFromSyllable s =
      ([s.consonantComponent, s.middleVowelComponent, s.vowelComponent,
        s.toneMarkerComponent].filter
          (fun c => decide (c.val ≠ 0) && decide (l.componentToKey c ≠ 0))).map
        l.componentToKey ∧
    (l.keySequenceFromSyllable s).length ≤ 4 ∧
    l.keySequenceFromSyllable BopomofoSyllable.empty = [] := by
  have h1 : l.keySequenceFromSyllable s =
      ([s.consonantComponent, s.middleVowelComponent, s.vowelComponent,
        s.toneMarkerComponent].filter
          (fun c => decide (c.val ≠ 0) && decide (l.componentToKey c ≠ 0))).map
        l.componentToKey := by
    rw [keySequenceFromSyllable_eq_append, STKS_COMBINE_nil, STKS_COMBINE_nil, STKS_COMBINE_nil,
      STKS_COMBINE_nil, ← List.map_append, ← List.map_append, ← List.map_append,
      ← List.filter_append, ← List.filter_append, ← List.filter_append]
    rfl
  refine ⟨h1, ?_, ?_⟩
  · rw [h1, List.length_map]
    exact le_trans (List.length_filter_le _ _) (by simp)
  · rfl

/-- Claim C14. Ordering number range: for every valid syllable `s`,
`absoluteOrder s` is consonant + medial index * 22 + vowel index * 88 +
tone index * 1232, it is at most 6159, and `absoluteOrderString s` is two
characters whose codes both lie in `48..126`. -/
theorem absoluteOrder_range (signedChar : Bool) (s : BopomofoSyllable) (hs : s.IsValid) :
    s.absoluteOrder.val =
      s.consonantComponent.val + (s.middleVowelComponent.val >>> 5) * 22 +
        (s.vowelComponent.val >>> 7) * 88 + (s.toneMarkerComponent.val >>> 11) * 1232 ∧
    s.absoluteOrder.val ≤ 6159 ∧
    ∃ low high : Int, absoluteOrderString signedChar s = [low, high] ∧
      48 ≤ low ∧ low ≤ 126 ∧ 48 ≤ high ∧ high ≤ 126 := by
  have hlt := absoluteOrder_lt s hs
  refine ⟨?_, by omega, ?_⟩
  · rw [absoluteOrder_val]
    simp only [consonantComponent, middleVowelComponent, vowelComponent, toneMarkerComponent,
      toComponent_val, ConsonantMask_val, MiddleVowelMask_val, VowelMask_val, ToneMarkerMask_val,
      and_consonantMask, and_middleVowelMask, and_vowelMask, and_toneMarkerMask,
      Nat.shiftRight_eq_div_pow]
    omega
  · have hq : s.absoluteOrder.val / 79 ≤ 77 := by omega
    have hr : s.absoluteOrder.val % 79 ≤ 78 := by omega
    refine ⟨48 + ((s.absoluteOrder.val % 79 : Nat) : Int),
      48 + ((s.absoluteOrder.val / 79 : Nat) : Int), ?_, by omega, by omega, by omega, by omega⟩
    simp only [absoluteOrderString]
    rw [toChar_small signedChar ((s.absoluteOrder.val / 79 : Nat) : Int) (by omega) (by omega),
      toChar_small signedChar ((s.absoluteOrder.val % 79 : Nat) : Int) (by omega) (by omega),
      toChar_small signedChar _ (by omega) (by omega),
      toChar_small signedChar _ (by omega) (by omega)]

theorem loop_unambiguous (l : BopomofoKeyboardLayout)
    (h1 : ∀ k, (l.keyToComponents k).length ≤ 1) :
    ∀ (sequence before : List CChar) (syllable : BPMF),
      l.syllableFromKeySequenceLoop before sequence syllable =
        (sequence.flatMap l.keyToComponents).foldl
          (fun acc c => acc.operatorPlus ⟨c⟩) syllable := by
  intro sequence
  induction sequence with
  | nil => intro before syllable; rfl
  | cons k ks ih =>
    intro before syllable
    rw [syllableFromKeySequenceLoop, ih, List.flatMap_cons, List.foldl_append]
    congr 1
    have hk := h1 k
    unfold syllableFromKeySequenceStep
    match hc : l.keyToComponents k with
    | [] => rfl
    | [c] => rfl
    | _ :: _ :: _ => rw [hc] at hk; simp at hk

/-- Claim C17. Unambiguous keys fold: for a layout that is not the Hsu layout
and in which every key maps to at most one component, `syllableFromKeySequence`
is the left fold of `operator+`, from the empty syllable, over the components of
the keys in order (unmapped keys contribute nothing); a sequence of unmapped
keys only gives the empty syllable. -/
theorem syllableFromKeySequence_unambiguous (l : BopomofoKeyboardLayout)
    (sequence : List CChar)
    (hhsu : l.m_identity ≠ LayoutIdentity.HsuLayout)
    (h1 : ∀ k, (l.keyToComponents k).length ≤ 1) :
    l.syllableFromKeySequence sequence =
      (sequence.flatMap l.keyToComponents).foldl
        (fun acc c => acc.operatorPlus ⟨c⟩) BopomofoSyllable.empty ∧
    ((∀ k ∈ sequence, l.keyToComponents k = []) →
      l.syllableFromKeySequence sequence = BopomofoSyllable.empty) := by
  have e : l.syllableFromKeySequence sequence =
      (sequence.flatMap l.keyToComponents).foldl
        (fun acc c => acc.operatorPlus ⟨c⟩) BopomofoSyllable.empty := by
    simp only [syllableFromKeySequence, hsuHeuristics, hhsu, if_false]
    exact loop_unambiguous l h1 sequence [] BopomofoSyllable.empty
  refine ⟨e, ?_⟩
  intro hun
  rw [e]
  have : sequence.flatMap l.keyToComponents = [] := by
    rw [List.flatMap_eq_nil_iff]
    exact hun
  rw [this]
  rfl

theorem component_ext (a b : Component) (h : a.val = b.val) : a = b := Fin.ext h

theorem operatorPlus_consonantComponent (a b : BopomofoSyllable) :
    (a.operatorPlus b).consonantComponent =
      if b.hasConsonant then b.consonantComponent else a.consonantComponent := by
  simp only [consonantComponent, hasConsonant, ConsonantMask_val]
  rw [plus_and_consonant]
  by_cases hb : b.m_syllable.val &&& 0x1f = 0
  · simp [hb]
  · simp [hb]

theorem operatorPlus_middleVowelComponent (a b : BopomofoSyllable) :
    (a.operatorPlus b).middleVowelComponent =
      if b.hasMiddleVowel then b.middleVowelComponent else a.middleVowelComponent := by
  simp only [middleVowelComponent, hasMiddleVowel, MiddleVowelMask_val]
  rw [plus_and_middleVowel]
  by_cases hb : b.m_syllable.val &&& 0x60 = 0
  · simp [hb]
  · simp [hb]

theorem operatorPlus_vowelComponent (a b : BopomofoSyllable) :
    (a.operatorPlus b).vowelComponent =
      if b.hasVowel then b.vowelComponent else a.vowelComponent := by
  simp only [vowelComponent, hasVowel, VowelMask_val]
  rw [plus_and_vowel]
  by_cases hb : b.m_syllable.val &&& 0x780 = 0
  · simp [hb]
  · simp [hb]

theorem operatorPlus_toneMarkerComponent (a b : BopomofoSyllable) :
    (a.operatorPlus b).toneMarkerComponent =
      if b.hasToneMarker then b.toneMarkerComponent else a.toneMarkerComponent := by
  simp only [toneMarkerComponent, hasToneMarker, ToneMarkerMask_val]
  rw [plus_and_toneMarker]
  by_cases hb : b.m_syllable.val &&& 0x3800 = 0
  · simp [hb]
  · simp [hb]

theorem hasConsonant_iff (s : BopomofoSyllable) :
    s.hasConsonant = true ↔ s.consonantComponent ≠ 0 := by
  simp only [hasConsonant, consonantComponent, ConsonantMask_val, bne_iff_ne, ne_eq]
  constructor
  · intro h he
    apply h
    have := congrArg Fin.val he
    rw [toComponent_val, and_consonantMask] at this
    rw [and_consonantMask]
    have h0 : (0 : Component).val = 0 := rfl
    omega
  · intro h he
    apply h
    apply component_ext
    rw [toComponent_val, he]
    rfl

/-- Claim C19. Hsu post-pass: for the Hsu layout the syllable returned by
`syllableFromKeySequence` never has vowel `ENG` without consonant and medial,
and never has consonant `G` with medial `I` or `UE`; when the main loop ends in
the first shape the vowel becomes `ERR`, in the second the consonant becomes
`J`, the other fields being kept.  For any other layout the result of the main
loop is returned unchanged. -/
theorem hsuHeuristics_postcondition (l : BopomofoKeyboardLayout) (sequence : List CChar) :
    (l.m_identity = LayoutIdentity.HsuLayout →
      ¬ ((l.syllableFromKeySequence sequence).vowelComponent = ENG ∧
          (l.syllableFromKeySequence sequence).hasConsonant = false ∧
          (l.syllableFromKeySequence sequence).hasMiddleVowel = false) ∧
      ¬ ((l.syllableFromKeySequence sequence).consonantComponent = G ∧
          ((l.syllableFromKeySequence sequence).middleVowelComponent = I ∨
            (l.syllableFromKeySequence sequence).middleVowelComponent = UE)) ∧
      (((l.syllableFromKeySequenceLoop [] sequence BopomofoSyllable.empty).vowelComponent = ENG ∧
          (l.syllableFromKeySequenceLoop [] sequence BopomofoSyllable.empty).hasConsonant = false ∧
          (l.syllableFromKeySequenceLoop [] sequence BopomofoSyllable.empty).hasMiddleVowel
            = false) →
        (l.syllableFromKeySequence sequence).vowelComponent = ERR ∧
        (l.syllableFromKeySequence sequence).consonantComponent =
          (l.syllableFromKeySequenceLoop [] sequence BopomofoSyllable.empty).consonantComponent ∧
        (l.syllableFromKeySequence sequence).middleVowelComponent =
          (l.syllableFromKeySequenceLoop [] sequence BopomofoSyllable.empty).middleVowelComponent ∧
        (l.syllableFromKeySequence sequence).toneMarkerComponent =
          (l.syllableFromKeySequenceLoop [] sequence BopomofoSyllable.empty).toneMarkerComponent) ∧
      (((l.syllableFromKeySequenceLoop [] sequence BopomofoSyllable.empty).consonantComponent = G ∧
          ((l.syllableFromKeySequenceLoop [] sequence BopomofoSyllable.empty).middleVowelComponent
              = I ∨
            (l.syllableFromKeySequenceLoop [] sequence BopomofoSyllable.empty).middleVowelComponent
              = UE)) →
        (l.syllableFromKeySequence sequence).consonantComponent = J ∧
        (l.syllableFromKeySequence sequence).middleVowelComponent =
          (l.syllableFromKeySequenceLoop [] sequence BopomofoSyllable.empty).middleVowelComponent ∧
        (l.syllableFromKeySequence sequence).vowelComponent =
          (l.syllableFromKeySequenceLoop [] sequence BopomofoSyllable.empty).vowelComponent ∧
        (l.syllableFromKeySequence sequence).toneMarkerComponent =
          (l.syllableFromKeySequenceLoop [] sequence BopomofoSyllable.empty).toneMarkerComponent)) ∧
    (l.m_identity ≠ LayoutIdentity.HsuLayout →
      l.syllableFromKeySequence sequence =
        l.syllableFromKeySequenceLoop [] sequence BopomofoSyllable.empty) := by
  simp only [syllableFromKeySequence]
  generalize l.syllableFromKeySequenceLoop [] sequence BopomofoSyllable.empty = r0
  constructor
  · intro hid
    simp only [hsuHeuristics, hid, if_true, operatorPlusAssign_eq]
    by_cases h1 : r0.vowelComponent = ENG ∧ r0.hasConsonant = false ∧ r0.hasMiddleVowel = false
    · obtain ⟨hv, hc, hm⟩ := h1
      have hcond : (r0.vowelComponent == ENG && !r0.hasConsonant && !r0.hasMiddleVowel) = true := by
        simp [hv, hc, hm]
      rw [if_pos hcond]
      have e1 : (r0.operatorPlus ⟨ERR⟩).vowelComponent = ERR := by
        rw [operatorPlus_vowelComponent]; rfl
      have e2 : (r0.operatorPlus ⟨ERR⟩).consonantComponent = r0.consonantComponent := by
        rw [operatorPlus_consonantComponent]; rfl
      have e3 : (r0.operatorPlus ⟨ERR⟩).middleVowelComponent = r0.middleVowelComponent := by
        rw [operatorPlus_middleVowelComponent]; rfl
      have e4 : (r0.operatorPlus ⟨ERR⟩).toneMarkerComponent = r0.toneMarkerComponent := by
        rw [operatorPlus_toneMarkerComponent]; rfl
      have hc0 : r0.consonantComponent = 0 := by
        by_contra hne
        have := (hasConsonant_iff r0).2 hne
        rw [hc] at this
        exact absurd this (by decide)
      refine ⟨?_, ?_, ?_, ?_⟩
      · rw [e1]
        rintro ⟨h, _⟩
        exact absurd h (by decide)
      · rw [e2, hc0]
        rintro ⟨h, _⟩
        exact absurd h (by decide)
      · intro _
        exact ⟨e1, e2, e3, e4⟩
      · rw [hc0]
        rintro ⟨h, _⟩
        exact absurd h (by decide)
    · have hcond : (r0.vowelComponent == ENG && !r0.hasConsonant && !r0.hasMiddleVowel) = false := by
        by_contra hx
        apply h1
        simp only [Bool.not_eq_false, Bool.and_eq_true, beq_iff_eq, Bool.not_eq_true',
          Bool.not_eq_eq_eq_not, Bool.not_true] at hx
        exact ⟨hx.1.1, hx.1.2, hx.2⟩
      rw [hcond]
      simp only [Bool.false_eq_true, if_false]
      by_cases h2 : r0.consonantComponent = G ∧
          (r0.middleVowelComponent = I ∨ r0.middleVowelComponent = UE)
      · have hcond2 : (r0.consonantComponent == G &&
            (r0.middleVowelComponent == I || r0.middleVowelComponent == UE)) = true := by
          simp only [Bool.and_eq_true, beq_iff_eq, Bool.or_eq_true]
          exact h2
        rw [if_pos hcond2]
        have e1 : (r0.operatorPlus ⟨J⟩).consonantComponent = J := by
          rw [operatorPlus_consonantComponent]; rfl
        have e2 : (r0.operatorPlus ⟨J⟩).middleVowelComponent = r0.middleVowelComponent := by
          rw [operatorPlus_middleVowelComponent]; rfl
        have e3 : (r0.operatorPlus ⟨J⟩).vowelComponent = r0.vowelComponent := by
          rw [operatorPlus_vowelComponent]; rfl
        have e4 : (r0.operatorPlus ⟨J⟩).toneMarkerComponent = r0.toneMarkerComponent := by
          rw [operatorPlus_toneMarkerComponent]; rfl
        have hhas : (r0.operatorPlus ⟨J⟩).hasConsonant = true := by
          rw [hasConsonant_iff, e1]; decide
        refine ⟨?_, ?_, ?_, ?_⟩
        · rintro ⟨_, h, _⟩
          rw [hhas] at h
          exact absurd h (by decide)
        · rw [e1]
          rintro ⟨h, _⟩
          exact absurd h (by decide)
        · intro h; exact absurd h h1
        · intro _; exact ⟨e1, e2, e3, e4⟩
      · have hcond2 : (r0.consonantComponent == G &&
            (r0.middleVowelComponent == I || r0.middleVowelComponent == UE)) = false := by
          by_contra hx
          apply h2
          simp only [Bool.not_eq_false, Bool.and_eq_true, beq_iff_eq, Bool.or_eq_true] at hx
          exact hx
        rw [hcond2]
        simp only [Bool.false_eq_true, if_false]
        exact ⟨h1, h2, fun h => absurd h h1, fun h => absurd h h2⟩
  · intro hid
    simp only [hsuHeuristics, hid, if_false]

theorem plus_consonant_only : ∀ n, n < 32 →
    BopomofoSyllable.empty.operatorPlusAssign ⟨toComponent n⟩ = ⟨toComponent n⟩ ∧
    (⟨toComponent n⟩ : BPMF).vowelComponent = 0 ∧
    (⟨toComponent n⟩ : BPMF).middleVowelComponent = 0 ∧
    (⟨toComponent n⟩ : BPMF).toneMarkerComponent = 0 ∧
    (⟨toComponent n⟩ : BPMF).consonantComponent = toComponent n := by
  decide

theorem hsuHeuristics_of_no_vowel_no_medial (l : BopomofoKeyboardLayout) (x : BPMF)
    (hv : x.vowelComponent = 0) (hm : x.middleVowelComponent = 0) : l.hsuHeuristics x = x := by
  unfold hsuHeuristics
  rw [hv, hm]
  have e1 : ((0 : Component) == ENG) = false := by decide
  have e2 : ((0 : Component) == I) = false := by decide
  have e3 : ((0 : Component) == UE) = false := by decide
  simp [e1, e2, e3]

theorem syllableFromKeySequence_nil (l : BopomofoKeyboardLayout) :
    l.syllableFromKeySequence [] = BopomofoSyllable.empty := by
  simp only [syllableFromKeySequence, syllableFromKeySequenceLoop]
  exact hsuHeuristics_of_no_vowel_no_medial l _ (by decide) (by decide)

/-- Claim C11, amended. Type then backspace: for a layout and a non-NUL key `k`
that the layout maps to exactly one component, a consonant code `c` (`1..21`)
whose `componentToKey` is non-zero, from an empty buffer in layout mode
`combineKey k` returns true and leaves the syllable `c` alone (only the
consonant field occupied), and one `backspace` then gives the empty syllable
back (the buffer is as before). -/
theorem type_then_backspace (FromHanyuPinyin : List CChar → BPMF) (l : BopomofoKeyboardLayout)
    (b : BopomofoReadingBuffer) (k : CChar) (c : Component)
    (_hk : k ≠ 0) (hkc : l.keyToComponents k = [c]) (hc1 : 1 ≤ c.val) (hc2 : c.val ≤ 21)
    (hkey : l.componentToKey c ≠ 0)
    (hl : b.m_layout = some l) (hmode : b.m_pinyinMode = false)
    (hempty : b.m_syllable = BopomofoSyllable.empty) :
    (BopomofoReadingBuffer.combineKey FromHanyuPinyin b k).1 = true ∧
    (BopomofoReadingBuffer.combineKey FromHanyuPinyin b k).2 = { b with m_syllable := ⟨c⟩ } ∧
    ((⟨c⟩ : BPMF).consonantComponent = c ∧ (⟨c⟩ : BPMF).hasMiddleVowel = false ∧
      (⟨c⟩ : BPMF).hasVowel = false ∧ (⟨c⟩ : BPMF).hasToneMarker = false) ∧
    (BopomofoReadingBuffer.backspace FromHanyuPinyin
      (BopomofoReadingBuffer.combineKey FromHanyuPinyin b k).2).m_syllable =
        BopomofoSyllable.empty ∧
    BopomofoReadingBuffer.backspace FromHanyuPinyin
      (BopomofoReadingBuffer.combineKey FromHanyuPinyin b k).2 = b := by
  have hcn : toComponent c.val = c := by
    apply Fin.ext
    rw [toComponent_val]
    exact Nat.mod_eq_of_lt c.isLt
  obtain ⟨p1, p2, p3, p4, p5⟩ := plus_consonant_only c.val (by omega)
  rw [hcn] at p1 p2 p3 p4 p5
  have hvalid : b.isValidKey k = true := by
    simp [BopomofoReadingBuffer.isValidKey, hmode, hl, hkc]
  have hseq0 : l.keySequenceFromSyllable BopomofoSyllable.empty = [] := rfl
  have hsyl : l.syllableFromKeySequence [k] = ⟨c⟩ := by
    simp only [syllableFromKeySequence, syllableFromKeySequenceLoop, syllableFromKeySequenceStep,
      hkc, p1]
    exact hsuHeuristics_of_no_vowel_no_medial l _ p2 p3
  have hcomb : BopomofoReadingBuffer.combineKey FromHanyuPinyin b k =
      (true, { b with m_syllable := ⟨c⟩ }) := by
    simp only [BopomofoReadingBuffer.combineKey, hvalid, hmode, hl, hempty, hseq0,
      Bool.not_true, Bool.false_eq_true, if_false, List.nil_append, hsyl]
  have hfields : (⟨c⟩ : BPMF).consonantComponent = c ∧ (⟨c⟩ : BPMF).hasMiddleVowel = false ∧
      (⟨c⟩ : BPMF).hasVowel = false ∧ (⟨c⟩ : BPMF).hasToneMarker = false := by
    refine ⟨p5, ?_, ?_, ?_⟩
    · have := congrArg Fin.val p3
      simp only [middleVowelComponent, toComponent_val] at this
      simp only [hasMiddleVowel, bne_eq_false_iff_eq, beq_iff_eq]
      have hlt := and_val_lt (⟨c⟩ : BPMF).m_syllable.val MiddleVowelMask
      rw [Nat.mod_eq_of_lt hlt] at this
      exact this
    · have := congrArg Fin.val p2
      simp only [vowelComponent, toComponent_val] at this
      simp only [hasVowel, bne_eq_false_iff_eq, beq_iff_eq]
      have hlt := and_val_lt (⟨c⟩ : BPMF).m_syllable.val VowelMask
      rw [Nat.mod_eq_of_lt hlt] at this
      exact this
    · have := congrArg Fin.val p4
      simp only [toneMarkerComponent, toComponent_val] at this
      simp only [hasToneMarker, bne_eq_false_iff_eq, beq_iff_eq]
      have hlt := and_val_lt (⟨c⟩ : BPMF).m_syllable.val ToneMarkerMask
      rw [Nat.mod_eq_of_lt hlt] at this
      exact this
  have hseq : l.keySequenceFromSyllable ⟨c⟩ = [l.componentToKey c] := by
    have hc0 : c.val ≠ 0 := by omega
    simp only [keySequenceFromSyllable, BopomofoKeyboardLayout.STKS_COMBINE, p2, p3, p4, p5]
    have z : ((0 : Component).val != 0) = false := by decide
    simp [z, hc0, hkey]
  have hback : BopomofoReadingBuffer.backspace FromHanyuPinyin { b with m_syllable := ⟨c⟩ } = b := by
    simp only [BopomofoReadingBuffer.backspace, hl, hmode, hseq, List.length_singleton,
      List.dropLast_single, syllableFromKeySequence_nil]
    cases b with
    | mk bl bs bm bp =>
      simp only at hl hmode hempty
      simp [hl, hmode, hempty]
  rw [hcomb]
  refine ⟨rfl, rfl, hfields, ?_, hback⟩
  simp only
  rw [hback, hempty]

theorem type_then_backspace_counterexample :
    nulShadowLayout.keyToComponents (-1) = [BopomofoSyllable.D] ∧
    (BopomofoReadingBuffer.combineKey (fun _ => BopomofoSyllable.empty)
      (BopomofoReadingBuffer.ctor (some nulShadowLayout)) (-1)) =
        (true, { BopomofoReadingBuffer.ctor (some nulShadowLayout) with
          m_syllable := ⟨BopomofoSyllable.D⟩ }) ∧
    (BopomofoReadingBuffer.backspace (fun _ => BopomofoSyllable.empty)
      (BopomofoReadingBuffer.combineKey (fun _ => BopomofoSyllable.empty)
        (BopomofoReadingBuffer.ctor (some nulShadowLayout)) (-1)).2).m_syllable =
          ⟨BopomofoSyllable.D⟩ := by
  decide

theorem mixed_radix (o : Nat) :
    o % 22 + 22 * (o / 22 % 4) + 88 * (o / 88 % 14) + 1232 * (o / 1232 % 5) = o % 6160 := by
  have h1 : o / 88 = o / 22 / 4 := by rw [Nat.div_div_eq_div_mul]
  have h2 : o / 1232 = o / 88 / 14 := by rw [Nat.div_div_eq_div_mul]
  have h3 : o / 6160 = o / 1232 / 5 := by rw [Nat.div_div_eq_div_mul]
  omega

theorem FromAbsoluteOrder_isValid (order : Component) : (FromAbsoluteOrder order).IsValid := by
  rw [isValid_iff, FromAbsoluteOrder_val]
  have ha : order.val % 22 < 22 := Nat.mod_lt _ (by decide)
  have hb : order.val / 22 % 4 < 4 := Nat.mod_lt _ (by decide)
  have hc : order.val / 88 % 14 < 14 := Nat.mod_lt _ (by decide)
  have hd : order.val / 1232 % 5 < 5 := Nat.mod_lt _ (by decide)
  generalize order.val % 22 = a at ha ⊢
  generalize order.val / 22 % 4 = b at hb ⊢
  generalize order.val / 88 % 14 = c at hc ⊢
  generalize order.val / 1232 % 5 = d at hd ⊢
  omega

theorem absoluteOrder_FromAbsoluteOrder (order : Component) :
    (absoluteOrder (FromAbsoluteOrder order)).val = order.val % 6160 := by
  rw [absoluteOrder_val, FromAbsoluteOrder_val, ← mixed_radix]
  have ha : order.val % 22 < 22 := Nat.mod_lt _ (by decide)
  have hb : order.val / 22 % 4 < 4 := Nat.mod_lt _ (by decide)
  have hc : order.val / 88 % 14 < 14 := Nat.mod_lt _ (by decide)
  have hd : order.val / 1232 % 5 < 5 := Nat.mod_lt _ (by decide)
  generalize order.val % 22 = a at ha ⊢
  generalize order.val / 22 % 4 = b at hb ⊢
  generalize order.val / 88 % 14 = c at hc ⊢
  generalize order.val / 1232 % 5 = d at hd ⊢
  omega

theorem FromAbsoluteOrder_eq_empty_iff (order : Component) :
    FromAbsoluteOrder order = BopomofoSyllable.empty ↔ order.val % 6160 = 0 := by
  constructor
  · intro h
    rw [← absoluteOrder_FromAbsoluteOrder, h]
    rfl
  · intro h
    apply syllable_ext
    rw [FromAbsoluteOrder_val, empty_val]
    have := mixed_radix order.val
    omega

/-- Claim C12, amended. `FromAbsoluteOrderString` returns the empty syllable
for every string whose length is not 2.  For a two-character string it makes no
range check: it returns `FromAbsoluteOrder` of the decoded value
`decodedOrder c0 c1`, which is the valid syllable whose ordering number is that
value modulo 6160; so the result is empty exactly when the decoded value is a
multiple of 6160.  (For characters from 48 on and a value up to 65535 the
decoded value is `(c1 - 48) * 79 + (c0 - 48)`.) -/
theorem FromAbsoluteOrderString_decode :
    (∀ str : List CChar, str.length ≠ 2 →
      FromAbsoluteOrderString str = BopomofoSyllable.empty) ∧
    (∀ c0 c1 : CChar,
      FromAbsoluteOrderString [c0, c1] = FromAbsoluteOrder (decodedOrder c0 c1) ∧
      (FromAbsoluteOrderString [c0, c1]).IsValid ∧
      (absoluteOrder (FromAbsoluteOrderString [c0, c1])).val = (decodedOrder c0 c1).val % 6160 ∧
      (FromAbsoluteOrderString [c0, c1] = BopomofoSyllable.empty ↔
        (decodedOrder c0 c1).val % 6160 = 0)) ∧
    (∀ c0 c1 : Int, 48 ≤ c0 → 48 ≤ c1 → (c1 - 48) * 79 + (c0 - 48) ≤ 65535 →
      ((decodedOrder c0 c1).val : Int) = (c1 - 48) * 79 + (c0 - 48)) := by
  refine ⟨?_, ?_, ?_⟩
  · intro str hlen
    match str, hlen with
    | [], _ => rfl
    | [_], _ => rfl
    | [_, _], h => exact absurd rfl h
    | _ :: _ :: _ :: _, _ => rfl
  · intro c0 c1
    have e : FromAbsoluteOrderString [c0, c1] = FromAbsoluteOrder (decodedOrder c0 c1) := rfl
    rw [e]
    exact ⟨rfl, FromAbsoluteOrder_isValid _, absoluteOrder_FromAbsoluteOrder _,
      FromAbsoluteOrder_eq_empty_iff _⟩
  · intro c0 c1 h0 h1 hle
    simp only [decodedOrder, intToComponent]
    omega

theorem FromAbsoluteOrderString_decode_counterexample :
    ((125 : Int) - 48) * 79 + (126 - 48) = 6161 ∧
    FromAbsoluteOrderString [126, 125] = ⟨BopomofoSyllable.B⟩ ∧
    FromAbsoluteOrderString [126, 125] ≠ BopomofoSyllable.empty := by
  decide

/-- The helper `sequenceContainsIorUE` looks for the two characters that the
reverse map gives for `I` and for `UE` (NUL for a component without key), not
for keys that the layout maps to `I` or `UE`. -/
theorem sequenceContainsIorUE_iff (l : BopomofoKeyboardLayout) (range : List CChar) :
    l.sequenceContainsIorUE range = true ↔
      ∃ c ∈ range, c = l.componentToKey I ∨ c = l.componentToKey UE := by
  simp [sequenceContainsIorUE]

/-- Claim C18, amended. Palatal-consonant rule: for a key with at least two
candidates `c0`, `c1` to which the vowel rule does not apply and of which
exactly one is in the J/Q/X class: if the accumulator is non-empty, the key
merges the third candidate unless that candidate equals the second candidate
`c1` (or there is no third candidate), in which case the accumulator is left
unchanged; if the accumulator is empty, it merges the palatal candidate when
some later character of the sequence equals `componentToKey I` or
`componentToKey UE` (the character the reverse map gives for the component, NUL
if it has no key), and the non-palatal candidate otherwise. -/
theorem palatal_rule (l : BopomofoKeyboardLayout) (before : List CChar) (key : CChar)
    (ahead : List CChar) (syllable : BPMF) (c0 c1 : Component) (more : List Component)
    (hcomp : l.keyToComponents key = c0 :: c1 :: more)
    (hv1 : ¬ ((⟨c0⟩ : BPMF).vowelComponent = E ∧ (⟨c1⟩ : BPMF).vowelComponent ≠ E))
    (hv2 : ¬ ((⟨c0⟩ : BPMF).vowelComponent ≠ E ∧ (⟨c1⟩ : BPMF).vowelComponent = E))
    (hjqx : (⟨c0⟩ : BPMF).belongsToJQXClass ≠ (⟨c1⟩ : BPMF).belongsToJQXClass) :
    (syllable.isEmpty = false →
      l.syllableFromKeySequenceStep before key ahead syllable =
        match more with
        | c2 :: _ => if (⟨c2⟩ : BPMF) ≠ ⟨c1⟩ then syllable.operatorPlus ⟨c2⟩ else syllable
        | [] => syllable) ∧
    (syllable.isEmpty = true →
      l.syllableFromKeySequenceStep before key ahead syllable =
        syllable.operatorPlus
          (if ∃ c ∈ ahead, c = l.componentToKey I ∨ c = l.componentToKey UE then
            (if (⟨c0⟩ : BPMF).belongsToJQXClass then ⟨c0⟩ else ⟨c1⟩)
          else
            (if (⟨c0⟩ : BPMF).belongsToJQXClass then ⟨c1⟩ else ⟨c0⟩))) := by
  have e1 : ((⟨c0⟩ : BPMF).vowelComponent == E && (⟨c1⟩ : BPMF).vowelComponent != E) = false := by
    by_contra hx
    apply hv1
    simpa using hx
  have e2 : ((⟨c0⟩ : BPMF).vowelComponent != E && (⟨c1⟩ : BPMF).vowelComponent == E) = false := by
    by_contra hx
    apply hv2
    simpa using hx
  constructor
  · intro hne
    unfold syllableFromKeySequenceStep
    simp only [hcomp, e1, e2, Bool.false_eq_true, if_false, hne, Bool.not_false, if_true,
      operatorPlusAssign_eq]
    cases h0 : (⟨c0⟩ : BPMF).belongsToJQXClass <;> cases h1 : (⟨c1⟩ : BPMF).belongsToJQXClass
    · rw [h0, h1] at hjqx; exact absurd rfl hjqx
    · cases more with
      | nil => simp
      | cons c2 _ => simp
    · cases more with
      | nil => simp
      | cons c2 _ => simp
    · rw [h0, h1] at hjqx; exact absurd rfl hjqx
  · intro he
    have hiff := sequenceContainsIorUE_iff l ahead
    unfold syllableFromKeySequenceStep
    simp only [hcomp, e1, e2, Bool.false_eq_true, if_false, he, Bool.not_true,
      operatorPlusAssign_eq]
    cases h0 : (⟨c0⟩ : BPMF).belongsToJQXClass <;> cases h1 : (⟨c1⟩ : BPMF).belongsToJQXClass
    · rw [h0, h1] at hjqx; exact absurd rfl hjqx
    · by_cases hs : l.sequenceContainsIorUE ahead = true
      · rw [if_pos (hiff.1 hs)]; simp [hs]
      · rw [if_neg (fun h => hs (hiff.2 h))]; simp [hs]
    · by_cases hs : l.sequenceContainsIorUE ahead = true
      · rw [if_pos (hiff.1 hs)]; simp [hs]
      · rw [if_neg (fun h => hs (hiff.2 h))]; simp [hs]
    · rw [h0, h1] at hjqx; exact absurd rfl hjqx

theorem palatal_rule_counterexample :
    (palatalLayout.keyToComponents 103 =
        [BopomofoSyllable.G, BopomofoSyllable.J, BopomofoSyllable.G] ∧
      (⟨BopomofoSyllable.G⟩ : BPMF).belongsToJQXClass = false ∧
      (⟨BopomofoSyllable.J⟩ : BPMF).belongsToJQXClass = true ∧
      (⟨BopomofoSyllable.G⟩ : BPMF).vowelComponent ≠ E ∧
      (⟨BopomofoSyllable.J⟩ : BPMF).vowelComponent ≠ E ∧
      (⟨BopomofoSyllable.I⟩ : BPMF).isEmpty = false ∧
      palatalLayout.syllableFromKeySequenceStep [105] 103 [] ⟨BopomofoSyllable.I⟩ = ⟨0x0029⟩ ∧
      palatalLayout.syllableFromKeySequenceStep [105] 103 [] ⟨BopomofoSyllable.I⟩ ≠
        ⟨BopomofoSyllable.I⟩ ∧
      palatalLayout.syllableFromKeySequence [105, 103] = ⟨0x0029⟩) ∧
    (noIKeyLayout.keyToComponents 103 = [BopomofoSyllable.G, BopomofoSyllable.J] ∧
      noIKeyLayout.keyToComponents 0 = [] ∧
      noIKeyLayout.m_keyToComponent.all
        (fun e => !e.2.contains BopomofoSyllable.I && !e.2.contains BopomofoSyllable.UE) = true ∧
      noIKeyLayout.componentToKey BopomofoSyllable.I = 0 ∧
      noIKeyLayout.componentToKey BopomofoSyllable.UE = 0 ∧
      noIKeyLayout.syllableFromKeySequenceStep [] 103 [0] BopomofoSyllable.empty =
        ⟨BopomofoSyllable.J⟩ ∧
      noIKeyLayout.syllableFromKeySequence [103, 0] = ⟨BopomofoSyllable.J⟩) ∧
    (twoIKeysLayout.keyToComponents 103 = [BopomofoSyllable.G, BopomofoSyllable.J] ∧
      twoIKeysLayout.keyToComponents 97 = [BopomofoSyllable.I] ∧
      twoIKeysLayout.componentToKey BopomofoSyllable.I = 98 ∧
      twoIKeysLayout.componentToKey BopomofoSyllable.UE = 0 ∧
      twoIKeysLayout.syllableFromKeySequenceStep [] 103 [97] BopomofoSyllable.empty =
        ⟨BopomofoSyllable.G⟩ ∧
      twoIKeysLayout.syllableFromKeySequence [103, 97] = ⟨0x0029⟩) := by
  decide

/-- Claim C20, at the failing input. In direct-romanization mode, from a cleared
buffer, the keys `a`, `2`, `3` are all accepted and leave the raw string `a23`:
two trailing tone digits. -/
theorem pinyin_second_tone_digit (FromHanyuPinyin : List CChar → BPMF) :
    (BopomofoReadingBuffer.ctor (some hanyuPinyinLayout)).clear.m_pinyinMode = true ∧
    (BopomofoReadingBuffer.ctor (some hanyuPinyinLayout)).clear.m_pinyinSequence = [] ∧
    (BopomofoReadingBuffer.combineKey FromHanyuPinyin
      (BopomofoReadingBuffer.combineKey FromHanyuPinyin
        (BopomofoReadingBuffer.combineKey FromHanyuPinyin
          (BopomofoReadingBuffer.ctor (some hanyuPinyinLayout)).clear 97).2 50).2 51).1 = true ∧
    (BopomofoReadingBuffer.combineKey FromHanyuPinyin
      (BopomofoReadingBuffer.combineKey FromHanyuPinyin
        (BopomofoReadingBuffer.combineKey FromHanyuPinyin
          (BopomofoReadingBuffer.ctor (some hanyuPinyinLayout)).clear 97).2 50).2 51).2.m_pinyinSequence
      = [97, 50, 51] := by
  refine ⟨rfl, rfl, rfl, rfl⟩

theorem getLast?_append_singleton_like (letters digits : List CChar) (d : CChar)
    (hd : d ∈ digits) : ∃ x, (letters ++ digits).getLast? = some x ∧ x ∈ digits := by
  have hne : digits ≠ [] := List.ne_nil_of_mem hd
  refine ⟨digits.getLast hne, ?_, List.getLast_mem hne⟩
  rw [List.getLast?_append_of_ne_nil _ hne, List.getLast?_eq_getLast _ hne]

/-- In direct-romanization mode `combineKey` keeps the raw string made of
lower-case letters followed by tone digits. -/
theorem combineKey_pinyinShape (FromHanyuPinyin : List CChar → BPMF) (b : BopomofoReadingBuffer)
    (k : CChar) (hmode : b.m_pinyinMode = true) (hshape : PinyinShape b.m_pinyinSequence) :
    PinyinShape (BopomofoReadingBuffer.combineKey FromHanyuPinyin b k).2.m_pinyinSequence := by
  by_cases hv : b.isValidKey k = true
  · have e : (BopomofoReadingBuffer.combineKey FromHanyuPinyin b k).2.m_pinyinSequence =
        b.m_pinyinSequence ++ [tolower k] := by
      simp [BopomofoReadingBuffer.combineKey, hv, hmode]
    rw [e]
    obtain ⟨letters, digits, hseq, hl, hd, hnil⟩ := hshape
    simp only [BopomofoReadingBuffer.isValidKey, hmode, Bool.not_true, Bool.false_eq_true,
      if_false] at hv
    by_cases hletter : tolower k ≥ 97 ∧ tolower k ≤ 122
    · rw [if_pos hletter] at hv
      have hdig : digits = [] := by
        cases hdg : digits with
        | nil => rfl
        | cons d ds =>
          exfalso
          obtain ⟨x, hx, hxd⟩ := getLast?_append_singleton_like letters digits d
            (by rw [hdg]; exact List.mem_cons_self _ _)
          rw [hseq, hx] at hv
          have := hd x hxd
          simp only at hv
          rw [if_pos ⟨this.1, this.2⟩] at hv
          exact absurd hv (by decide)
      refine ⟨letters ++ [tolower k], [], ?_, ?_, ?_, ?_⟩
      · rw [hseq, hdig]; simp
      · intro c hc
        rcases List.mem_append.1 hc with h | h
        · exact hl c h
        · have : c = tolower k := by simpa using h
          rw [this]; exact ⟨hletter.1, hletter.2⟩
      · intro c hc; simp at hc
      · intro _; rfl
    · rw [if_neg hletter] at hv
      have hcond : (b.m_pinyinSequence.length != 0 &&
          (decide (tolower k ≥ 50) && decide (tolower k ≤ 53))) = true := by
        by_contra hx
        rw [if_neg hx] at hv
        exact absurd hv (by decide)
      simp only [Bool.and_eq_true, bne_iff_ne, ne_eq, decide_eq_true_eq] at hcond
      refine ⟨letters, digits ++ [tolower k], ?_, hl, ?_, ?_⟩
      · rw [hseq, List.append_assoc]
      · intro c hc
        rcases List.mem_append.1 hc with h | h
        · exact hd c h
        · have : c = tolower k := by simpa using h
          rw [this]; exact ⟨hcond.2.1, hcond.2.2⟩
      · intro hle
        exfalso
        apply hcond.1
        rw [hseq, hle, hnil hle]
        rfl
  · have hv2 : b.isValidKey k = false := by simpa using hv
    have e : (BopomofoReadingBuffer.combineKey FromHanyuPinyin b k).2 = b := by
      simp [BopomofoReadingBuffer.combineKey, hv2]
    rw [e]
    exact hshape

theorem dropLast_pinyinShape (sequence : List CChar) (hshape : PinyinShape sequence) :
    PinyinShape sequence.dropLast := by
  obtain ⟨letters, digits, hseq, hl, hd, hnil⟩ := hshape
  by_cases hdg : digits = []
  · refine ⟨letters.dropLast, [], ?_, ?_, ?_, ?_⟩
    · rw [hseq, hdg]; simp
    · intro c hc; exact hl c (List.mem_of_mem_dropLast hc)
    · intro c hc; simp at hc
    · intro _; rfl
  · refine ⟨letters, digits.dropLast, ?_, hl, ?_, ?_⟩
    · rw [hseq, List.dropLast_append_of_ne_nil _ hdg]
    · intro c hc; exact hd c (List.mem_of_mem_dropLast hc)
    · intro hle; exact absurd (hnil hle) hdg

/-- In direct-romanization mode `backspace` keeps the raw string made of
lower-case letters followed by tone digits. -/
theorem backspace_pinyinShape (FromHanyuPinyin : List CChar → BPMF) (b : BopomofoReadingBuffer)
    (hmode : b.m_pinyinMode = true) (hshape : PinyinShape b.m_pinyinSequence) :
    PinyinShape (BopomofoReadingBuffer.backspace FromHanyuPinyin b).m_pinyinSequence := by
  unfold BopomofoReadingBuffer.backspace
  cases hl : b.m_layout with
  | none => exact hshape
  | some l =>
    simp only [hmode, if_true]
    by_cases hlen : (b.m_pinyinSequence.length != 0) = true
    · rw [if_pos hlen]
      exact dropLast_pinyinShape _ hshape
    · rw [if_neg hlen]
      exact hshape

theorem lookup_mem {α β : Type} [BEq α] [LawfulBEq α] (k : α) (v : β) :
    ∀ l : List (α × β), l.lookup k = some v → (k, v) ∈ l := by
  intro l
  induction l with
  | nil => intro h; simp at h
  | cons e es ih =>
    intro h
    obtain ⟨k1, v1⟩ := e
    rw [List.lookup_cons] at h
    by_cases hk : (k == k1) = true
    · rw [hk] at h
      simp only [Option.some.injEq] at h
      have : k = k1 := by simpa using hk
      rw [this, h]
      exact List.mem_cons_self _ _
    · have hk2 : (k == k1) = false := by simpa using hk
      rw [hk2] at h
      exact List.mem_cons_of_mem _ (ih h)

theorem keyToComponents_length_le (l : BopomofoKeyboardLayout)
    (h : ∀ e ∈ l.m_keyToComponent, e.2.length ≤ 1) (k : CChar) :
    (l.keyToComponents k).length ≤ 1 := by
  unfold keyToComponents
  cases hl : l.m_keyToComponent.lookup k with
  | none => simp
  | some v => exact h (k, v) (lookup_mem k v _ hl)

theorem absoluteOrder_range_witness :
    (⟨0x26F5⟩ : BopomofoSyllable).IsValid ∧
    ((⟨0x26F5⟩ : BopomofoSyllable).absoluteOrder.val = 6159 ∧
      absoluteOrderString true ⟨0x26F5⟩ = [124, 125] ∧
      (⟨0x26F5⟩ : BopomofoSyllable).absoluteOrder.val ≤ 6159) :=
  ⟨by decide, by decide, by decide, (absoluteOrder_range true ⟨0x26F5⟩ (by decide)).2.1⟩

theorem syllableFromKeySequence_unambiguous_witness :
    unambiguousLayout.m_identity ≠ LayoutIdentity.HsuLayout ∧
    unambiguousLayout.syllableFromKeySequence [100, 113, 105, 50] =
      ([100, 113, 105, 50].flatMap unambiguousLayout.keyToComponents).foldl
        (fun acc c => acc.operatorPlus ⟨c⟩) BopomofoSyllable.empty ∧
    unambiguousLayout.syllableFromKeySequence [100, 113, 105, 50] = ⟨0x0825⟩ :=
  ⟨by decide,
    (syllableFromKeySequence_unambiguous unambiguousLayout [100, 113, 105, 50] (by decide)
      (keyToComponents_length_le unambiguousLayout (by decide))).1, by decide⟩

theorem hsuHeuristics_postcondition_witness :
    hsuExampleLayout.m_identity = LayoutIdentity.HsuLayout ∧
    hsuExampleLayout.syllableFromKeySequenceLoop [] [103, 105] BopomofoSyllable.empty =
      ⟨0x0029⟩ ∧
    hsuExampleLayout.syllableFromKeySequence [103, 105] = ⟨0x002c⟩ ∧
    ¬ ((hsuExampleLayout.syllableFromKeySequence [103, 105]).consonantComponent = G ∧
      ((hsuExampleLayout.syllableFromKeySequence [103, 105]).middleVowelComponent = I ∨
        (hsuExampleLayout.syllableFromKeySequence [103, 105]).middleVowelComponent = UE)) :=
  ⟨by decide, by decide, by decide,
    ((hsuHeuristics_postcondition hsuExampleLayout [103, 105]).1 (by decide)).2.1⟩

theorem type_then_backspace_witness :
    (exampleLayout.keyToComponents 100 = [BopomofoSyllable.D] ∧
      exampleLayout.componentToKey BopomofoSyllable.D ≠ 0) ∧
    (BopomofoReadingBuffer.combineKey (fun _ => BopomofoSyllable.empty)
        (BopomofoReadingBuffer.ctor (some exampleLayout)) 100).1 = true ∧
    (BopomofoReadingBuffer.backspace (fun _ => BopomofoSyllable.empty)
      (BopomofoReadingBuffer.combineKey (fun _ => BopomofoSyllable.empty)
        (BopomofoReadingBuffer.ctor (some exampleLayout)) 100).2).m_syllable =
      BopomofoSyllable.empty :=
  ⟨by decide,
    (type_then_backspace (fun _ => BopomofoSyllable.empty) exampleLayout
      (BopomofoReadingBuffer.ctor (some exampleLayout)) 100 BopomofoSyllable.D (by decide)
      (by decide) (by decide) (by decide) (by decide) rfl rfl rfl).1,
    (type_then_backspace (fun _ => BopomofoSyllable.empty) exampleLayout
      (BopomofoReadingBuffer.ctor (some exampleLayout)) 100 BopomofoSyllable.D (by decide)
      (by decide) (by decide) (by decide) (by decide) rfl rfl rfl).2.2.2.1⟩

theorem FromAbsoluteOrderString_decode_witness :
    FromAbsoluteOrderString [48, 48, 48] = BopomofoSyllable.empty ∧
    ((decodedOrder 126 125).val = 6161 ∧
      (absoluteOrder (FromAbsoluteOrderString [126, 125])).val = (decodedOrder 126 125).val % 6160) :=
  ⟨FromAbsoluteOrderString_decode.1 [48, 48, 48] (by decide), by decide,
    (FromAbsoluteOrderString_decode.2.1 126 125).2.2.1⟩

theorem palatal_rule_witness :
    (palatalLayout.keyToComponents 103 =
        [BopomofoSyllable.G, BopomofoSyllable.J, BopomofoSyllable.G] ∧
      (⟨BopomofoSyllable.G⟩ : BPMF).belongsToJQXClass ≠
        (⟨BopomofoSyllable.J⟩ : BPMF).belongsToJQXClass ∧
      palatalLayout.componentToKey BopomofoSyllable.I = 105) ∧
    palatalLayout.syllableFromKeySequenceStep [105] 103 [] ⟨BopomofoSyllable.I⟩ =
      (⟨BopomofoSyllable.I⟩ : BPMF).operatorPlus ⟨BopomofoSyllable.G⟩ ∧
    palatalLayout.syllableFromKeySequenceStep [] 103 [105] BopomofoSyllable.empty =
      BopomofoSyllable.empty.operatorPlus
        (if ∃ c ∈ [(105 : CChar)], c = palatalLayout.componentToKey BopomofoSyllable.I ∨
            c = palatalLayout.componentToKey BopomofoSyllable.UE then
          (if (⟨BopomofoSyllable.G⟩ : BPMF).belongsToJQXClass then ⟨BopomofoSyllable.G⟩
            else ⟨BopomofoSyllable.J⟩)
        else
          (if (⟨BopomofoSyllable.G⟩ : BPMF).belongsToJQXClass then ⟨BopomofoSyllable.J⟩
            else ⟨BopomofoSyllable.G⟩)) ∧
    palatalLayout.syllableFromKeySequenceStep [] 103 [105] BopomofoSyllable.empty =
      ⟨BopomofoSyllable.J⟩ :=
  ⟨by decide,
    (palatal_rule palatalLayout [105] 103 [] ⟨BopomofoSyllable.I⟩ BopomofoSyllable.G
      BopomofoSyllable.J [BopomofoSyllable.G] (by decide) (by decide) (by decide)
      (by decide)).1 (by decide),
    (palatal_rule palatalLayout [] 103 [105] BopomofoSyllable.empty BopomofoSyllable.G
      BopomofoSyllable.J [BopomofoSyllable.G] (by decide) (by decide) (by decide)
      (by decide)).2 (by decide),
    by decide⟩

/-! ### Layout switch -/

theorem setKeyboardLayout_hanyuPinyin (b : BopomofoReadingBuffer)
    (layout : Option BopomofoKeyboardLayout)
    (h : BopomofoReadingBuffer.isHanyuPinyinLayout layout = true) :
    BopomofoReadingBuffer.setKeyboardLayout b layout =
      { m_layout := layout, m_syllable := b.m_syllable, m_pinyinMode := true,
        m_pinyinSequence := [] } := by
  simp [BopomofoReadingBuffer.setKeyboardLayout, h]

theorem setKeyboardLayout_other (b : BopomofoReadingBuffer)
    (layout : Option BopomofoKeyboardLayout)
    (h : BopomofoReadingBuffer.isHanyuPinyinLayout layout = false) :
    BopomofoReadingBuffer.setKeyboardLayout b layout = { b with m_layout := layout } := by
  simp [BopomofoReadingBuffer.setKeyboardLayout, h]

/-- From a buffer that is not in direct-romanization mode, a switch to a layout
other than the Hanyu-Pinyin one gives a buffer in layout mode. -/
theorem setKeyboardLayout_layoutMode (FromHanyuPinyin : List CChar → BPMF)
    (b : BopomofoReadingBuffer) (l : BopomofoKeyboardLayout)
    (hmode : b.m_pinyinMode = false)
    (h : l.m_identity ≠ LayoutIdentity.HanyuPinyinLayout) (k : CChar) :
    ((BopomofoReadingBuffer.setKeyboardLayout b (some l)).isValidKey k = true ↔
      l.keyToComponents k ≠ []) ∧
    ((BopomofoReadingBuffer.setKeyboardLayout b (some l)).isValidKey k = true →
      BopomofoReadingBuffer.combineKey FromHanyuPinyin
          (BopomofoReadingBuffer.setKeyboardLayout b (some l)) k =
        (true, { BopomofoReadingBuffer.setKeyboardLayout b (some l) with
          m_syllable :=
            l.syllableFromKeySequence (l.keySequenceFromSyllable b.m_syllable ++ [k]) })) := by
  have h1 : BopomofoReadingBuffer.isHanyuPinyinLayout (some l) = false := by
    simp [BopomofoReadingBuffer.isHanyuPinyinLayout, h]
  rw [setKeyboardLayout_other b (some l) h1]
  cases b with
  | mk lay syl mode seq =>
    simp only at hmode
    subst hmode
    constructor
    · simp [BopomofoReadingBuffer.isValidKey, List.length_pos]
    · intro hv
      simp [BopomofoReadingBuffer.combineKey, hv]

/-- Claim C21, at the failing input. A buffer constructed on the Hanyu-Pinyin
layout and then switched with `setKeyboardLayout` to `exampleLayout`, which is
not the Hanyu-Pinyin layout, holds the new layout but is still in
direct-romanization mode: the key `2`, which the layout maps to a component, is
not valid; the key `z`, which the layout does not map, is valid; and
`combineKey` on `a` appends to the raw string and takes the syllable from
`FromHanyuPinyin` instead of the layout.  A buffer constructed on
`exampleLayout` is in layout mode and accepts the key `2`. -/
theorem setKeyboardLayout_keeps_pinyinMode (FromHanyuPinyin : List CChar → BPMF) :
    exampleLayout.m_identity ≠ LayoutIdentity.HanyuPinyinLayout ∧
    (BopomofoReadingBuffer.setKeyboardLayout (BopomofoReadingBuffer.ctor (some hanyuPinyinLayout))
        (some exampleLayout)) =
      { m_layout := some exampleLayout, m_syllable := BopomofoSyllable.empty,
        m_pinyinMode := true, m_pinyinSequence := [] } ∧
    (BopomofoReadingBuffer.ctor (some exampleLayout)).m_pinyinMode = false ∧
    (BopomofoReadingBuffer.ctor (some exampleLayout)).isValidKey 50 = true ∧
    exampleLayout.keyToComponents 50 = [Tone2] ∧
    (BopomofoReadingBuffer.setKeyboardLayout (BopomofoReadingBuffer.ctor (some hanyuPinyinLayout))
        (some exampleLayout)).isValidKey 50 = false ∧
    exampleLayout.keyToComponents 122 = [] ∧
    (BopomofoReadingBuffer.setKeyboardLayout (BopomofoReadingBuffer.ctor (some hanyuPinyinLayout))
        (some exampleLayout)).isValidKey 122 = true ∧
    BopomofoReadingBuffer.combineKey FromHanyuPinyin
        (BopomofoReadingBuffer.setKeyboardLayout
          (BopomofoReadingBuffer.ctor (some hanyuPinyinLayout)) (some exampleLayout)) 97 =
      (true, { m_layout := some exampleLayout, m_syllable := FromHanyuPinyin [97],
               m_pinyinMode := true, m_pinyinSequence := [97] }) := by
  refine ⟨by decide, by decide, by decide, by decide, by decide, by decide, by decide,
    by decide, ?_⟩
  have e : BopomofoReadingBuffer.setKeyboardLayout
      (BopomofoReadingBuffer.ctor (some hanyuPinyinLayout)) (some exampleLayout) =
      { m_layout := some exampleLayout, m_syllable := BopomofoSyllable.empty,
        m_pinyinMode := true, m_pinyinSequence := [] } := by decide
  rw [e]
  simp [BopomofoReadingBuffer.combineKey, BopomofoReadingBuffer.isValidKey, tolower]

/-! ### Field validity -/

theorem ite_cases {α : Type} (Q : α → Prop) (c : Prop) [Decidable c] (a b : α) (ha : Q a)
    (hb : Q b) : Q (if c then a else b) := by
  split_ifs
  · exact ha
  · exact hb

theorem ite_arg_cases (Q : BPMF → Prop) (s : BPMF) (c : Prop) [Decidable c] (a b : BPMF)
    (ha : Q (s.operatorPlusAssign a)) (hb : Q (s.operatorPlusAssign b)) :
    Q (s.operatorPlusAssign (if c then a else b)) := by
  split_ifs
  · exact ha
  · exact hb

/-- Every iteration of the loop of `syllableFromKeySequence` leaves the
accumulator unchanged or merges one candidate component of the key into it. -/
theorem step_ind (l : BopomofoKeyboardLayout) (before : List CChar) (key : CChar)
    (ahead : List CChar) (syllable : BPMF) (Q : BPMF → Prop) (hs : Q syllable)
    (hQ : ∀ c ∈ l.keyToComponents key, Q (syllable.operatorPlusAssign ⟨c⟩)) :
    Q (l.syllableFromKeySequenceStep before key ahead syllable) := by
  unfold syllableFromKeySequenceStep
  cases h : l.keyToComponents key with
  | nil => exact hs
  | cons c0 rest =>
    rw [h] at hQ
    cases rest with
    | nil => exact hQ c0 (by simp)
    | cons c1 more =>
      have h0 := hQ c0 (by simp)
      have h1 := hQ c1 (by simp)
      cases more with
      | nil =>
        simp only
        repeat' first
          | exact hs
          | exact h0
          | exact h1
          | apply ite_cases Q
          | apply ite_arg_cases Q
      | cons c2 more2 =>
        have h2 := hQ c2 (by simp)
        simp only
        repeat' first
          | exact hs
          | exact h0
          | exact h1
          | exact h2
          | apply ite_cases Q
          | apply ite_arg_cases Q

theorem step_cases (l : BopomofoKeyboardLayout) (before : List CChar) (key : CChar)
    (ahead : List CChar) (syllable : BPMF) :
    l.syllableFromKeySequenceStep before key ahead syllable = syllable ∨
    ∃ c ∈ l.keyToComponents key,
      l.syllableFromKeySequenceStep before key ahead syllable =
        syllable.operatorPlusAssign ⟨c⟩ :=
  step_ind l before key ahead syllable
    (fun r => r = syllable ∨ ∃ c ∈ l.keyToComponents key, r = syllable.operatorPlusAssign ⟨c⟩)
    (Or.inl rfl) (fun c hc => Or.inr ⟨c, hc, rfl⟩)

/-- A property of the accumulator that every merge of a candidate component
keeps holds for the result of the loop of `syllableFromKeySequence`. -/
theorem loop_invariant (l : BopomofoKeyboardLayout) (P : BPMF → Prop)
    (hP : ∀ s key c, P s → c ∈ l.keyToComponents key → P (s.operatorPlusAssign ⟨c⟩)) :
    ∀ (sequence before : List CChar) (s : BPMF), P s →
      P (l.syllableFromKeySequenceLoop before sequence s) := by
  intro sequence
  induction sequence with
  | nil => intro before s hs; exact hs
  | cons key ahead ih =>
    intro before s hs
    rw [syllableFromKeySequenceLoop]
    apply ih
    rcases step_cases l before key ahead s with h | ⟨c, hc, h⟩
    · rw [h]; exact hs
    · rw [h]; exact hP s key c hs hc

theorem mem_keyToComponents (l : BopomofoKeyboardLayout) (key : CChar) (c : Component)
    (hc : c ∈ l.keyToComponents key) : ∃ e ∈ l.m_keyToComponent, c ∈ e.2 := by
  unfold keyToComponents at hc
  cases hl : l.m_keyToComponent.lookup key with
  | none => rw [hl] at hc; simp at hc
  | some v =>
    rw [hl] at hc
    exact ⟨(key, v), lookup_mem key v _ hl, hc⟩

theorem operatorPlus_fieldsValid (a b : BopomofoSyllable) (ha : a.FieldsValid)
    (hb : b.FieldsValid) : (a.operatorPlus b).FieldsValid := by
  unfold BopomofoSyllable.FieldsValid at *
  rw [operatorPlus_consonantComponent, operatorPlus_vowelComponent,
    operatorPlus_toneMarkerComponent]
  refine ⟨?_, ?_, ?_⟩
  · split_ifs
    · exact hb.1
    · exact ha.1
  · split_ifs
    · exact hb.2.1
    · exact ha.2.1
  · split_ifs
    · exact hb.2.2
    · exact ha.2.2

theorem ERR_fieldsValid : (⟨ERR⟩ : BopomofoSyllable).FieldsValid := by
  show (⟨0x0680⟩ : BopomofoSyllable).FieldsValid
  decide

theorem J_fieldsValid : (⟨J⟩ : BopomofoSyllable).FieldsValid := by
  show (⟨0x000c⟩ : BopomofoSyllable).FieldsValid
  decide

theorem hsuHeuristics_fieldsValid (l : BopomofoKeyboardLayout) (s : BPMF) (hs : s.FieldsValid) :
    (l.hsuHeuristics s).FieldsValid := by
  unfold hsuHeuristics
  split_ifs
  · exact operatorPlus_fieldsValid s ⟨ERR⟩ hs ERR_fieldsValid
  · exact operatorPlus_fieldsValid s ⟨J⟩ hs J_fieldsValid
  · exact hs
  · exact hs

/-- Claim C22. Field-validity invariant: `FromAbsoluteOrder n` is field-valid
for every 16-bit `n`; `a + b` (and what `+=` leaves) is field-valid whenever `a`
and `b` are; and for every layout whose key table contains only field-valid
components, `syllableFromKeySequence` returns a field-valid syllable for every
key sequence. -/
theorem fieldsValid_invariant (n : Component) (a b : BopomofoSyllable)
    (l : BopomofoKeyboardLayout) (sequence : List CChar) :
    (FromAbsoluteOrder n).FieldsValid ∧
    (a.FieldsValid → b.FieldsValid →
      (a.operatorPlus b).FieldsValid ∧ (a.operatorPlusAssign b).FieldsValid) ∧
    ((∀ e ∈ l.m_keyToComponent, ∀ c ∈ e.2, (⟨c⟩ : BopomofoSyllable).FieldsValid) →
      (l.syllableFromKeySequence sequence).FieldsValid) := by
  refine ⟨?_, ?_, ?_⟩
  · have h := FromAbsoluteOrder_isValid n
    exact ⟨h.1, h.2.1, h.2.2.1⟩
  · intro ha hb
    exact ⟨operatorPlus_fieldsValid a b ha hb, operatorPlus_fieldsValid a b ha hb⟩
  · intro htable
    unfold syllableFromKeySequence
    apply hsuHeuristics_fieldsValid
    apply loop_invariant l (fun s => s.FieldsValid)
    · intro s key c hs hc
      obtain ⟨e, he, hce⟩ := mem_keyToComponents l key c hc
      exact operatorPlus_fieldsValid s ⟨c⟩ hs (htable e he c hce)
    · decide

/-- A property of all components of a key table, from its evaluation as a Boolean. -/
theorem forall_table_of_all (l : BopomofoKeyboardLayout) (P : Component → Prop)
    [DecidablePred P]
    (h : l.m_keyToComponent.all (fun e => e.2.all (fun c => decide (P c))) = true) :
    ∀ e ∈ l.m_keyToComponent, ∀ c ∈ e.2, P c := by
  intro e he c hc
  have h1 := List.all_eq_true.1 h e he
  have h2 := List.all_eq_true.1 h1 c hc
  exact of_decide_eq_true h2

theorem fieldsValid_invariant_witness :
    ((⟨0x0009⟩ : BopomofoSyllable).FieldsValid ∧ (⟨0x0820⟩ : BopomofoSyllable).FieldsValid ∧
      ∀ e ∈ exampleLayout.m_keyToComponent, ∀ c ∈ e.2, (⟨c⟩ : BopomofoSyllable).FieldsValid) ∧
    (((⟨0x0009⟩ : BopomofoSyllable).operatorPlus ⟨0x0820⟩).FieldsValid ∧
      (exampleLayout.syllableFromKeySequence [103, 105, 97, 50]).FieldsValid) :=
  ⟨⟨by decide, by decide,
      forall_table_of_all exampleLayout (fun c => (⟨c⟩ : BopomofoSyllable).FieldsValid)
        (by decide)⟩,
    ((fieldsValid_invariant 0 ⟨0x0009⟩ ⟨0x0820⟩ exampleLayout [103, 105, 97, 50]).2.1
      (by decide) (by decide)).1,
    (fieldsValid_invariant 0 ⟨0x0009⟩ ⟨0x0820⟩ exampleLayout [103, 105, 97, 50]).2.2
      (forall_table_of_all exampleLayout (fun c => (⟨c⟩ : BopomofoSyllable).FieldsValid)
        (by decide))⟩

/-! ### Algebra of combine -/

theorem ite_assoc (a b c : Nat) :
    (if c = 0 then (if b = 0 then a else b) else c) =
      if (if c = 0 then b else c) = 0 then a else (if c = 0 then b else c) := by
  by_cases hc : c = 0
  · simp only [hc, if_true]
  · simp only [hc, if_false]

theorem operatorPlus_assoc (a b c : BopomofoSyllable) :
    (a.operatorPlus b).operatorPlus c = a.operatorPlus (b.operatorPlus c) := by
  apply syllable_eq_of_fields
  · simp only [plus_and_consonant]; exact ite_assoc _ _ _
  · simp only [plus_and_middleVowel]; exact ite_assoc _ _ _
  · simp only [plus_and_vowel]; exact ite_assoc _ _ _
  · simp only [plus_and_toneMarker]; exact ite_assoc _ _ _
  · simp only [plus_and_top]

theorem operatorPlus_empty (a : BopomofoSyllable) :
    a.operatorPlus BopomofoSyllable.empty = a := by
  apply syllable_eq_of_fields
  · simp [plus_and_consonant, empty_val]
  · simp [plus_and_middleVowel, empty_val]
  · simp [plus_and_vowel, empty_val]
  · simp [plus_and_toneMarker, empty_val]
  · simp only [plus_and_top]

theorem ite_self_eq (a : Nat) : (if a = 0 then a else a) = a := by
  simp only [ite_self]

theorem operatorPlus_self (a : BopomofoSyllable) : a.operatorPlus a = a := by
  apply syllable_eq_of_fields
  · rw [plus_and_consonant]; exact ite_self_eq _
  · rw [plus_and_middleVowel]; exact ite_self_eq _
  · rw [plus_and_vowel]; exact ite_self_eq _
  · rw [plus_and_toneMarker]; exact ite_self_eq _
  · rw [plus_and_top]

theorem and_fieldsMask (n : Nat) : n &&& 0x3FFF = n % 16384 := by
  have := Nat.and_pow_two_sub_one_eq_mod n 14
  simpa using this

theorem ite_zero_eq (x : Nat) : (if x = 0 then 0 else x) = x := by
  by_cases h : x = 0
  · simp only [h, if_true]
  · simp only [h, if_false]

theorem empty_operatorPlus_val (a : BopomofoSyllable) :
    (BopomofoSyllable.empty.operatorPlus a).m_syllable.val = a.m_syllable.val &&& 0x3FFF := by
  have h1 := plus_and_consonant BopomofoSyllable.empty a
  have h2 := plus_and_middleVowel BopomofoSyllable.empty a
  have h3 := plus_and_vowel BopomofoSyllable.empty a
  have h4 := plus_and_toneMarker BopomofoSyllable.empty a
  have h5 := plus_and_top BopomofoSyllable.empty a
  have hlt := (BopomofoSyllable.empty.operatorPlus a).m_syllable.isLt
  have hlta := a.m_syllable.isLt
  simp only [empty_val, Nat.zero_and, ite_zero_eq] at h1 h2 h3 h4 h5
  rw [and_fieldsMask]
  generalize (BopomofoSyllable.empty.operatorPlus a).m_syllable.val = r at *
  generalize a.m_syllable.val = x at *
  rw [and_consonantMask, and_consonantMask] at h1
  rw [and_middleVowelMask, and_middleVowelMask] at h2
  rw [and_vowelMask, and_vowelMask] at h3
  rw [and_toneMarkerMask, and_toneMarkerMask] at h4
  rw [and_topMask] at h5
  omega

theorem empty_operatorPlus (a : BopomofoSyllable) (h : a.m_syllable.val < 16384) :
    BopomofoSyllable.empty.operatorPlus a = a := by
  apply syllable_ext
  rw [empty_operatorPlus_val, and_fieldsMask]
  omega

theorem ite_comm_of_or (x y : Nat) (h : x = 0 ∨ y = 0) :
    (if y = 0 then x else y) = if x = 0 then y else x := by
  rcases h with h | h
  · by_cases hy : y = 0
    · simp only [h, hy, if_true]
    · simp only [h, hy, if_true, if_false]
  · by_cases hx : x = 0
    · simp only [h, hx, if_true]
    · simp only [h, hx, if_true, if_false]

theorem operatorPlus_comm (a b : BopomofoSyllable) (hov : a.isOverlappingWith b = false)
    (htop : a.m_syllable.val &&& 0xC000 = b.m_syllable.val &&& 0xC000) :
    a.operatorPlus b = b.operatorPlus a := by
  simp only [isOverlappingWith, IOW_SAND, Bool.or_eq_false_iff, Bool.and_eq_false_iff,
    bne_eq_false_iff_eq, beq_iff_eq, ConsonantMask_val, MiddleVowelMask_val, VowelMask_val,
    ToneMarkerMask_val] at hov
  obtain ⟨⟨⟨h1, h2⟩, h3⟩, h4⟩ := hov
  apply syllable_eq_of_fields
  · rw [plus_and_consonant, plus_and_consonant]; exact ite_comm_of_or _ _ h1
  · rw [plus_and_middleVowel, plus_and_middleVowel]; exact ite_comm_of_or _ _ h2
  · rw [plus_and_vowel, plus_and_vowel]; exact ite_comm_of_or _ _ h3
  · rw [plus_and_toneMarker, plus_and_toneMarker]; exact ite_comm_of_or _ _ h4
  · rw [plus_and_top, plus_and_top]; exact htop

/-- Claim C23, amended. Combine on all 16-bit values: `+` is associative, the
empty syllable is a right identity, `a + a = a`, and `+=` leaves the value that
`+` returns.  On the left, `empty + a` is `a` with the two bits above the tone
field cleared, so it is `a` exactly when `a` has no such bit; and `a + b = b + a`
when `a` and `b` do not overlap and agree on those two bits. -/
theorem operatorPlus_idempotent_monoid (a b c : BopomofoSyllable) :
    (a.operatorPlus b).operatorPlus c = a.operatorPlus (b.operatorPlus c) ∧
    a.operatorPlus BopomofoSyllable.empty = a ∧
    (BopomofoSyllable.empty.operatorPlus a).m_syllable.val = a.m_syllable.val &&& 0x3FFF ∧
    (a.m_syllable.val < 16384 → BopomofoSyllable.empty.operatorPlus a = a) ∧
    a.operatorPlus a = a ∧
    a.operatorPlusAssign b = a.operatorPlus b ∧
    (a.isOverlappingWith b = false →
      a.m_syllable.val &&& 0xC000 = b.m_syllable.val &&& 0xC000 →
      a.operatorPlus b = b.operatorPlus a) :=
  ⟨operatorPlus_assoc a b c, operatorPlus_empty a, empty_operatorPlus_val a,
    empty_operatorPlus a, operatorPlus_self a, rfl, operatorPlus_comm a b⟩

theorem operatorPlus_idempotent_monoid_counterexample :
    BopomofoSyllable.empty.operatorPlus ⟨0x4000⟩ = BopomofoSyllable.empty ∧
    BopomofoSyllable.empty.operatorPlus ⟨0x4000⟩ ≠ ⟨0x4000⟩ ∧
    (⟨0x4000⟩ : BopomofoSyllable).isOverlappingWith BopomofoSyllable.empty = false ∧
    (⟨0x4000⟩ : BopomofoSyllable).operatorPlus BopomofoSyllable.empty ≠
      BopomofoSyllable.empty.operatorPlus ⟨0x4000⟩ := by
  decide

theorem operatorPlus_idempotent_monoid_witness :
    ((⟨0x0025⟩ : BopomofoSyllable).isOverlappingWith ⟨0x0800⟩ = false ∧
      (⟨0x0025⟩ : BopomofoSyllable).m_syllable.val < 16384) ∧
    (BopomofoSyllable.empty.operatorPlus ⟨0x0025⟩ = ⟨0x0025⟩ ∧
      (⟨0x0025⟩ : BopomofoSyllable).operatorPlus ⟨0x0800⟩ =
        (⟨0x0800⟩ : BopomofoSyllable).operatorPlus ⟨0x0025⟩) :=
  ⟨by decide,
    (operatorPlus_idempotent_monoid ⟨0x0025⟩ ⟨0x0800⟩ BopomofoSyllable.empty).2.2.2.1 (by decide),
    (operatorPlus_idempotent_monoid ⟨0x0025⟩ ⟨0x0800⟩ BopomofoSyllable.empty).2.2.2.2.2.2
      (by decide) (by decide)⟩

/-! ### Backspace progress -/

theorem consonantComponent_val_bne (s : BopomofoSyllable) :
    (s.consonantComponent.val != 0) = s.hasConsonant := by
  simp only [consonantComponent, hasConsonant, toComponent_and]

theorem middleVowelComponent_val_bne (s : BopomofoSyllable) :
    (s.middleVowelComponent.val != 0) = s.hasMiddleVowel := by
  simp only [middleVowelComponent, hasMiddleVowel, toComponent_and]

theorem vowelComponent_val_bne (s : BopomofoSyllable) :
    (s.vowelComponent.val != 0) = s.hasVowel := by
  simp only [vowelComponent, hasVowel, toComponent_and]

theorem toneMarkerComponent_val_bne (s : BopomofoSyllable) :
    (s.toneMarkerComponent.val != 0) = s.hasToneMarker := by
  simp only [toneMarkerComponent, hasToneMarker, toComponent_and]

theorem STKS_COMBINE_nil_length (l : BopomofoKeyboardLayout) (c : Component) :
    (l.STKS_COMBINE [] c).length =
      if (c.val != 0) = true ∧ l.componentToKey c ≠ 0 then 1 else 0 := by
  unfold BopomofoKeyboardLayout.STKS_COMBINE
  by_cases h1 : (c.val != 0) = true
  · by_cases h2 : l.componentToKey c = 0
    · simp [h1, h2]
    · simp [h1, h2]
  · simp [h1]

theorem keySequenceFromSyllable_length (l : BopomofoKeyboardLayout) (s : BPMF) :
    (l.keySequenceFromSyllable s).length =
      (if s.hasConsonant = true ∧ l.componentToKey s.consonantComponent ≠ 0 then 1 else 0) +
      ((if s.hasMiddleVowel = true ∧ l.componentToKey s.middleVowelComponent ≠ 0 then 1 else 0) +
      ((if s.hasVowel = true ∧ l.componentToKey s.vowelComponent ≠ 0 then 1 else 0) +
      (if s.hasToneMarker = true ∧ l.componentToKey s.toneMarkerComponent ≠ 0 then 1 else 0))) := by
  rw [keySequenceFromSyllable_eq_append]
  simp only [List.length_append, STKS_COMBINE_nil_length, consonantComponent_val_bne,
    middleVowelComponent_val_bne, vowelComponent_val_bne, toneMarkerComponent_val_bne]

theorem keySequenceFromSyllable_length_le (l : BopomofoKeyboardLayout) (s : BPMF) :
    (l.keySequenceFromSyllable s).length ≤ s.occupiedFields := by
  rw [keySequenceFromSyllable_length]
  unfold BopomofoSyllable.occupiedFields
  have h1 : (if s.hasConsonant = true ∧ l.componentToKey s.consonantComponent ≠ 0 then 1 else 0)
      ≤ (if s.hasConsonant = true then 1 else 0) := by
    split_ifs <;> simp_all
  have h2 : (if s.hasMiddleVowel = true ∧ l.componentToKey s.middleVowelComponent ≠ 0
      then 1 else 0) ≤ (if s.hasMiddleVowel = true then 1 else 0) := by
    split_ifs <;> simp_all
  have h3 : (if s.hasVowel = true ∧ l.componentToKey s.vowelComponent ≠ 0 then 1 else 0)
      ≤ (if s.hasVowel = true then 1 else 0) := by
    split_ifs <;> simp_all
  have h4 : (if s.hasToneMarker = true ∧ l.componentToKey s.toneMarkerComponent ≠ 0
      then 1 else 0) ≤ (if s.hasToneMarker = true then 1 else 0) := by
    split_ifs <;> simp_all
  omega

theorem keySequenceFromSyllable_length_eq (l : BopomofoKeyboardLayout) (s : BPMF)
    (h : KeyedFields l s) : (l.keySequenceFromSyllable s).length = s.occupiedFields := by
  rw [keySequenceFromSyllable_length]
  unfold BopomofoSyllable.occupiedFields
  obtain ⟨k1, k2, k3, k4⟩ := h
  have h1 : (if s.hasConsonant = true ∧ l.componentToKey s.consonantComponent ≠ 0 then 1 else 0)
      = (if s.hasConsonant = true then 1 else 0) := by
    by_cases hc : s.hasConsonant = true
    · simp [hc, k1 hc]
    · simp [hc]
  have h2 : (if s.hasMiddleVowel = true ∧ l.componentToKey s.middleVowelComponent ≠ 0
      then 1 else 0) = (if s.hasMiddleVowel = true then 1 else 0) := by
    by_cases hc : s.hasMiddleVowel = true
    · simp [hc, k2 hc]
    · simp [hc]
  have h3 : (if s.hasVowel = true ∧ l.componentToKey s.vowelComponent ≠ 0 then 1 else 0)
      = (if s.hasVowel = true then 1 else 0) := by
    by_cases hc : s.hasVowel = true
    · simp [hc, k3 hc]
    · simp [hc]
  have h4 : (if s.hasToneMarker = true ∧ l.componentToKey s.toneMarkerComponent ≠ 0
      then 1 else 0) = (if s.hasToneMarker = true then 1 else 0) := by
    by_cases hc : s.hasToneMarker = true
    · simp [hc, k4 hc]
    · simp [hc]
  omega

theorem operatorPlus_hasConsonant (a b : BopomofoSyllable) :
    (a.operatorPlus b).hasConsonant = (a.hasConsonant || b.hasConsonant) := by
  simp only [hasConsonant, ConsonantMask_val]
  rw [plus_and_consonant]
  by_cases hb : b.m_syllable.val &&& 0x1f = 0
  · simp [hb]
  · simp [hb]

theorem operatorPlus_hasMiddleVowel (a b : BopomofoSyllable) :
    (a.operatorPlus b).hasMiddleVowel = (a.hasMiddleVowel || b.hasMiddleVowel) := by
  simp only [hasMiddleVowel, MiddleVowelMask_val]
  rw [plus_and_middleVowel]
  by_cases hb : b.m_syllable.val &&& 0x60 = 0
  · simp [hb]
  · simp [hb]

theorem operatorPlus_hasVowel (a b : BopomofoSyllable) :
    (a.operatorPlus b).hasVowel = (a.hasVowel || b.hasVowel) := by
  simp only [hasVowel, VowelMask_val]
  rw [plus_and_vowel]
  by_cases hb : b.m_syllable.val &&& 0x780 = 0
  · simp [hb]
  · simp [hb]

theorem operatorPlus_hasToneMarker (a b : BopomofoSyllable) :
    (a.operatorPlus b).hasToneMarker = (a.hasToneMarker || b.hasToneMarker) := by
  simp only [hasToneMarker, ToneMarkerMask_val]
  rw [plus_and_toneMarker]
  by_cases hb : b.m_syllable.val &&& 0x3800 = 0
  · simp [hb]
  · simp [hb]

theorem ite_or_le (x y : Bool) :
    (if (x || y) = true then 1 else 0) ≤ (if x = true then 1 else 0) + (if y = true then 1 else 0) := by
  cases x <;> cases y <;> decide

theorem occupiedFields_operatorPlus_le (a b : BopomofoSyllable) :
    (a.operatorPlus b).occupiedFields ≤ a.occupiedFields + b.occupiedFields := by
  unfold BopomofoSyllable.occupiedFields
  rw [operatorPlus_hasConsonant, operatorPlus_hasMiddleVowel, operatorPlus_hasVowel,
    operatorPlus_hasToneMarker]
  have h1 := ite_or_le a.hasConsonant b.hasConsonant
  have h2 := ite_or_le a.hasMiddleVowel b.hasMiddleVowel
  have h3 := ite_or_le a.hasVowel b.hasVowel
  have h4 := ite_or_le a.hasToneMarker b.hasToneMarker
  omega

theorem occupiedFields_loop_le (l : BopomofoKeyboardLayout)
    (hcand : ∀ e ∈ l.m_keyToComponent, ∀ c ∈ e.2, (⟨c⟩ : BopomofoSyllable).occupiedFields ≤ 1) :
    ∀ (sequence before : List CChar) (s : BPMF),
      (l.syllableFromKeySequenceLoop before sequence s).occupiedFields ≤
        s.occupiedFields + sequence.length := by
  intro sequence
  induction sequence with
  | nil => intro before s; simp [syllableFromKeySequenceLoop]
  | cons key ahead ih =>
    intro before s
    rw [syllableFromKeySequenceLoop]
    have h := ih (before ++ [key]) (l.syllableFromKeySequenceStep before key ahead s)
    have hstep : (l.syllableFromKeySequenceStep before key ahead s).occupiedFields ≤
        s.occupiedFields + 1 := by
      rcases step_cases l before key ahead s with e | ⟨c, hc, e⟩
      · rw [e]; omega
      · rw [e]
        obtain ⟨entry, hentry, hce⟩ := mem_keyToComponents l key c hc
        have h1 := hcand entry hentry c hce
        have h2 := occupiedFields_operatorPlus_le s ⟨c⟩
        rw [operatorPlusAssign_eq]
        omega
    rw [List.length_cons]
    omega

theorem hasVowel_of_vowelComponent (s : BopomofoSyllable) (c : Component)
    (h : s.vowelComponent = c) (hc : c.val ≠ 0) : s.hasVowel = true := by
  rw [← vowelComponent_val_bne, h]
  simpa using hc

theorem hasConsonant_of_consonantComponent (s : BopomofoSyllable) (c : Component)
    (h : s.consonantComponent = c) (hc : c.val ≠ 0) : s.hasConsonant = true := by
  rw [← consonantComponent_val_bne, h]
  simpa using hc

theorem occupiedFields_hsuHeuristics (l : BopomofoKeyboardLayout) (s : BPMF) :
    (l.hsuHeuristics s).occupiedFields = s.occupiedFields := by
  unfold hsuHeuristics
  split_ifs with h1 h2 h3
  · simp only [Bool.and_eq_true, beq_iff_eq] at h2
    have hv := hasVowel_of_vowelComponent s ENG h2.1.1 (by decide)
    unfold BopomofoSyllable.occupiedFields
    rw [operatorPlusAssign_eq, operatorPlus_hasConsonant, operatorPlus_hasMiddleVowel,
      operatorPlus_hasVowel, operatorPlus_hasToneMarker, hv]
    have e1 : (⟨ERR⟩ : BopomofoSyllable).hasConsonant = false := by decide
    have e2 : (⟨ERR⟩ : BopomofoSyllable).hasMiddleVowel = false := by decide
    have e3 : (⟨ERR⟩ : BopomofoSyllable).hasToneMarker = false := by decide
    rw [e1, e2, e3]
    simp
  · simp only [Bool.and_eq_true, beq_iff_eq] at h3
    have hc := hasConsonant_of_consonantComponent s G h3.1 (by decide)
    unfold BopomofoSyllable.occupiedFields
    rw [operatorPlusAssign_eq, operatorPlus_hasConsonant, operatorPlus_hasMiddleVowel,
      operatorPlus_hasVowel, operatorPlus_hasToneMarker, hc]
    have e1 : (⟨J⟩ : BopomofoSyllable).hasVowel = false := by decide
    have e2 : (⟨J⟩ : BopomofoSyllable).hasMiddleVowel = false := by decide
    have e3 : (⟨J⟩ : BopomofoSyllable).hasToneMarker = false := by decide
    rw [e1, e2, e3]
    simp
  · rfl
  · rfl

theorem occupiedFields_empty : BopomofoSyllable.empty.occupiedFields = 0 := by decide

theorem occupiedFields_syllableFromKeySequence_le (l : BopomofoKeyboardLayout)
    (hcand : ∀ e ∈ l.m_keyToComponent, ∀ c ∈ e.2, (⟨c⟩ : BopomofoSyllable).occupiedFields ≤ 1)
    (sequence : List CChar) :
    (l.syllableFromKeySequence sequence).occupiedFields ≤ sequence.length := by
  unfold syllableFromKeySequence
  rw [occupiedFields_hsuHeuristics]
  have h := occupiedFields_loop_le l hcand sequence [] BopomofoSyllable.empty
  rw [occupiedFields_empty] at h
  omega

theorem occupiedFields_le_four (s : BopomofoSyllable) : s.occupiedFields ≤ 4 := by
  unfold BopomofoSyllable.occupiedFields
  split_ifs <;> omega

/-- A syllable without stray bits that occupies no field is the empty syllable. -/
theorem eq_empty_of_occupiedFields_eq_zero (s : BopomofoSyllable) (hlt : s.m_syllable.val < 16384)
    (h : s.occupiedFields = 0) : s = BopomofoSyllable.empty := by
  unfold BopomofoSyllable.occupiedFields at h
  have h1 : s.hasConsonant = false := by
    cases hc : s.hasConsonant
    · rfl
    · rw [hc] at h; simp at h
  have h2 : s.hasMiddleVowel = false := by
    cases hc : s.hasMiddleVowel
    · rfl
    · rw [hc] at h; simp at h
  have h3 : s.hasVowel = false := by
    cases hc : s.hasVowel
    · rfl
    · rw [hc] at h; simp at h
  have h4 : s.hasToneMarker = false := by
    cases hc : s.hasToneMarker
    · rfl
    · rw [hc] at h; simp at h
  simp only [hasConsonant, hasMiddleVowel, hasVowel, hasToneMarker, ConsonantMask_val,
    MiddleVowelMask_val, VowelMask_val, ToneMarkerMask_val, bne_eq_false_iff_eq, beq_iff_eq]
    at h1 h2 h3 h4
  apply syllable_ext
  rw [empty_val]
  rw [and_consonantMask] at h1
  rw [and_middleVowelMask] at h2
  rw [and_vowelMask] at h3
  rw [and_toneMarkerMask] at h4
  omega

theorem operatorPlus_lt (a b : BopomofoSyllable) (h : a.m_syllable.val < 16384) :
    (a.operatorPlus b).m_syllable.val < 16384 := by
  have h5 := plus_and_top a b
  have hlt := (a.operatorPlus b).m_syllable.isLt
  rw [and_topMask, and_topMask] at h5
  omega

theorem hsuHeuristics_lt (l : BopomofoKeyboardLayout) (s : BPMF) (h : s.m_syllable.val < 16384) :
    (l.hsuHeuristics s).m_syllable.val < 16384 := by
  unfold hsuHeuristics
  split_ifs
  · exact operatorPlus_lt s _ h
  · exact operatorPlus_lt s _ h
  · exact h
  · exact h

/-- The syllable returned by `syllableFromKeySequence` has no bit outside the
four fields. -/
theorem syllableFromKeySequence_lt (l : BopomofoKeyboardLayout) (sequence : List CChar) :
    (l.syllableFromKeySequence sequence).m_syllable.val < 16384 := by
  unfold syllableFromKeySequence
  apply hsuHeuristics_lt
  apply loop_invariant l (fun s => s.m_syllable.val < 16384)
  · intro s key c hs _
    exact operatorPlus_lt s ⟨c⟩ hs
  · decide

theorem backspace_layoutMode (FromHanyuPinyin : List CChar → BPMF) (l : BopomofoKeyboardLayout)
    (b : BopomofoReadingBuffer) (hl : b.m_layout = some l) (hmode : b.m_pinyinMode = false) :
    BopomofoReadingBuffer.backspace FromHanyuPinyin b =
      if (l.keySequenceFromSyllable b.m_syllable).length ≠ 0 then
        { b with m_syllable :=
            l.syllableFromKeySequence (l.keySequenceFromSyllable b.m_syllable).dropLast }
      else b := by
  cases b with
  | mk lay syl mode seq =>
    simp only at hl hmode
    subst hl
    subst hmode
    simp [BopomofoReadingBuffer.backspace]

/-- A non-empty syllable without stray bits occupies a field. -/
theorem occupiedFields_pos (s : BopomofoSyllable) (hlt : s.m_syllable.val < 16384)
    (hne : s.isEmpty = false) : 0 < s.occupiedFields := by
  rcases Nat.eq_zero_or_pos s.occupiedFields with h0 | h0
  · have := eq_empty_of_occupiedFields_eq_zero s hlt h0
    rw [this] at hne
    exact absurd hne (by decide)
  · exact h0

/-- A non-empty syllable without stray bits whose occupied fields all have a key
has a non-empty key sequence. -/
theorem keySequenceFromSyllable_ne_nil (l : BopomofoKeyboardLayout) (s : BPMF)
    (hlt : s.m_syllable.val < 16384) (hne : s.isEmpty = false) (hk : KeyedFields l s) :
    l.keySequenceFromSyllable s ≠ [] := by
  intro h
  have h1 := keySequenceFromSyllable_length_eq l s hk
  have h2 := occupiedFields_pos s hlt hne
  rw [h, List.length_nil] at h1
  omega

/-- One backspace in layout mode: the layout, the mode and the absence of stray
bits are kept, and the number of occupied fields goes down by one unless the
syllable is non-empty with an empty key sequence. -/
theorem backspace_step (FromHanyuPinyin : List CChar → BPMF) (l : BopomofoKeyboardLayout)
    (b : BopomofoReadingBuffer) (hl : b.m_layout = some l) (hmode : b.m_pinyinMode = false)
    (hlt : b.m_syllable.m_syllable.val < 16384)
    (hcand : ∀ e ∈ l.m_keyToComponent, ∀ c ∈ e.2, (⟨c⟩ : BopomofoSyllable).occupiedFields ≤ 1) :
    (BopomofoReadingBuffer.backspace FromHanyuPinyin b).m_layout = some l ∧
    (BopomofoReadingBuffer.backspace FromHanyuPinyin b).m_pinyinMode = false ∧
    (BopomofoReadingBuffer.backspace FromHanyuPinyin b).m_syllable.m_syllable.val < 16384 ∧
    ((b.m_syllable.isEmpty = false → l.keySequenceFromSyllable b.m_syllable ≠ []) →
      (BopomofoReadingBuffer.backspace FromHanyuPinyin b).m_syllable.occupiedFields ≤
        b.m_syllable.occupiedFields - 1) := by
  rw [backspace_layoutMode FromHanyuPinyin l b hl hmode]
  by_cases hlen : (l.keySequenceFromSyllable b.m_syllable).length ≠ 0
  · rw [if_pos hlen]
    refine ⟨hl, hmode, syllableFromKeySequence_lt l _, ?_⟩
    intro _
    have h1 := occupiedFields_syllableFromKeySequence_le l hcand
      (l.keySequenceFromSyllable b.m_syllable).dropLast
    have h2 := keySequenceFromSyllable_length_le l b.m_syllable
    rw [List.length_dropLast] at h1
    show (l.syllableFromKeySequence (l.keySequenceFromSyllable b.m_syllable).dropLast).occupiedFields
      ≤ b.m_syllable.occupiedFields - 1
    omega
  · rw [if_neg hlen]
    refine ⟨hl, hmode, hlt, ?_⟩
    intro hk
    have hnil : l.keySequenceFromSyllable b.m_syllable = [] :=
      List.length_eq_zero.1 (not_not.1 hlen)
    cases he : b.m_syllable.isEmpty with
    | false => exact absurd hnil (hk he)
    | true =>
      have h0 : b.m_syllable = BopomofoSyllable.empty := by
        apply syllable_ext
        simpa [BopomofoSyllable.isEmpty] using he
      rw [h0, occupiedFields_empty]

/-- Backspaces keep a buffer in layout mode on its layout, its syllable without
stray bits. -/
theorem backspace_iterate_layoutMode (FromHanyuPinyin : List CChar → BPMF)
    (l : BopomofoKeyboardLayout) (b : BopomofoReadingBuffer) (hl : b.m_layout = some l)
    (hmode : b.m_pinyinMode = false) (hlt : b.m_syllable.m_syllable.val < 16384)
    (hcand : ∀ e ∈ l.m_keyToComponent, ∀ c ∈ e.2, (⟨c⟩ : BopomofoSyllable).occupiedFields ≤ 1) :
    ∀ n : Nat,
      ((BopomofoReadingBuffer.backspace FromHanyuPinyin)^[n] b).m_layout = some l ∧
      ((BopomofoReadingBuffer.backspace FromHanyuPinyin)^[n] b).m_pinyinMode = false ∧
      ((BopomofoReadingBuffer.backspace FromHanyuPinyin)^[n] b).m_syllable.m_syllable.val
        < 16384 := by
  intro n
  induction n with
  | zero => exact ⟨hl, hmode, hlt⟩
  | succ n ih =>
    obtain ⟨i1, i2, i3⟩ := ih
    rw [Function.iterate_succ_apply']
    obtain ⟨s1, s2, s3, _⟩ := backspace_step FromHanyuPinyin l _ i1 i2 i3 hcand
    exact ⟨s1, s2, s3⟩

/-- After `n` backspaces none of which met a non-empty syllable with an empty
key sequence, at least `n` fewer fields are occupied. -/
theorem backspace_iterate (FromHanyuPinyin : List CChar → BPMF) (l : BopomofoKeyboardLayout)
    (b : BopomofoReadingBuffer) (hl : b.m_layout = some l) (hmode : b.m_pinyinMode = false)
    (hlt : b.m_syllable.m_syllable.val < 16384)
    (hcand : ∀ e ∈ l.m_keyToComponent, ∀ c ∈ e.2, (⟨c⟩ : BopomofoSyllable).occupiedFields ≤ 1) :
    ∀ n : Nat,
      (∀ m < n,
        ((BopomofoReadingBuffer.backspace FromHanyuPinyin)^[m] b).m_syllable.isEmpty = false →
        l.keySequenceFromSyllable
          ((BopomofoReadingBuffer.backspace FromHanyuPinyin)^[m] b).m_syllable ≠ []) →
      ((BopomofoReadingBuffer.backspace FromHanyuPinyin)^[n] b).m_syllable.occupiedFields ≤
        b.m_syllable.occupiedFields - n := by
  intro n
  induction n with
  | zero => intro _; simp
  | succ n ih =>
    intro horbit
    have i4 := ih (fun m hm => horbit m (by omega))
    obtain ⟨i1, i2, i3⟩ := backspace_iterate_layoutMode FromHanyuPinyin l b hl hmode hlt hcand n
    rw [Function.iterate_succ_apply']
    obtain ⟨_, _, _, s4⟩ := backspace_step FromHanyuPinyin l _ i1 i2 i3 hcand
    have := s4 (horbit n (by omega))
    omega

/-- A buffer in layout mode whose syllable has an empty key sequence is a fixed
point of `backspace`. -/
theorem backspace_iterate_stuck (FromHanyuPinyin : List CChar → BPMF)
    (l : BopomofoKeyboardLayout) (b : BopomofoReadingBuffer) (hl : b.m_layout = some l)
    (hmode : b.m_pinyinMode = false) (hnil : l.keySequenceFromSyllable b.m_syllable = [])
    (k : Nat) : (BopomofoReadingBuffer.backspace FromHanyuPinyin)^[k] b = b := by
  apply Function.iterate_fixed
  rw [backspace_layoutMode FromHanyuPinyin l b hl hmode, hnil]
  simp

/-- In layout mode `combineKey` accepts the keys the layout maps to a component
and stores the syllable of the key sequence of the current syllable extended by
the key. -/
theorem combineKey_layoutMode (FromHanyuPinyin : List CChar → BPMF) (l : BopomofoKeyboardLayout)
    (b : BopomofoReadingBuffer) (k : CChar) (hl : b.m_layout = some l)
    (hmode : b.m_pinyinMode = false) :
    BopomofoReadingBuffer.combineKey FromHanyuPinyin b k =
      if (l.keyToComponents k).length > 0 then
        (true, { b with m_syllable :=
          l.syllableFromKeySequence (l.keySequenceFromSyllable b.m_syllable ++ [k]) })
      else (false, b) := by
  cases b with
  | mk lay syl mode seq =>
    simp only at hl hmode
    subst hl
    subst hmode
    by_cases h : (l.keyToComponents k).length > 0
    · simp [BopomofoReadingBuffer.combineKey, BopomofoReadingBuffer.isValidKey, h]
    · simp [BopomofoReadingBuffer.combineKey, BopomofoReadingBuffer.isValidKey, h]

theorem ctor_layoutMode (layout : Option BopomofoKeyboardLayout)
    (h : BopomofoReadingBuffer.isHanyuPinyinLayout layout = false) :
    (BopomofoReadingBuffer.ctor layout).m_pinyinMode = false ∧
    (BopomofoReadingBuffer.ctor layout).m_syllable = BopomofoSyllable.empty := by
  simp [BopomofoReadingBuffer.ctor, h]

/-- In layout mode the buffer syllable never has a bit outside the four fields:
`combineKey` stores a result of `syllableFromKeySequence` or keeps the syllable,
`clear` stores the empty syllable, and neither leaves layout mode. -/
theorem layoutMode_syllable_lt (FromHanyuPinyin : List CChar → BPMF)
    (b : BopomofoReadingBuffer) (k : CChar) (hmode : b.m_pinyinMode = false)
    (hlt : b.m_syllable.m_syllable.val < 16384) :
    (BopomofoReadingBuffer.combineKey FromHanyuPinyin b k).2.m_pinyinMode = false ∧
    (BopomofoReadingBuffer.combineKey FromHanyuPinyin b k).2.m_syllable.m_syllable.val < 16384 ∧
    b.clear.m_pinyinMode = false ∧ b.clear.m_syllable.m_syllable.val < 16384 := by
  refine ⟨?_, ?_, hmode, (by show (0 : Nat) < 16384; decide)⟩
  · unfold BopomofoReadingBuffer.combineKey
    split_ifs with h1 h2
    · exact hmode
    · rw [hmode] at h2; exact absurd h2 (by decide)
    · cases hl : b.m_layout with
      | none => exact hmode
      | some l => exact hmode
  · unfold BopomofoReadingBuffer.combineKey
    split_ifs with h1 h2
    · exact hlt
    · rw [hmode] at h2; exact absurd h2 (by decide)
    · cases hl : b.m_layout with
      | none => exact hlt
      | some l => exact syllableFromKeySequence_lt l _

/-- Claim C24, amended. Backspace in layout mode, for a layout whose candidate
components each occupy at most one field and a buffer in layout mode (its
syllable within the four fields, as `layoutMode_syllable_lt` and
`backspace_step` show it always is): if the syllable is non-empty and each of
its occupied fields has a key, the syllable after `backspace` has strictly fewer
occupied fields.  Four backspaces empty the buffer exactly when none of them
meets a non-empty syllable whose key sequence is empty, so in particular when
each occupied field has a key before each of them; the condition on the first
syllable alone does not give it.  `backspace` on an empty buffer, or on a buffer
without layout, changes nothing, and `backspace` keeps the buffer in layout mode
on the same layout. -/
theorem backspace_progress (FromHanyuPinyin : List CChar → BPMF) (l : BopomofoKeyboardLayout)
    (b : BopomofoReadingBuffer) (hl : b.m_layout = some l) (hmode : b.m_pinyinMode = false)
    (hlt : b.m_syllable.m_syllable.val < 16384)
    (hcand : ∀ e ∈ l.m_keyToComponent, ∀ c ∈ e.2, (⟨c⟩ : BopomofoSyllable).occupiedFields ≤ 1) :
    (b.m_syllable.isEmpty = false → KeyedFields l b.m_syllable →
      (BopomofoReadingBuffer.backspace FromHanyuPinyin b).m_syllable.occupiedFields <
        b.m_syllable.occupiedFields) ∧
    (((BopomofoReadingBuffer.backspace FromHanyuPinyin)^[4] b).m_syllable =
        BopomofoSyllable.empty ↔
      ∀ n < 4,
        ((BopomofoReadingBuffer.backspace FromHanyuPinyin)^[n] b).m_syllable.isEmpty = false →
        l.keySequenceFromSyllable
          ((BopomofoReadingBuffer.backspace FromHanyuPinyin)^[n] b).m_syllable ≠ []) ∧
    ((∀ n < 4, KeyedFields l
        ((BopomofoReadingBuffer.backspace FromHanyuPinyin)^[n] b).m_syllable) →
      ((BopomofoReadingBuffer.backspace FromHanyuPinyin)^[4] b).m_syllable =
        BopomofoSyllable.empty) ∧
    (b.m_syllable.isEmpty = true → BopomofoReadingBuffer.backspace FromHanyuPinyin b = b) ∧
    (∀ b0 : BopomofoReadingBuffer, b0.m_layout = none →
      BopomofoReadingBuffer.backspace FromHanyuPinyin b0 = b0) ∧
    ((BopomofoReadingBuffer.backspace FromHanyuPinyin b).m_layout = some l ∧
      (BopomofoReadingBuffer.backspace FromHanyuPinyin b).m_pinyinMode = false ∧
      (BopomofoReadingBuffer.backspace FromHanyuPinyin b).m_syllable.m_syllable.val < 16384) := by
  obtain ⟨s1, s2, s3, s4⟩ := backspace_step FromHanyuPinyin l b hl hmode hlt hcand
  have hinv := backspace_iterate_layoutMode FromHanyuPinyin l b hl hmode hlt hcand
  have hfour : (∀ n < 4,
        ((BopomofoReadingBuffer.backspace FromHanyuPinyin)^[n] b).m_syllable.isEmpty = false →
        l.keySequenceFromSyllable
          ((BopomofoReadingBuffer.backspace FromHanyuPinyin)^[n] b).m_syllable ≠ []) →
      ((BopomofoReadingBuffer.backspace FromHanyuPinyin)^[4] b).m_syllable =
        BopomofoSyllable.empty := by
    intro horbit
    have i4 := backspace_iterate FromHanyuPinyin l b hl hmode hlt hcand 4 horbit
    have h4 := occupiedFields_le_four b.m_syllable
    exact eq_empty_of_occupiedFields_eq_zero _ (hinv 4).2.2 (by omega)
  refine ⟨?_, ⟨?_, hfour⟩, ?_, ?_, ?_, s1, s2, s3⟩
  · intro hne hk
    have h := s4 (fun _ => keySequenceFromSyllable_ne_nil l _ hlt hne hk)
    have hpos := occupiedFields_pos _ hlt hne
    omega
  · intro hempty n hn hne hnil
    obtain ⟨i1, i2, _⟩ := hinv n
    have hfix := backspace_iterate_stuck FromHanyuPinyin l _ i1 i2 hnil (4 - n)
    rw [← Function.iterate_add_apply, Nat.sub_add_cancel (by omega)] at hfix
    rw [hfix] at hempty
    rw [hempty] at hne
    exact absurd hne (by decide)
  · intro horbit
    apply hfour
    intro n hn hne
    exact keySequenceFromSyllable_ne_nil l _ (hinv n).2.2 hne (horbit n hn)
  · intro he
    rw [backspace_layoutMode FromHanyuPinyin l b hl hmode]
    have h0 : b.m_syllable = BopomofoSyllable.empty := by
      apply syllable_ext
      simpa [BopomofoSyllable.isEmpty] using he
    have hlen := keySequenceFromSyllable_length_le l b.m_syllable
    rw [h0, occupiedFields_empty] at hlen
    rw [h0]
    rw [if_neg (by omega)]
  · intro b0 h0
    simp [BopomofoReadingBuffer.backspace, h0]

theorem backspace_progress_counterexample :
    ((∀ e ∈ stuckLayout.m_keyToComponent, ∀ c ∈ e.2,
        (⟨c⟩ : BopomofoSyllable).occupiedFields ≤ 1) ∧
      (⟨0x0021⟩ : BopomofoSyllable).isEmpty = false ∧
      (⟨0x0021⟩ : BopomofoSyllable).occupiedFields = 2 ∧
      KeyedFields stuckLayout ⟨0x0021⟩ ∧
      stuckLayout.keySequenceFromSyllable ⟨0x0021⟩ = [-1, 105] ∧
      stuckLayout.syllableFromKeySequence [-1] = ⟨BopomofoSyllable.P⟩ ∧
      (⟨BopomofoSyllable.P⟩ : BopomofoSyllable).isEmpty = false ∧
      stuckLayout.componentToKey BopomofoSyllable.P = 0 ∧
      stuckLayout.keySequenceFromSyllable ⟨BopomofoSyllable.P⟩ = []) ∧
    ∀ FromHanyuPinyin : List CChar → BPMF,
      (BopomofoReadingBuffer.combineKey FromHanyuPinyin
        (BopomofoReadingBuffer.combineKey FromHanyuPinyin
          (BopomofoReadingBuffer.ctor (some stuckLayout)) (-2)).2 105) =
        (true, { m_layout := some stuckLayout, m_syllable := ⟨0x0021⟩, m_pinyinMode := false,
                 m_pinyinSequence := [] }) ∧
      BopomofoReadingBuffer.backspace FromHanyuPinyin
        { m_layout := some stuckLayout, m_syllable := ⟨0x0021⟩, m_pinyinMode := false,
          m_pinyinSequence := [] } =
        { m_layout := some stuckLayout, m_syllable := ⟨BopomofoSyllable.P⟩,
          m_pinyinMode := false, m_pinyinSequence := [] } ∧
      BopomofoReadingBuffer.backspace FromHanyuPinyin
        { m_layout := some stuckLayout, m_syllable := ⟨BopomofoSyllable.P⟩,
          m_pinyinMode := false, m_pinyinSequence := [] } =
        { m_layout := some stuckLayout, m_syllable := ⟨BopomofoSyllable.P⟩,
          m_pinyinMode := false, m_pinyinSequence := [] } ∧
      ((BopomofoReadingBuffer.backspace FromHanyuPinyin)^[4]
        { m_layout := some stuckLayout, m_syllable := ⟨0x0021⟩, m_pinyinMode := false,
          m_pinyinSequence := [] }).m_syllable = ⟨BopomofoSyllable.P⟩ ∧
      ((BopomofoReadingBuffer.backspace FromHanyuPinyin)^[4]
        { m_layout := some stuckLayout, m_syllable := ⟨0x0021⟩, m_pinyinMode := false,
          m_pinyinSequence := [] }).m_syllable ≠ BopomofoSyllable.empty := by
  refine ⟨⟨forall_table_of_all stuckLayout
      (fun c => (⟨c⟩ : BopomofoSyllable).occupiedFields ≤ 1) (by decide),
    by decide, by decide, by decide, by decide, by decide, by decide, by decide, by decide⟩, ?_⟩
  intro FromHanyuPinyin
  have c1 : BopomofoReadingBuffer.combineKey FromHanyuPinyin
      (BopomofoReadingBuffer.ctor (some stuckLayout)) (-2) =
      (true, { m_layout := some stuckLayout, m_syllable := ⟨BopomofoSyllable.B⟩,
               m_pinyinMode := false, m_pinyinSequence := [] }) := by
    rw [combineKey_layoutMode FromHanyuPinyin stuckLayout _ (-2) (by decide) (by decide)]
    decide
  have c2 : BopomofoReadingBuffer.combineKey FromHanyuPinyin
      { m_layout := some stuckLayout, m_syllable := ⟨BopomofoSyllable.B⟩,
        m_pinyinMode := false, m_pinyinSequence := [] } 105 =
      (true, { m_layout := some stuckLayout, m_syllable := ⟨0x0021⟩, m_pinyinMode := false,
               m_pinyinSequence := [] }) := by
    rw [combineKey_layoutMode FromHanyuPinyin stuckLayout _ 105 rfl rfl]
    decide
  have b1 : BopomofoReadingBuffer.backspace FromHanyuPinyin
      { m_layout := some stuckLayout, m_syllable := ⟨0x0021⟩, m_pinyinMode := false,
        m_pinyinSequence := [] } =
      { m_layout := some stuckLayout, m_syllable := ⟨BopomofoSyllable.P⟩, m_pinyinMode := false,
        m_pinyinSequence := [] } := by
    rw [backspace_layoutMode FromHanyuPinyin stuckLayout _ rfl rfl]
    decide
  have b2 : BopomofoReadingBuffer.backspace FromHanyuPinyin
      { m_layout := some stuckLayout, m_syllable := ⟨BopomofoSyllable.P⟩, m_pinyinMode := false,
        m_pinyinSequence := [] } =
      { m_layout := some stuckLayout, m_syllable := ⟨BopomofoSyllable.P⟩, m_pinyinMode := false,
        m_pinyinSequence := [] } := by
    rw [backspace_layoutMode FromHanyuPinyin stuckLayout _ rfl rfl]
    decide
  have b4 : (BopomofoReadingBuffer.backspace FromHanyuPinyin)^[4]
      { m_layout := some stuckLayout, m_syllable := ⟨0x0021⟩, m_pinyinMode := false,
        m_pinyinSequence := [] } =
      { m_layout := some stuckLayout, m_syllable := ⟨BopomofoSyllable.P⟩, m_pinyinMode := false,
        m_pinyinSequence := [] } := by
    simp only [Function.iterate_succ_apply, Function.iterate_zero_apply, b1, b2]
  refine ⟨?_, b1, b2, ?_, ?_⟩
  · rw [c1]; exact c2
  · rw [b4]
  · rw [b4]; decide

theorem backspace_progress_witness :
    ((⟨0x0825⟩ : BopomofoSyllable).isEmpty = false ∧
      KeyedFields exampleLayout ⟨0x0825⟩ ∧
      (∀ e ∈ exampleLayout.m_keyToComponent, ∀ c ∈ e.2,
        (⟨c⟩ : BopomofoSyllable).occupiedFields ≤ 1)) ∧
    ((BopomofoReadingBuffer.backspace (fun _ => BopomofoSyllable.empty)
        { m_layout := some exampleLayout, m_syllable := ⟨0x0825⟩, m_pinyinMode := false,
          m_pinyinSequence := [] }).m_syllable.occupiedFields <
        (⟨0x0825⟩ : BopomofoSyllable).occupiedFields ∧
      ((BopomofoReadingBuffer.backspace (fun _ => BopomofoSyllable.empty))^[4]
        { m_layout := some exampleLayout, m_syllable := ⟨0x0825⟩, m_pinyinMode := false,
          m_pinyinSequence := [] }).m_syllable = BopomofoSyllable.empty) :=
  ⟨⟨by decide, by decide,
      forall_table_of_all exampleLayout (fun c => (⟨c⟩ : BopomofoSyllable).occupiedFields ≤ 1)
        (by decide)⟩,
    (backspace_progress (fun _ => BopomofoSyllable.empty) exampleLayout
      { m_layout := some exampleLayout, m_syllable := ⟨0x0825⟩, m_pinyinMode := false,
        m_pinyinSequence := [] } rfl rfl (by decide)
      (forall_table_of_all exampleLayout (fun c => (⟨c⟩ : BopomofoSyllable).occupiedFields ≤ 1)
        (by decide))).1 (by decide) (by decide),
    (backspace_progress (fun _ => BopomofoSyllable.empty) exampleLayout
      { m_layout := some exampleLayout, m_syllable := ⟨0x0825⟩, m_pinyinMode := false,
        m_pinyinSequence := [] } rfl rfl (by decide)
      (forall_table_of_all exampleLayout (fun c => (⟨c⟩ : BopomofoSyllable).occupiedFields ≤ 1)
        (by decide))).2.2.1 (by decide)⟩

end Mandarin
end Formosa

/-! ## Theorems: language-model aggregator -/

namespace McBopomofo

open McBopomofoLM

theorem mem_setInsert (set : List String) (x v : String) :
    v ∈ setInsert set x ↔ v = x ∨ v ∈ set := by
  unfold setInsert
  by_cases h : set.contains x = true
  · rw [if_pos h]
    constructor
    · intro hv; exact Or.inr hv
    · rintro (rfl | hv)
      · exact List.elem_iff.1 h
      · exact hv
  · rw [if_neg h]
    exact List.mem_cons

theorem mem_foldl_setInsert {σ : Type} (v : String) :
    ∀ (us : List (Unigram σ)) (set : List String),
      v ∈ us.foldl (fun set u => setInsert set u.value) set ↔
        v ∈ set ∨ ∃ u ∈ us, u.value = v := by
  intro us
  induction us with
  | nil => intro set; simp
  | cons u us ih =>
    intro set
    rw [List.foldl_cons, ih, mem_setInsert]
    constructor
    · rintro ((h | h) | ⟨w, hw, hv⟩)
      · exact Or.inr ⟨u, List.mem_cons_self _ _, h.symm⟩
      · exact Or.inl h
      · exact Or.inr ⟨w, List.mem_cons_of_mem _ hw, hv⟩
    · rintro (h | ⟨w, hw, hv⟩)
      · exact Or.inl (Or.inr h)
      · rcases List.mem_cons.1 hw with rfl | hw
        · exact Or.inl (Or.inl hv.symm)
        · exact Or.inr ⟨w, hw, hv⟩

/-- What the loop of `filterAndTransformUnigrams` does: it appends to `results`
a list `new` of unigrams with pairwise distinct values, none of them inserted
before; `insertedValues` grows by exactly those values; every new unigram is
the transform of an entry that is not excluded; and the transformed value of
every entry that is not excluded is inserted afterwards. -/
theorem filterAndTransformLoop_spec {σ : Type} (lm : McBopomofoLM σ) (excludedValues : List String) :
    ∀ (us results : List (Unigram σ)) (ins : List String),
      ∃ new : List (Unigram σ),
        (filterAndTransformLoop lm excludedValues us results ins).1 = results ++ new ∧
        (new.map Unigram.value).Nodup ∧
        (∀ u ∈ new, u.value ∉ ins) ∧
        (∀ v, v ∈ (filterAndTransformLoop lm excludedValues us results ins).2 ↔
          v ∈ ins ∨ v ∈ new.map Unigram.value) ∧
        (∀ u ∈ new, ∃ e ∈ us, e.value ∉ excludedValues ∧
          u = ⟨lm.transformValue e.value, e.score⟩) ∧
        (∀ e ∈ us, e.value ∉ excludedValues →
          lm.transformValue e.value ∈ (filterAndTransformLoop lm excludedValues us results ins).2) := by
  intro us
  induction us with
  | nil =>
    intro results ins
    refine ⟨[], by simp [filterAndTransformLoop], by simp, by simp, by simp [filterAndTransformLoop],
      by simp, by simp⟩
  | cons u rest ih =>
    intro results ins
    by_cases hex : excludedValues.contains u.value = true
    · obtain ⟨new, h1, h2, h3, h4, h5, h6⟩ := ih results ins
      have hmem : u.value ∈ excludedValues := List.elem_iff.1 hex
      have e : filterAndTransformLoop lm excludedValues (u :: rest) results ins =
          filterAndTransformLoop lm excludedValues rest results ins := by
        simp [filterAndTransformLoop, hmem]
      rw [e]
      refine ⟨new, h1, h2, h3, h4, ?_, ?_⟩
      · intro x hx
        obtain ⟨e, he, hne, hxe⟩ := h5 x hx
        exact ⟨e, List.mem_cons_of_mem _ he, hne, hxe⟩
      · intro e he hne
        rcases List.mem_cons.1 he with rfl | he
        · exact absurd hmem hne
        · exact h6 e he hne
    · have hnex : u.value ∉ excludedValues := fun hm => hex (List.elem_iff.2 hm)
      by_cases hin : ins.contains (lm.transformValue u.value) = true
      · obtain ⟨new, h1, h2, h3, h4, h5, h6⟩ := ih results ins
        have hmin : lm.transformValue u.value ∈ ins := List.elem_iff.1 hin
        have e : filterAndTransformLoop lm excludedValues (u :: rest) results ins =
            filterAndTransformLoop lm excludedValues rest results ins := by
          simp [filterAndTransformLoop, hnex, hmin]
        rw [e]
        refine ⟨new, h1, h2, h3, h4, ?_, ?_⟩
        · intro x hx
          obtain ⟨e, he, hne, hxe⟩ := h5 x hx
          exact ⟨e, List.mem_cons_of_mem _ he, hne, hxe⟩
        · intro e he hne
          rcases List.mem_cons.1 he with rfl | he
          · exact (h4 _).2 (Or.inl (List.elem_iff.1 hin))
          · exact h6 e he hne
      · have hnin : lm.transformValue u.value ∉ ins := fun hm => hin (List.elem_iff.2 hm)
        obtain ⟨new, h1, h2, h3, h4, h5, h6⟩ :=
          ih (results ++ [⟨lm.transformValue u.value, u.score⟩])
            (setInsert ins (lm.transformValue u.value))
        have e : filterAndTransformLoop lm excludedValues (u :: rest) results ins =
            filterAndTransformLoop lm excludedValues rest
              (results ++ [⟨lm.transformValue u.value, u.score⟩])
              (setInsert ins (lm.transformValue u.value)) := by
          simp [filterAndTransformLoop, hnex, hnin]
        rw [e]
        refine ⟨⟨lm.transformValue u.value, u.score⟩ :: new, ?_, ?_, ?_, ?_, ?_, ?_⟩
        · rw [h1]; simp
        · rw [List.map_cons, List.nodup_cons]
          refine ⟨?_, h2⟩
          intro hm
          obtain ⟨x, hx, hxv⟩ := List.mem_map.1 hm
          apply h3 x hx
          rw [mem_setInsert]
          exact Or.inl hxv
        · intro x hx
          rcases List.mem_cons.1 hx with rfl | hx
          · exact hnin
          · intro hm
            apply h3 x hx
            rw [mem_setInsert]
            exact Or.inr hm
        · intro v
          rw [h4, mem_setInsert, List.map_cons, List.mem_cons]
          constructor
          · rintro ((h | h) | h)
            · exact Or.inr (Or.inl h)
            · exact Or.inl h
            · exact Or.inr (Or.inr h)
          · rintro (h | h | h)
            · exact Or.inl (Or.inr h)
            · exact Or.inl (Or.inl h)
            · exact Or.inr h
        · intro x hx
          rcases List.mem_cons.1 hx with rfl | hx
          · exact ⟨u, List.mem_cons_self _ _, hnex, rfl⟩
          · obtain ⟨e, he, hne, hxe⟩ := h5 x hx
            exact ⟨e, List.mem_cons_of_mem _ he, hne, hxe⟩
        · intro e he hne
          rcases List.mem_cons.1 he with rfl | he
          · rw [h4, mem_setInsert]
            exact Or.inl (Or.inl rfl)
          · exact h6 e he hne

theorem mem_excludedValues {σ : Type} (lm : McBopomofoLM σ) (key w : String) :
    w ∈ (if lm.m_excludedPhrases.hasUnigrams key then
        (lm.m_excludedPhrases.getUnigrams key).foldl (fun set u => setInsert set u.value) []
      else []) ↔ lm.m_excludedPhrases.HasValue key w := by
  unfold PhraseSource.HasValue
  by_cases h : lm.m_excludedPhrases.hasUnigrams key = true
  · rw [if_pos h, mem_foldl_setInsert]
    simp [h]
  · rw [if_neg h]
    simp [h]

/-- The shape of `getUnigrams` for a key other than the space: the user layer
followed by the global layer, with pairwise distinct values; every unigram is
the transform of an entry of its source that is not excluded, and the
transformed value of every such entry is present. -/
theorem getUnigrams_spec {σ : Type} [Zero σ] (lm : McBopomofoLM σ) (key : String)
    (hkey : key ≠ " ") :
    ∃ userNew globalNew : List (Unigram σ),
      lm.getUnigrams key = userNew ++ globalNew ∧
      ((userNew ++ globalNew).map Unigram.value).Nodup ∧
      (∀ u ∈ userNew, lm.m_userPhrases.hasUnigrams key = true ∧
        ∃ e ∈ lm.m_userPhrases.getUnigrams key, ¬ lm.m_excludedPhrases.HasValue key e.value ∧
          u = ⟨lm.transformValue e.value, e.score⟩) ∧
      (∀ u ∈ globalNew, lm.m_languageModel.hasUnigrams key = true ∧
        ∃ e ∈ lm.m_languageModel.getUnigrams key, ¬ lm.m_excludedPhrases.HasValue key e.value ∧
          u = ⟨lm.transformValue e.value, e.score⟩) ∧
      (lm.m_userPhrases.hasUnigrams key = true → ∀ e ∈ lm.m_userPhrases.getUnigrams key,
        ¬ lm.m_excludedPhrases.HasValue key e.value →
          lm.transformValue e.value ∈ userNew.map Unigram.value) ∧
      (lm.m_languageModel.hasUnigrams key = true → ∀ e ∈ lm.m_languageModel.getUnigrams key,
        ¬ lm.m_excludedPhrases.HasValue key e.value →
          lm.transformValue e.value ∈ (userNew ++ globalNew).map Unigram.value) ∧
      (lm.m_userPhrases.hasUnigrams key = true →
        (filterAndTransformLoop lm
          (if lm.m_excludedPhrases.hasUnigrams key then
            (lm.m_excludedPhrases.getUnigrams key).foldl (fun set u => setInsert set u.value) []
          else []) (lm.m_userPhrases.getUnigrams key) [] []).1 = userNew) := by
  have hk : (key == " ") = false := by simpa using hkey
  generalize hE : (if lm.m_excludedPhrases.hasUnigrams key then
        (lm.m_excludedPhrases.getUnigrams key).foldl (fun set u => setInsert set u.value) []
      else []) = E
  have hmemE : ∀ w, w ∈ E ↔ lm.m_excludedPhrases.HasValue key w := by
    intro w; rw [← hE]; exact mem_excludedValues lm key w
  -- the user layer
  obtain ⟨userNew, insU, hU1, hU2, hU3, hU4, hU5, hU6⟩ :
      ∃ (userNew : List (Unigram σ)) (insU : List String),
        (if lm.m_userPhrases.hasUnigrams key then
          lm.filterAndTransformUnigrams (lm.m_userPhrases.getUnigrams key) E []
        else ([], [])) = (userNew, insU) ∧
        (userNew.map Unigram.value).Nodup ∧
        (∀ v, v ∈ insU ↔ v ∈ userNew.map Unigram.value) ∧
        (∀ u ∈ userNew, lm.m_userPhrases.hasUnigrams key = true ∧
          ∃ e ∈ lm.m_userPhrases.getUnigrams key, e.value ∉ E ∧
            u = ⟨lm.transformValue e.value, e.score⟩) ∧
        (lm.m_userPhrases.hasUnigrams key = true → ∀ e ∈ lm.m_userPhrases.getUnigrams key,
          e.value ∉ E → lm.transformValue e.value ∈ insU) ∧
        (lm.m_userPhrases.hasUnigrams key = true →
          (filterAndTransformLoop lm E (lm.m_userPhrases.getUnigrams key) [] []).1 = userNew) := by
    by_cases h : lm.m_userPhrases.hasUnigrams key = true
    · obtain ⟨new, h1, h2, _, h4, h5, h6⟩ :=
        filterAndTransformLoop_spec lm E (lm.m_userPhrases.getUnigrams key) [] []
      refine ⟨new, (filterAndTransformLoop lm E (lm.m_userPhrases.getUnigrams key) [] []).2,
        ?_, h2, ?_, ?_, ?_, ?_⟩
      · rw [if_pos h]
        simp only [filterAndTransformUnigrams]
        rw [← List.nil_append new, ← h1]
      · intro v; rw [h4]; simp
      · intro u hu; exact ⟨h, h5 u hu⟩
      · intro _ e he hne; exact h6 e he hne
      · intro _; rw [h1]; simp
    · refine ⟨[], [], by rw [if_neg h], by simp, by simp, by simp, ?_, ?_⟩
      · intro h2; exact absurd h2 h
      · intro h2; exact absurd h2 h
  -- the global layer
  obtain ⟨globalNew, hG1, hG2, hG3, hG4, hG5⟩ :
      ∃ globalNew : List (Unigram σ),
        (if lm.m_languageModel.hasUnigrams key then
          lm.filterAndTransformUnigrams (lm.m_languageModel.getUnigrams key) E insU
        else ([], insU)).1 = globalNew ∧
        (globalNew.map Unigram.value).Nodup ∧
        (∀ u ∈ globalNew, u.value ∉ insU) ∧
        (∀ u ∈ globalNew, lm.m_languageModel.hasUnigrams key = true ∧
          ∃ e ∈ lm.m_languageModel.getUnigrams key, e.value ∉ E ∧
            u = ⟨lm.transformValue e.value, e.score⟩) ∧
        (lm.m_languageModel.hasUnigrams key = true → ∀ e ∈ lm.m_languageModel.getUnigrams key,
          e.value ∉ E → lm.transformValue e.value ∈ insU ∨
            lm.transformValue e.value ∈ globalNew.map Unigram.value) := by
    by_cases h : lm.m_languageModel.hasUnigrams key = true
    · obtain ⟨new, h1, h2, h3, h4, h5, h6⟩ :=
        filterAndTransformLoop_spec lm E (lm.m_languageModel.getUnigrams key) [] insU
      refine ⟨new, ?_, h2, h3, ?_, ?_⟩
      · rw [if_pos h]
        simp only [filterAndTransformUnigrams]
        rw [h1]; simp
      · intro u hu; exact ⟨h, h5 u hu⟩
      · intro _ e he hne; exact (h4 _).1 (h6 e he hne)
    · refine ⟨[], by rw [if_neg h], by simp, by simp, by simp, ?_⟩
      intro h2; exact absurd h2 h
  refine ⟨userNew, globalNew, ?_, ?_, ?_, ?_, ?_, ?_, ?_⟩
  · simp only [getUnigrams, hk, Bool.false_eq_true, if_false]
    rw [hE, hU1]
    simp only
    rw [hG1]
  · rw [List.map_append, List.nodup_append]
    refine ⟨hU2, hG2, ?_⟩
    intro v hv1 hv2
    obtain ⟨u, hu, hux⟩ := List.mem_map.1 hv2
    apply hG3 u hu
    rw [hU3, hux]
    exact hv1
  · intro u hu
    obtain ⟨h1, e, he, hne, hue⟩ := hU4 u hu
    exact ⟨h1, e, he, fun hx => hne ((hmemE _).2 hx), hue⟩
  · intro u hu
    obtain ⟨h1, e, he, hne, hue⟩ := hG4 u hu
    exact ⟨h1, e, he, fun hx => hne ((hmemE _).2 hx), hue⟩
  · intro h e he hne
    exact (hU3 _).1 (hU5 h e he (fun hx => hne ((hmemE _).1 hx)))
  · intro h e he hne
    rw [List.map_append, List.mem_append]
    rcases hG5 h e he (fun hx => hne ((hmemE _).1 hx)) with h1 | h1
    · exact Or.inl ((hU3 _).1 h1)
    · exact Or.inr h1
  · exact hU6

theorem transformValue_disabled {σ : Type} (lm : McBopomofoLM σ)
    (hr : lm.m_phraseReplacementEnabled = false) (hc : lm.m_externalConverterEnabled = false)
    (w : String) : lm.transformValue w = w := by
  simp [transformValue, hr, hc]

/-- With the identity transform, the first entry with value `v` in the
remaining unigrams contributes its score when `v` is neither excluded nor
inserted yet. -/
theorem filterAndTransformLoop_first {σ : Type} (lm : McBopomofoLM σ) (excludedValues : List String)
    (hT : ∀ w, lm.transformValue w = w) (v : String) (hv : v ∉ excludedValues) :
    ∀ (us results : List (Unigram σ)) (ins : List String) (e : Unigram σ),
      v ∉ ins → us.find? (fun u => u.value == v) = some e →
      ∃ new, (filterAndTransformLoop lm excludedValues us results ins).1 = results ++ new ∧
        (⟨v, e.score⟩ : Unigram σ) ∈ new := by
  intro us
  induction us with
  | nil => intro results ins e _ hf; simp at hf
  | cons u rest ih =>
    intro results ins e hins hf
    rw [List.find?_cons] at hf
    by_cases huv : u.value = v
    · have hb : (u.value == v) = true := by simpa using huv
      rw [hb] at hf
      simp only [Option.some.injEq] at hf
      subst hf
      have hnex : u.value ∉ excludedValues := by rw [huv]; exact hv
      have hnin : lm.transformValue u.value ∉ ins := by rw [hT, huv]; exact hins
      obtain ⟨new, h1, _⟩ := filterAndTransformLoop_spec lm excludedValues rest
        (results ++ [⟨lm.transformValue u.value, u.score⟩])
        (setInsert ins (lm.transformValue u.value))
      refine ⟨⟨lm.transformValue u.value, u.score⟩ :: new, ?_, ?_⟩
      · have e : filterAndTransformLoop lm excludedValues (u :: rest) results ins =
            filterAndTransformLoop lm excludedValues rest
              (results ++ [⟨lm.transformValue u.value, u.score⟩])
              (setInsert ins (lm.transformValue u.value)) := by
          simp [filterAndTransformLoop, hnex, hnin]
        rw [e, h1]; simp
      · rw [hT, huv]; exact List.mem_cons_self _ _
    · have hb : (u.value == v) = false := by simpa using huv
      rw [hb] at hf
      simp only at hf
      by_cases hex : u.value ∈ excludedValues
      · obtain ⟨new, h1, h2⟩ := ih results ins e hins hf
        refine ⟨new, ?_, h2⟩
        rw [← h1]
        simp [filterAndTransformLoop, hex]
      · by_cases hin : lm.transformValue u.value ∈ ins
        · obtain ⟨new, h1, h2⟩ := ih results ins e hins hf
          refine ⟨new, ?_, h2⟩
          rw [← h1]
          simp [filterAndTransformLoop, hex, hin]
        · have hins2 : v ∉ setInsert ins (lm.transformValue u.value) := by
            rw [mem_setInsert, hT]
            rintro (h | h)
            · exact huv h.symm
            · exact hins h
          obtain ⟨new, h1, h2⟩ := ih (results ++ [⟨lm.transformValue u.value, u.score⟩])
            (setInsert ins (lm.transformValue u.value)) e hins2 hf
          refine ⟨⟨lm.transformValue u.value, u.score⟩ :: new, ?_, List.mem_cons_of_mem _ h2⟩
          have e : filterAndTransformLoop lm excludedValues (u :: rest) results ins =
              filterAndTransformLoop lm excludedValues rest
                (results ++ [⟨lm.transformValue u.value, u.score⟩])
                (setInsert ins (lm.transformValue u.value)) := by
            simp [filterAndTransformLoop, hex, hin]
          rw [e, h1]; simp

/-- Claim C5. Aggregator precedence: for a key other than the space, with
phrase replacement and the external converter disabled, a value `v` that is not
excluded for the key and occurs in both the user source and the global source
is in `getUnigrams key` exactly once (at one index `i`), with the score of its
first occurrence `e` in the user source, and `i` is lower than the index of
every unigram whose value occurs in the global source only. -/
theorem getUnigrams_user_precedence {σ : Type} [Zero σ] (lm : McBopomofoLM σ) (key v : String)
    (hkey : key ≠ " ")
    (hr : lm.m_phraseReplacementEnabled = false) (hc : lm.m_externalConverterEnabled = false)
    (hex : ¬ lm.m_excludedPhrases.HasValue key v)
    (hu : lm.m_userPhrases.HasValue key v) (_hg : lm.m_languageModel.HasValue key v) :
    ∃ (e : Unigram σ) (i : Nat),
      (lm.m_userPhrases.getUnigrams key).find? (fun u => u.value == v) = some e ∧
      (lm.getUnigrams key)[i]? = some ⟨v, e.score⟩ ∧
      (∀ (j : Nat) (u : Unigram σ), (lm.getUnigrams key)[j]? = some u → u.value = v → j = i) ∧
      (∀ (j : Nat) (u : Unigram σ), (lm.getUnigrams key)[j]? = some u →
        lm.m_languageModel.HasValue key u.value → ¬ lm.m_userPhrases.HasValue key u.value →
          i < j) := by
  have hT := transformValue_disabled lm hr hc
  obtain ⟨userNew, globalNew, h1, h2, h3, _, _, _, h7⟩ := getUnigrams_spec lm key hkey
  obtain ⟨hhas, w, hw, hwv⟩ := hu
  -- the first entry of the user source with value `v`
  have hsome : ((lm.m_userPhrases.getUnigrams key).find? (fun u => u.value == v)).isSome := by
    rw [List.find?_isSome]
    exact ⟨w, hw, by simpa using hwv⟩
  obtain ⟨e, he⟩ := Option.isSome_iff_exists.1 hsome
  have hvE : v ∉ (if lm.m_excludedPhrases.hasUnigrams key then
        (lm.m_excludedPhrases.getUnigrams key).foldl (fun set u => setInsert set u.value) []
      else []) := fun hm => hex ((mem_excludedValues lm key v).1 hm)
  obtain ⟨new, hn1, hn2⟩ := filterAndTransformLoop_first lm _ hT v hvE
    (lm.m_userPhrases.getUnigrams key) [] [] e (by simp) he
  rw [h7 hhas, List.nil_append] at hn1
  subst hn1
  obtain ⟨i, hi, hget⟩ := List.getElem_of_mem hn2
  have hgi : (userNew ++ globalNew)[i]? = some ⟨v, e.score⟩ := by
    rw [List.getElem?_append_left hi, List.getElem?_eq_getElem hi, hget]
  refine ⟨e, i, he, by rw [h1]; exact hgi, ?_, ?_⟩
  · intro j u hj huv
    rw [h1] at hj
    have hj2 : ((userNew ++ globalNew).map Unigram.value)[j]? = some v := by
      rw [List.getElem?_map, hj]; simp [huv]
    have hi2 : ((userNew ++ globalNew).map Unigram.value)[i]? = some v := by
      rw [List.getElem?_map, hgi]; rfl
    have hjl : j < ((userNew ++ globalNew).map Unigram.value).length :=
      (List.getElem?_eq_some_iff.1 hj2).1
    have hil : i < ((userNew ++ globalNew).map Unigram.value).length :=
      (List.getElem?_eq_some_iff.1 hi2).1
    have := (@List.Nodup.getElem_inj_iff _ _ h2 j hjl i hil).1 (by
      rw [List.getElem?_eq_getElem hjl] at hj2
      rw [List.getElem?_eq_getElem hil] at hi2
      exact Option.some.inj (hj2.trans hi2.symm))
    exact this
  · intro j u hj _ hnu
    rw [h1] at hj
    by_contra hlt
    have hjl : j < userNew.length := by omega
    rw [List.getElem?_append_left hjl] at hj
    have humem : u ∈ userNew := List.mem_iff_getElem?.2 ⟨j, hj⟩
    obtain ⟨_, e2, he2, _, hue2⟩ := h3 u humem
    apply hnu
    refine ⟨hhas, e2, he2, ?_⟩
    rw [hue2, hT]
    rfl

theorem getUnigrams_user_precedence_witness :
    (¬ exampleLM.m_excludedPhrases.HasValue "k1" "Y" ∧ exampleLM.m_userPhrases.HasValue "k1" "Y" ∧
      exampleLM.m_languageModel.HasValue "k1" "Y") ∧
    ∃ (e : Unigram Int) (i : Nat),
      (exampleLM.m_userPhrases.getUnigrams "k1").find? (fun u => u.value == "Y") = some e ∧
      (exampleLM.getUnigrams "k1")[i]? = some ⟨"Y", e.score⟩ ∧
      (∀ (j : Nat) (u : Unigram Int), (exampleLM.getUnigrams "k1")[j]? = some u →
        u.value = "Y" → j = i) ∧
      (∀ (j : Nat) (u : Unigram Int), (exampleLM.getUnigrams "k1")[j]? = some u →
        exampleLM.m_languageModel.HasValue "k1" u.value →
          ¬ exampleLM.m_userPhrases.HasValue "k1" u.value → i < j) :=
  ⟨by decide, getUnigrams_user_precedence exampleLM "k1" "Y" (by decide) rfl rfl (by decide)
    (by decide) (by decide)⟩

/-- Claim C6, amended. For a key other than the space, a value `v` present in
the excluded source for the key is the value of no unigram of `getUnigrams key`,
provided phrase replacement and the external converter turn no non-excluded
value of the user or global source for that key into `v`; in particular
whenever both are disabled. -/
theorem getUnigrams_exclusion {σ : Type} [Zero σ] (lm : McBopomofoLM σ) (key v : String)
    (hkey : key ≠ " ") (hex : lm.m_excludedPhrases.HasValue key v) :
    ((∀ w, lm.m_userPhrases.HasValue key w ∨ lm.m_languageModel.HasValue key w →
        ¬ lm.m_excludedPhrases.HasValue key w → lm.transformValue w ≠ v) →
      ∀ u ∈ lm.getUnigrams key, u.value ≠ v) ∧
    (lm.m_phraseReplacementEnabled = false → lm.m_externalConverterEnabled = false →
      ∀ u ∈ lm.getUnigrams key, u.value ≠ v) := by
  obtain ⟨userNew, globalNew, h1, _, h3, h4, _, _, _⟩ := getUnigrams_spec lm key hkey
  have main : (∀ w, lm.m_userPhrases.HasValue key w ∨ lm.m_languageModel.HasValue key w →
        ¬ lm.m_excludedPhrases.HasValue key w → lm.transformValue w ≠ v) →
      ∀ u ∈ lm.getUnigrams key, u.value ≠ v := by
    intro hT u hu
    rw [h1, List.mem_append] at hu
    rcases hu with hu | hu
    · obtain ⟨hhas, e, he, hne, hue⟩ := h3 u hu
      rw [hue]
      exact hT e.value (Or.inl ⟨hhas, e, he, rfl⟩) hne
    · obtain ⟨hhas, e, he, hne, hue⟩ := h4 u hu
      rw [hue]
      exact hT e.value (Or.inr ⟨hhas, e, he, rfl⟩) hne
  refine ⟨main, ?_⟩
  intro hr hc
  apply main
  intro w _ hne
  rw [transformValue_disabled lm hr hc]
  intro hwv
  exact hne (hwv ▸ hex)

theorem getUnigrams_exclusion_counterexample :
    (replacingLM.m_excludedPhrases.HasValue "k1" "X" ∧
      replacingLM.getUnigrams "k1" = [⟨"X", 3⟩]) ∧
    (spaceExcludingLM.m_excludedPhrases.HasValue " " " " ∧
      spaceExcludingLM.getUnigrams " " = [⟨" ", 0⟩]) := by
  decide

theorem getUnigrams_exclusion_witness :
    exampleLM.m_excludedPhrases.HasValue "k1" "X" ∧
    (exampleLM.getUnigrams "k1" = [⟨"Y", 3⟩, ⟨"Z", 0⟩] ∧
      ∀ u ∈ exampleLM.getUnigrams "k1", u.value ≠ "X") :=
  ⟨by decide, by decide,
    (getUnigrams_exclusion exampleLM "k1" "X" (by decide) (by decide)).2 rfl rfl⟩

/-- Claim C7. Deduplication: for every key and every configuration, the
values of the unigrams returned by `getUnigrams key` are pairwise distinct. -/
theorem getUnigrams_values_nodup {σ : Type} [Zero σ] (lm : McBopomofoLM σ) (key : String) :
    ((lm.getUnigrams key).map Unigram.value).Nodup := by
  by_cases hkey : key = " "
  · subst hkey
    simp [getUnigrams]
  · obtain ⟨userNew, globalNew, h1, h2, _⟩ := getUnigrams_spec lm key hkey
    rw [h1]
    exact h2

/-- Claim C8. Space key: whatever the sources and settings, `getUnigrams " "`
is the single unigram with value `" "` and score `0`, and `hasUnigrams " "` is
true. -/
theorem getUnigrams_space {σ : Type} [Zero σ] (lm : McBopomofoLM σ) :
    lm.getUnigrams " " = [⟨" ", 0⟩] ∧ lm.hasUnigrams " " = true := by
  constructor
  · simp [getUnigrams]
  · simp [hasUnigrams]

/-- Claim C9. `hasUnigrams` mirrors `getUnigrams`: when the user source and
the global source are self-consistent at the key (`hasUnigrams` is true exactly
when `getUnigrams` is non-empty; nothing is needed of the excluded source),
`hasUnigrams key` is true if and only if `getUnigrams key` is non-empty. -/
theorem hasUnigrams_iff_getUnigrams_ne_nil {σ : Type} [Zero σ] (lm : McBopomofoLM σ)
    (key : String)
    (hU : lm.m_userPhrases.hasUnigrams key = true ↔ lm.m_userPhrases.getUnigrams key ≠ [])
    (hG : lm.m_languageModel.hasUnigrams key = true ↔ lm.m_languageModel.getUnigrams key ≠ []) :
    lm.hasUnigrams key = true ↔ lm.getUnigrams key ≠ [] := by
  by_cases hkey : key = " "
  · subst hkey
    simp [getUnigrams, hasUnigrams]
  · have hk : (key == " ") = false := by simpa using hkey
    by_cases hE : lm.m_excludedPhrases.hasUnigrams key = true
    · simp only [hasUnigrams, hk, hE, Bool.false_eq_true, if_false, Bool.not_true,
        decide_eq_true_eq]
      constructor
      · intro h hnil
        rw [hnil] at h
        simp at h
      · intro h
        exact List.length_pos.2 h
    · have hE2 : lm.m_excludedPhrases.hasUnigrams key = false := by simpa using hE
      simp only [hasUnigrams, hk, hE2, Bool.false_eq_true, if_false, Bool.not_false, if_true,
        Bool.or_eq_true]
      obtain ⟨userNew, globalNew, h1, _, h3, h4, h5, h6, _⟩ := getUnigrams_spec lm key hkey
      have hnoex : ∀ w, ¬ lm.m_excludedPhrases.HasValue key w := by
        intro w hw
        exact hE hw.1
      rw [h1]
      constructor
      · rintro (h | h)
        · obtain ⟨e, es, hes⟩ := List.exists_cons_of_ne_nil (hU.1 h)
          have := h5 h e (by rw [hes]; exact List.mem_cons_self _ _) (hnoex _)
          intro hnil
          have hu0 : userNew = [] := (List.append_eq_nil.1 hnil).1
          rw [hu0] at this
          simp at this
        · obtain ⟨e, es, hes⟩ := List.exists_cons_of_ne_nil (hG.1 h)
          have := h6 h e (by rw [hes]; exact List.mem_cons_self _ _) (hnoex _)
          intro hnil
          rw [hnil] at this
          simp at this
      · intro hne
        cases hun : userNew with
        | cons u us =>
          exact Or.inl (h3 u (by rw [hun]; exact List.mem_cons_self _ _)).1
        | nil =>
          cases hgn : globalNew with
          | cons g gs =>
            exact Or.inr (h4 g (by rw [hgn]; exact List.mem_cons_self _ _)).1
          | nil =>
            rw [hun, hgn] at hne
            exact absurd rfl hne

theorem hasUnigrams_iff_getUnigrams_ne_nil_witness :
    ((exampleLM.m_userPhrases.hasUnigrams "k1" = true ↔
        exampleLM.m_userPhrases.getUnigrams "k1" ≠ []) ∧
      (exampleLM.m_languageModel.hasUnigrams "k1" = true ↔
        exampleLM.m_languageModel.getUnigrams "k1" ≠ [])) ∧
    (exampleLM.hasUnigrams "k1" = true ↔ exampleLM.getUnigrams "k1" ≠ []) :=
  ⟨by decide, hasUnigrams_iff_getUnigrams_ne_nil exampleLM "k1" (by decide) (by decide)⟩

theorem filter_filter_of_imp {α : Type} (p q : α → Bool) (l : List α)
    (h : ∀ x, q x = true → p x = true) : (l.filter p).filter q = l.filter q := by
  rw [List.filter_filter]
  apply List.filter_congr
  intro x _
  cases hq : q x
  · simp
  · simp [h x hq]

theorem contains_setInsert (set : List String) (x v : String) :
    (setInsert set x).contains v = (v == x || set.contains v) := by
  apply Bool.eq_iff_iff.2
  constructor
  · intro h
    rcases (mem_setInsert set x v).1 (List.elem_iff.1 h) with h1 | h1
    · simp [h1]
    · simp [h1]
  · intro h
    apply List.elem_iff.2
    rw [mem_setInsert]
    rcases Bool.or_eq_true_iff.1 h with h1 | h1
    · exact Or.inl (by simpa using h1)
    · exact Or.inr (List.elem_iff.1 h1)

theorem keepFirstByValue_append {σ : Type} (a b : List (Unigram σ)) :
    keepFirstByValue (a ++ b) =
      keepFirstByValue a ++
        (keepFirstByValue b).filter (fun w => !(a.map Unigram.value).contains w.value) := by
  induction a with
  | nil => simp [keepFirstByValue]
  | cons x a ih =>
    show keepFirstByValue (x :: (a ++ b)) = keepFirstByValue (x :: a) ++ _
    rw [keepFirstByValue, keepFirstByValue, ih, List.filter_append, List.filter_filter,
      List.cons_append]
    congr 2
    apply List.filter_congr
    intro w _
    rw [List.map_cons, List.contains_cons]
    cases h1 : (w.value == x.value) <;>
      cases h2 : (a.map Unigram.value).contains w.value <;> simp [bne, h1, h2]

/-- The list the loop of `filterAndTransformUnigrams` works through, as a
pipeline: drop the excluded entries, transform the values. -/
theorem filterAndTransformLoop_eq {σ : Type} (lm : McBopomofoLM σ) (excludedValues : List String) :
    ∀ (us results : List (Unigram σ)) (ins : List String),
      (filterAndTransformLoop lm excludedValues us results ins).1 =
        results ++ (keepFirstByValue
          ((us.filter (fun u => !excludedValues.contains u.value)).map
            (fun u => (⟨lm.transformValue u.value, u.score⟩ : Unigram σ)))).filter
          (fun w => !ins.contains w.value) := by
  intro us
  induction us with
  | nil => intro results ins; simp [filterAndTransformLoop, keepFirstByValue]
  | cons u rest ih =>
    intro results ins
    by_cases hex : u.value ∈ excludedValues
    · have e : filterAndTransformLoop lm excludedValues (u :: rest) results ins =
          filterAndTransformLoop lm excludedValues rest results ins := by
        simp [filterAndTransformLoop, hex]
      rw [e, ih]
      simp [List.filter_cons, hex]
    · by_cases hin : lm.transformValue u.value ∈ ins
      · have e : filterAndTransformLoop lm excludedValues (u :: rest) results ins =
            filterAndTransformLoop lm excludedValues rest results ins := by
          simp [filterAndTransformLoop, hex, hin]
        rw [e, ih]
        have hc : (!excludedValues.contains u.value) = true := by simpa using hex
        simp only [List.filter_cons, hc, if_true, List.map_cons, keepFirstByValue]
        have hx : (!ins.contains (Unigram.value
            (⟨lm.transformValue u.value, u.score⟩ : Unigram σ))) = false := by
          simpa [Unigram.value] using hin
        rw [hx]
        simp only [Bool.false_eq_true, if_false]
        congr 1
        symm
        apply filter_filter_of_imp
        intro w hw
        have hct : ins.contains (lm.transformValue u.value) = true := List.elem_iff.2 hin
        by_contra hne
        have hwv : w.value = lm.transformValue u.value := by simpa [Unigram.value] using hne
        rw [hwv, hct] at hw
        exact absurd hw (by decide)
      · have e : filterAndTransformLoop lm excludedValues (u :: rest) results ins =
            filterAndTransformLoop lm excludedValues rest
              (results ++ [⟨lm.transformValue u.value, u.score⟩])
              (setInsert ins (lm.transformValue u.value)) := by
          simp [filterAndTransformLoop, hex, hin]
        rw [e, ih]
        have hc : (!excludedValues.contains u.value) = true := by simpa using hex
        simp only [List.filter_cons, hc, if_true, List.map_cons, keepFirstByValue]
        have hx : (!ins.contains (Unigram.value
            (⟨lm.transformValue u.value, u.score⟩ : Unigram σ))) = true := by
          simpa [Unigram.value] using hin
        rw [hx]
        simp only [if_true, List.append_assoc, List.singleton_append]
        congr 2
        rw [List.filter_filter]
        apply List.filter_congr
        intro w _
        rw [contains_setInsert]
        show (!(w.value == lm.transformValue u.value || ins.contains w.value)) =
          ((!ins.contains w.value) && (w.value != lm.transformValue u.value))
        cases h1 : (w.value == lm.transformValue u.value) <;>
          cases h2 : ins.contains w.value <;> simp [bne, h1, h2]

theorem mem_filterAndTransformLoop_snd {σ : Type} (lm : McBopomofoLM σ)
    (excludedValues : List String) (us results : List (Unigram σ)) (ins : List String)
    (v : String) :
    v ∈ (filterAndTransformLoop lm excludedValues us results ins).2 ↔
      v ∈ ins ∨ v ∈ ((us.filter (fun u => !excludedValues.contains u.value)).map
        (fun u => (⟨lm.transformValue u.value, u.score⟩ : Unigram σ))).map Unigram.value := by
  obtain ⟨new, _, _, _, h4, h5, h6⟩ := filterAndTransformLoop_spec lm excludedValues us results ins
  rw [h4]
  constructor
  · rintro (h | h)
    · exact Or.inl h
    · obtain ⟨x, hx, hxv⟩ := List.mem_map.1 h
      obtain ⟨e, he, hne, hxe⟩ := h5 x hx
      refine Or.inr (List.mem_map.2 ⟨x, List.mem_map.2 ⟨e, ?_, hxe.symm⟩, hxv⟩)
      rw [List.mem_filter]
      refine ⟨he, ?_⟩
      simpa using hne
  · rintro (h | h)
    · exact Or.inl h
    · obtain ⟨x, hx, hxv⟩ := List.mem_map.1 h
      obtain ⟨e, he, hxe⟩ := List.mem_map.1 hx
      rw [List.mem_filter] at he
      have hne : e.value ∉ excludedValues := by simpa using he.2
      have := h6 e he.1 hne
      rw [h4] at this
      rw [← hxv, ← hxe]
      exact this

theorem mem_excludedSet {σ : Type} (lm : McBopomofoLM σ) (key w : String) :
    w ∈ (lm.m_excludedPhrases.entries key).map Unigram.value ↔
      lm.m_excludedPhrases.HasValue key w := by
  unfold PhraseSource.entries PhraseSource.HasValue
  by_cases h : lm.m_excludedPhrases.hasUnigrams key = true
  · simp [h]
  · simp [h]

/-- The value `filterAndTransformUnigrams` computes is the transformed value of
the specification. -/
theorem transformValue_eq_reference {σ : Type} (lm : McBopomofoLM σ) (v : String) :
    lm.transformValue v = transformedValueReference lm v := by
  unfold transformValue transformedValueReference
  cases hr : lm.m_phraseReplacementEnabled <;> cases he : lm.m_externalConverterEnabled <;>
    cases hc : lm.m_externalConverter <;>
    by_cases hv : lm.m_phraseReplacement v = "" <;> simp [hv]

/-- Claim C16. Aggregation pipeline: for every key other than the space,
`getUnigrams key` equals the reference pipeline `getUnigramsReference`: user
entries then global entries, without the entries whose original value is
excluded, each value replaced by its transformed value (the replacement-map
substitution when enabled and non-empty, then the external converter when
enabled and set) and its score kept, first occurrence of every value kept. -/
theorem getUnigrams_eq_reference {σ : Type} [Zero σ] (lm : McBopomofoLM σ) (key : String)
    (hkey : key ≠ " ") : lm.getUnigrams key = getUnigramsReference lm key := by
  have hk : (key == " ") = false := by simpa using hkey
  simp only [getUnigrams, hk, Bool.false_eq_true, if_false, getUnigramsReference,
    ← transformValue_eq_reference]
  generalize hE : (if lm.m_excludedPhrases.hasUnigrams key then
        (lm.m_excludedPhrases.getUnigrams key).foldl (fun set u => setInsert set u.value) []
      else []) = E
  have hmemE : ∀ w, E.contains w =
      ((lm.m_excludedPhrases.entries key).map Unigram.value).contains w := by
    intro w
    apply Bool.eq_iff_iff.2
    rw [List.elem_iff, List.elem_iff, mem_excludedSet, ← hE]
    exact mem_excludedValues lm key w
  have hU : (if lm.m_userPhrases.hasUnigrams key then
        lm.filterAndTransformUnigrams (lm.m_userPhrases.getUnigrams key) E []
      else ([], [])) =
      filterAndTransformLoop lm E (lm.m_userPhrases.entries key) [] [] := by
    unfold PhraseSource.entries
    by_cases h : lm.m_userPhrases.hasUnigrams key = true
    · simp [h, filterAndTransformUnigrams]
    · simp [h, filterAndTransformLoop]
  rw [hU]
  have hG : ∀ ins : List String, (if lm.m_languageModel.hasUnigrams key then
        lm.filterAndTransformUnigrams (lm.m_languageModel.getUnigrams key) E ins
      else ([], ins)) =
      filterAndTransformLoop lm E (lm.m_languageModel.entries key) [] ins := by
    intro ins
    unfold PhraseSource.entries
    by_cases h : lm.m_languageModel.hasUnigrams key = true
    · simp [h, filterAndTransformUnigrams]
    · simp [h, filterAndTransformLoop]
  rw [hG, filterAndTransformLoop_eq, filterAndTransformLoop_eq, List.filter_append,
    List.map_append, keepFirstByValue_append]
  simp only [List.nil_append]
  have hpred : ∀ l : List (Unigram σ),
      l.filter (fun u => !E.contains u.value) =
        l.filter (fun u =>
          !((lm.m_excludedPhrases.entries key).map Unigram.value).contains u.value) := by
    intro l
    apply List.filter_congr
    intro u _
    rw [hmemE]
  rw [hpred, hpred]
  congr 1
  · apply List.filter_eq_self.2
    intro w _
    rfl
  · apply List.filter_congr
    intro w _
    congr 1
    apply Bool.eq_iff_iff.2
    rw [List.elem_iff, List.elem_iff, mem_filterAndTransformLoop_snd, hpred]
    simp

/-- Claim C15, at the failing input. When the only record of a value splits into
three fields and its score is not above `-DBL_MAX` (the value `-DBL_MAX` itself
or minus infinity), `getReading` returns the empty string, not the first field
of that record. -/
theorem getReading_sentinel {σ : Type} [LinearOrder σ] (lm : McBopomofoLM σ)
    (stod : String → Option σ) (negDblMax : σ) (value record part0 part1 part2 : String)
    (score : σ)
    (hrec : lm.m_languageModel.getReadings value = [record])
    (hsplit : split record ' ' = [part0, part1, part2])
    (hparse : stod part2 = some score)
    (hle : score ≤ negDblMax) :
    lm.getReading stod negDblMax value = some "" := by
  simp only [getReading, hrec, getReadingLoop, hsplit, hparse]
  rw [if_neg (not_lt.2 hle)]

theorem getReading_sentinel_witness :
    (infiniteScoreLM.m_languageModel.getReadings "v" = ["x 0 -inf"] ∧
      split "x 0 -inf" ' ' = ["x", "0", "-inf"] ∧ exampleStod "-inf" = some (-1000)) ∧
    infiniteScoreLM.getReading exampleStod (-1000) "v" = some "" :=
  ⟨by decide, getReading_sentinel infiniteScoreLM exampleStod (-1000) "v" "x 0 -inf" "x" "0" "-inf"
    (-1000) (by decide) (by decide) (by decide) (by decide)⟩

/-- What the loop of `getReading` returns when no `std::stod` throws: the
current value if no remaining score exceeds the current high score, and
otherwise the form of the earliest remaining entry whose score exceeds the
current high score and every earlier score and is not below any later one. -/
theorem getReadingLoop_spec {σ : Type} [LinearOrder σ] (stod : String → Option σ) :
    ∀ (records : List String) (highScore : σ) (highScoringValue : String),
      (∀ record ∈ records, ∀ part0 part1 part2, split record ' ' = [part0, part1, part2] →
        (stod part2).isSome) →
      ∃ r, getReadingLoop stod records highScore highScoringValue = some r ∧
        ((∀ p ∈ scoredForms stod records, p.2 ≤ highScore) → r = highScoringValue) ∧
        ((∃ p ∈ scoredForms stod records, highScore < p.2) →
          ∃ (i : Nat) (score : σ), (scoredForms stod records)[i]? = some (r, score) ∧
            highScore < score ∧
            (∀ (j : Nat) (p : String × σ), j < i → (scoredForms stod records)[j]? = some p →
              p.2 < score) ∧
            (∀ (j : Nat) (p : String × σ), i < j → (scoredForms stod records)[j]? = some p →
              p.2 ≤ score)) := by
  intro records
  induction records with
  | nil =>
    intro hs hv _
    exact ⟨hv, rfl, fun _ => rfl, fun h => by simp [scoredForms] at h⟩
  | cons record rest ih =>
    intro hs hv hparse
    have hrest : ∀ record ∈ rest, ∀ part0 part1 part2,
        split record ' ' = [part0, part1, part2] → (stod part2).isSome :=
      fun r hr => hparse r (List.mem_cons_of_mem _ hr)
    by_cases h3 : ∃ part0 part1 part2, split record ' ' = [part0, part1, part2]
    · obtain ⟨part0, part1, part2, hsplit⟩ := h3
      obtain ⟨score, hscore⟩ := Option.isSome_iff_exists.1
        (hparse record (List.mem_cons_self _ _) part0 part1 part2 hsplit)
      have hsf : scoredForms stod (record :: rest) = (part0, score) :: scoredForms stod rest := by
        simp [scoredForms, hsplit, hscore]
      rw [hsf]
      by_cases hgt : hs < score
      · have e : getReadingLoop stod (record :: rest) hs hv =
            getReadingLoop stod rest score part0 := by
          simp [getReadingLoop, hsplit, hscore, hgt]
        obtain ⟨r, hr, h1, h2⟩ := ih score part0 hrest
        refine ⟨r, by rw [e, hr], ?_, ?_⟩
        · intro hall
          have := hall (part0, score) (List.mem_cons_self _ _)
          exact absurd hgt (not_lt.2 this)
        · intro _
          by_cases hex : ∃ p ∈ scoredForms stod rest, score < p.2
          · obtain ⟨i, sc, hi, hlt, hbefore, hafter⟩ := h2 hex
            refine ⟨i + 1, sc, by simpa using hi, lt_trans hgt hlt, ?_, ?_⟩
            · intro j p hj hp
              cases j with
              | zero =>
                simp only [List.getElem?_cons_zero, Option.some.injEq] at hp
                rw [← hp]
                exact hlt
              | succ j =>
                simp only [List.getElem?_cons_succ] at hp
                exact hbefore j p (by omega) hp
            · intro j p hj hp
              cases j with
              | zero => omega
              | succ j =>
                simp only [List.getElem?_cons_succ] at hp
                exact hafter j p (by omega) hp
          · have hall : ∀ p ∈ scoredForms stod rest, p.2 ≤ score := by
              intro p hp
              by_contra hc
              exact hex ⟨p, hp, not_le.1 hc⟩
            have hrp := h1 hall
            refine ⟨0, score, by simp [hrp], hgt, ?_, ?_⟩
            · intro j p hj _
              omega
            · intro j p hj hp
              cases j with
              | zero => omega
              | succ j =>
                simp only [List.getElem?_cons_succ] at hp
                exact hall p (List.mem_iff_getElem?.2 ⟨j, hp⟩)
      · have e : getReadingLoop stod (record :: rest) hs hv =
            getReadingLoop stod rest hs hv := by
          simp [getReadingLoop, hsplit, hscore, hgt]
        obtain ⟨r, hr, h1, h2⟩ := ih hs hv hrest
        refine ⟨r, by rw [e, hr], ?_, ?_⟩
        · intro hall
          exact h1 (fun p hp => hall p (List.mem_cons_of_mem _ hp))
        · rintro ⟨p, hp, hplt⟩
          have hex : ∃ p ∈ scoredForms stod rest, hs < p.2 := by
            rcases List.mem_cons.1 hp with rfl | hp
            · exact absurd hplt hgt
            · exact ⟨p, hp, hplt⟩
          obtain ⟨i, sc, hi, hlt, hbefore, hafter⟩ := h2 hex
          refine ⟨i + 1, sc, by simpa using hi, hlt, ?_, ?_⟩
          · intro j q hj hq
            cases j with
            | zero =>
              simp only [List.getElem?_cons_zero, Option.some.injEq] at hq
              rw [← hq]
              exact lt_of_le_of_lt (not_lt.1 hgt) hlt
            | succ j =>
              simp only [List.getElem?_cons_succ] at hq
              exact hbefore j q (by omega) hq
          · intro j q hj hq
            cases j with
            | zero => omega
            | succ j =>
              simp only [List.getElem?_cons_succ] at hq
              exact hafter j q (by omega) hq
    · have hsf : scoredForms stod (record :: rest) = scoredForms stod rest := by
        have hnone : (match split record ' ' with
            | [part0, _, part2] => (stod part2).map (fun score => (part0, score))
            | _ => none) = none := by
          split
          · rename_i a b c heq
            exact absurd ⟨a, b, c, heq⟩ h3
          · rfl
        simp only [scoredForms]
        exact List.filterMap_cons_none hnone
      have e : getReadingLoop stod (record :: rest) hs hv = getReadingLoop stod rest hs hv := by
        rw [getReadingLoop]
        split
        · rename_i a b c heq
          exact absurd ⟨a, b, c, heq⟩ h3
        · rfl
      rw [hsf, e]
      exact ih hs hv hrest

theorem findFrom_cases (p : Char → Bool) :
    ∀ (l : List Char) (pos : Nat),
      findFrom p l pos = npos ∨
        ∃ i, ∃ h : i < l.length, findFrom p l pos = pos + i ∧ p (l.get ⟨i, h⟩) = true := by
  intro l
  induction l with
  | nil => intro pos; exact Or.inl rfl
  | cons c cs ih =>
    intro pos
    by_cases hc : p c = true
    · refine Or.inr ⟨0, by simp, ?_, ?_⟩
      · simp [findFrom, hc]
      · simpa using hc
    · have e : findFrom p (c :: cs) pos = findFrom p cs (pos + 1) := by
        simp [findFrom, hc]
      rw [e]
      rcases ih (pos + 1) with h | ⟨i, hi, h1, h2⟩
      · exact Or.inl h
      · refine Or.inr ⟨i + 1, by simp; omega, ?_, ?_⟩
        · rw [h1]; omega
        · simpa using h2

/-- Once `fuel` exceeds the number of characters left after `endPos`, one more
iteration allowance changes nothing: the loop of `split` has ended by itself. -/
theorem splitLoop_fuel (str : List Char) (delim : Char) (hlen : str.length ≤ npos) :
    ∀ (fuel endPos : Nat) (strings : List String), str.length - endPos + 1 ≤ fuel →
      splitLoop str delim (fuel + 1) endPos strings = splitLoop str delim fuel endPos strings := by
  intro fuel
  induction fuel with
  | zero => intro endPos strings h; omega
  | succ f ih =>
    intro endPos strings h
    have step : ∀ (g e : Nat) (acc : List String),
        splitLoop str delim (g + 1) e acc =
          if (find_first_not_of str delim e != npos) = true then
            splitLoop str delim g (find str delim (find_first_not_of str delim e))
              (acc ++ [String.mk (substr str (find_first_not_of str delim e)
                (find str delim (find_first_not_of str delim e) -
                  find_first_not_of str delim e))])
          else acc := fun _ _ _ => rfl
    rw [step (f + 1) endPos strings, step f endPos strings]
    by_cases hs : (find_first_not_of str delim endPos != npos) = true
    · simp only [hs, if_true]
      apply ih
      have hstart : find_first_not_of str delim endPos ≠ npos := by simpa using hs
      rcases findFrom_cases (fun c => c != delim) (str.drop endPos) endPos with h0 | ⟨i, hi, h1, h2⟩
      · exact absurd h0 hstart
      · have hi2 : i < str.length - endPos := by simpa using hi
        have e1 : find_first_not_of str delim endPos = endPos + i := h1
        rw [e1]
        have hdrop : str.drop (endPos + i) =
            (str.drop endPos).get ⟨i, hi⟩ :: (str.drop endPos).drop (i + 1) := by
          rw [← List.drop_drop]
          exact List.drop_eq_getElem_cons hi
        have hnd : ((str.drop endPos).get ⟨i, hi⟩ == delim) = false := by
          simpa [bne] using h2
        have e2 : find str delim (endPos + i) =
            findFrom (fun c => c == delim) ((str.drop endPos).drop (i + 1)) (endPos + i + 1) := by
          simp only [find, hdrop, findFrom, hnd, Bool.false_eq_true, if_false]
        rw [e2]
        rcases findFrom_cases (fun c => c == delim) ((str.drop endPos).drop (i + 1))
          (endPos + i + 1) with h3 | ⟨k, hk, h3, _⟩
        · rw [h3]; omega
        · rw [h3]; omega
    · simp only [hs, Bool.false_eq_true, if_false]

/-- Method `split` does not depend on the iteration allowance of its loop. -/
theorem split_fuel (str : String) (delim : Char) (hlen : str.length ≤ npos) (extra : Nat) :
    splitLoop str.toList delim (str.length + 1 + extra) 0 [] = split str delim := by
  induction extra with
  | zero => rfl
  | succ n ih =>
    rw [← ih]
    have : str.toList.length = str.length := rfl
    exact splitLoop_fuel str.toList delim (by rw [this]; exact hlen) (str.length + 1 + n) 0 []
      (by rw [this]; omega)

/-- What `getReading` returns when no `std::stod` throws: the empty string if no
three-field record has a score above `negDblMax`, and otherwise the first field
of the earliest three-field record whose score is above `negDblMax`, above every
earlier score and not below any later one. -/
theorem getReading_spec {σ : Type} [LinearOrder σ] (lm : McBopomofoLM σ)
    (stod : String → Option σ) (negDblMax : σ) (value : String)
    (hparse : ∀ record ∈ lm.m_languageModel.getReadings value, ∀ part0 part1 part2,
      split record ' ' = [part0, part1, part2] → (stod part2).isSome) :
    ∃ r, lm.getReading stod negDblMax value = some r ∧
      ((∀ p ∈ scoredForms stod (lm.m_languageModel.getReadings value), p.2 ≤ negDblMax) →
        r = "") ∧
      ((∃ p ∈ scoredForms stod (lm.m_languageModel.getReadings value), negDblMax < p.2) →
        ∃ (i : Nat) (score : σ),
          (scoredForms stod (lm.m_languageModel.getReadings value))[i]? = some (r, score) ∧
          negDblMax < score ∧
          (∀ (j : Nat) (p : String × σ), j < i →
            (scoredForms stod (lm.m_languageModel.getReadings value))[j]? = some p →
              p.2 < score) ∧
          (∀ (j : Nat) (p : String × σ), i < j →
            (scoredForms stod (lm.m_languageModel.getReadings value))[j]? = some p →
              p.2 ≤ score)) :=
  getReadingLoop_spec stod (lm.m_languageModel.getReadings value) negDblMax "" hparse

theorem getUnigrams_eq_reference_witness :
    ("k1" ≠ " ") ∧ exampleLM.getUnigrams "k1" = getUnigramsReference exampleLM "k1" ∧
    getUnigramsReference exampleLM "k1" = [⟨"Y", 3⟩, ⟨"Z", 0⟩] ∧
    transformingLM.getUnigrams "k1" = getUnigramsReference transformingLM "k1" ∧
    getUnigramsReference transformingLM "k1" = [⟨"Y+", 3⟩, ⟨"Q+", 0⟩] :=
  ⟨by decide, getUnigrams_eq_reference exampleLM "k1" (by decide), by decide,
    getUnigrams_eq_reference transformingLM "k1" (by decide), by decide⟩

end McBopomofo
